import Mathlib

/-!
# go-keepass2: the encryption / integrity / header pipeline

A shallow embedding of `lib/hashingwriter.go`, `lib/kpcrypto/*.go` and
`lib/database/serialize-*.go`, followed by theorems about it.

Conventions of the embedding.

* A Go `byte`, `uint32` or `uint64` is a `Nat`; every operation that can
  overflow reduces modulo `2 ^ w` explicitly.  A Go `int` that can be negative
  (a count reported by an `io.Writer`, `outputPos`) is an `Int`.
* A Go `[]byte` seen by a callee is the list of its `len` bytes.  Where the
  length and the capacity of a slice differ and the code depends on it
  (`keepassEncoder.buffer`, the argument of `hash.Hash.Sum`) the slice is a
  `Slice`: its backing array and its length.
* Code that mutates state takes the state and returns an `Outcome`: a normal
  return, a panic, or a loop that did not finish within the iteration budget.
* Go's standard library and the packages of the repository that are not among
  the sources (`crypto/sha256`, `crypto/aes`, `crypto/cipher`, `encoding/xml`,
  `encoding/base64`, `crypto/rand`, `keys`, `kpstruct`) are parameters.
-/

namespace keepass2

/-! ## Go runtime -/

/-- A Go `error` value, identified by its message. -/
abbrev Error := String

/-- The way a call of a Go function ends, with the state it leaves behind. -/
inductive Outcome (σ α : Type) where
  /-- The function returned `val`. -/
  | ret (val : α) (st : σ)
  /-- The function panicked with message `msg`. -/
  | panic (msg : String) (st : σ)
  /-- A loop of the function was still running when the budget ran out. -/
  | hang (st : σ)
deriving DecidableEq

/-- The message of Go's runtime panic for a slice expression out of range. -/
def sliceBounds : String := "runtime error: slice bounds out of range"

/-- Go's builtin `copy(dst, src)`: the new contents of `dst`. The first
`min (len dst) (len src)` bytes come from `src`. -/
def copy (dst src : List Nat) : List Nat :=
  src.take dst.length ++ dst.drop src.length

/-- The array `arr` after a callee has turned the window `arr[lo:hi]` into
`f (arr[lo:hi])`; `f` keeps the length, as every in-place operation does. -/
def window (arr : List Nat) (lo hi : Nat) (f : List Nat → List Nat) : List Nat :=
  arr.take lo ++ (f ((arr.take hi).drop lo)).take (hi - lo) ++ arr.drop hi

/-- A Go `[]byte` that starts at the first element of its backing array:
`cap` is the length of the array, `len` the length of the slice. -/
structure Slice where
  arr : List Nat
  len : Nat
deriving DecidableEq

/-- Go's `cap(s)`. -/
def Slice.cap (s : Slice) : Nat := s.arr.length

/-- The bytes `s[0:len(s)]`. -/
def Slice.data (s : Slice) : List Nat := s.arr.take s.len

/-- Go's `make([]byte, len, cap)`. -/
def Slice.make (len cap : Nat) : Slice := { arr := List.replicate cap 0, len := len }

/-- Go's `append(s, d...)`: the slice it returns, and the backing array of `s`
afterwards. When the bytes fit in the capacity they are written in place,
otherwise a new array is allocated and the array of `s` is left alone. -/
def Slice.append (s : Slice) (d : List Nat) : Slice × List Nat :=
  if s.len + d.length ≤ s.cap then
    let arr := window s.arr s.len (s.len + d.length) (fun w => copy w d)
    ({ arr := arr, len := s.len + d.length }, arr)
  else
    ({ arr := s.data ++ d, len := s.len + d.length }, s.arr)

/-- Go's `io.Writer`, as an interface over the state `σ` of the object behind
it: `Write st p` is the call `w.Write(p)` in state `st`. -/
structure Writer (σ : Type) where
  Write : σ → List Nat → Outcome σ (Int × Option Error)

/-- Embeds `binary.LittleEndian.Uint32(b)`; the caller passes at least four bytes. -/
def Uint32 (b : List Nat) : Nat :=
  b.getD 0 0 ||| (b.getD 1 0 <<< 8) ||| (b.getD 2 0 <<< 16) ||| (b.getD 3 0 <<< 24)

/-- The four bytes `binary.LittleEndian.PutUint32` stores for `v`. -/
def le32 (v : Nat) : List Nat :=
  [v % 256, (v >>> 8) % 256, (v >>> 16) % 256, (v >>> 24) % 256]

/-- The two bytes `binary.LittleEndian.PutUint16` stores for `v`. -/
def le16 (v : Nat) : List Nat :=
  [v % 256, (v >>> 8) % 256]

/-- The eight bytes `binary.LittleEndian.PutUint64` stores for `v`. -/
def le64 (v : Nat) : List Nat :=
  [v % 256, (v >>> 8) % 256, (v >>> 16) % 256, (v >>> 24) % 256,
   (v >>> 32) % 256, (v >>> 40) % 256, (v >>> 48) % 256, (v >>> 56) % 256]

/-- Embeds `binary.LittleEndian.PutUint32(b[off:], v)` on the array `b`. -/
def PutUint32 (b : List Nat) (off v : Nat) : List Nat :=
  window b off (off + 4) (fun w => copy w (le32 v))

/-! ## `lib/kpcrypto/salsastream.go` -/

/-- The struct `Salsa20Cipher`: `state [16]uint32`, `output [64]byte`,
`outputPos int`. -/
structure Salsa20Cipher where
  state : List Nat
  output : List Nat
  outputPos : Int
deriving DecidableEq

def s20_sigma1 : Nat := 0x61707865
def s20_sigma2 : Nat := 0x3320646E
def s20_sigma3 : Nat := 0x79622D32
def s20_sigma4 : Nat := 0x6B206574

/-- The zero value `new(Salsa20Cipher)`. -/
def Salsa20Cipher.zero : Salsa20Cipher :=
  { state := List.replicate 16 0, output := List.replicate 64 0, outputPos := 0 }

/-- Embeds `NewSalsa20Cipher(key, iv, dest)`: all sixteen words of `state` are
assigned; `output` and `outputPos` are those of `dest`, or of the zero value
when `dest` is nil. -/
def NewSalsa20Cipher (key iv : List Nat) (dest : Option Salsa20Cipher) : Salsa20Cipher :=
  let c := match dest with
    | some d => d
    | none => Salsa20Cipher.zero
  { c with
    state :=
      [ s20_sigma1,
        Uint32 (key.drop 0), Uint32 (key.drop 4), Uint32 (key.drop 8), Uint32 (key.drop 12),
        s20_sigma2,
        Uint32 (iv.drop 0), Uint32 (iv.drop 4),
        0, 0,
        s20_sigma3,
        Uint32 (key.drop 16), Uint32 (key.drop 20), Uint32 (key.drop 24), Uint32 (key.drop 28),
        s20_sigma4 ] }

/-- Embeds `rotl32(x, count)` on `uint32`. -/
def rotl32 (x count : Nat) : Nat :=
  ((x <<< count) % 2 ^ 32) ||| (x >>> (32 - count))

/-- One line of the round loop:
`scratch[t] ^= rotl32(scratch[a] + scratch[b], count)`. -/
def mixWord (scratch : List Nat) (step : Nat × Nat × Nat × Nat) : List Nat :=
  scratch.set step.1
    (scratch.getD step.1 0 ^^^
      rotl32 ((scratch.getD step.2.1 0 + scratch.getD step.2.2.1 0) % 2 ^ 32) step.2.2.2)

/-- The 32 lines of the body of the round loop of `next`, in order, each as
`(t, a, b, count)`. -/
def roundSteps : List (Nat × Nat × Nat × Nat) :=
  [ (4, 0, 12, 7), (8, 4, 0, 9), (12, 8, 4, 13), (0, 12, 8, 18),
    (9, 5, 1, 7), (13, 9, 5, 9), (1, 13, 9, 13), (5, 1, 13, 18),
    (14, 10, 6, 7), (2, 14, 10, 9), (6, 2, 14, 13), (10, 6, 2, 18),
    (3, 15, 11, 7), (7, 3, 15, 9), (11, 7, 3, 13), (15, 11, 7, 18),
    (1, 0, 3, 7), (2, 1, 0, 9), (3, 2, 1, 13), (0, 3, 2, 18),
    (6, 5, 4, 7), (7, 6, 5, 9), (4, 7, 6, 13), (5, 4, 7, 18),
    (11, 10, 9, 7), (8, 11, 10, 9), (9, 8, 11, 13), (10, 9, 8, 18),
    (12, 15, 14, 7), (13, 12, 15, 9), (14, 13, 12, 13), (15, 14, 13, 18) ]

/-- One pass through the body of `for i := 0; i < 10; i++`. -/
def doubleRound (scratch : List Nat) : List Nat :=
  roundSteps.foldl mixWord scratch

/-- The loop `for i := 0; i < n; i++` around `doubleRound`. -/
def rounds : Nat → List Nat → List Nat
  | 0, scratch => scratch
  | n + 1, scratch => rounds n (doubleRound scratch)

/-- The loop `for i, v := range s20.state { scratch[i] += v }`. -/
def addState : List Nat → List Nat → List Nat
  | x :: xs, v :: vs => ((x + v) % 2 ^ 32) :: addState xs vs
  | xs, _ => xs

/-- The loop `for i := 0; i < n; i++ { PutUint32(output[i << 2:], scratch[i]) }`. -/
def serialize : Nat → List Nat → List Nat → List Nat
  | 0, _, output => output
  | n + 1, scratch, output => PutUint32 (serialize n scratch output) (n <<< 2) (scratch.getD n 0)

/-- The 64 bytes `next` stores in `output`. -/
def Salsa20Cipher.block (s20 : Salsa20Cipher) : List Nat :=
  serialize 16 (addState (rounds 10 s20.state) s20.state) s20.output

/-- The state words after `state[8]++; if state[8] == 0 { state[9]++ }`. -/
def bumpCounter (state : List Nat) : List Nat :=
  let state := state.set 8 ((state.getD 8 0 + 1) % 2 ^ 32)
  if state.getD 8 0 = 0 then state.set 9 ((state.getD 9 0 + 1) % 2 ^ 32) else state

/-- Embeds `(s20 *Salsa20Cipher) next()`. -/
def Salsa20Cipher.next (s20 : Salsa20Cipher) : Salsa20Cipher :=
  { state := bumpCounter s20.state, output := s20.block, outputPos := 0 }

/-- Modelled from the spec: `xorBytes(dst, a, b)` is called by `Cipher` and
defined in none of the sources. It is the helper of that name of Go's
`crypto/cipher`: "exclusive-ORs generated keystream bytes into the buffer in
place", over "the shorter of the latter 2 slices" as the call site says. The
result is the new contents of `dst`. -/
def xorBytes (dst a b : List Nat) : List Nat :=
  copy dst (List.zipWith (fun x y => x ^^^ y) a b)

/-- The loop `for bytesRemaining > 0` of `Cipher` on the buffer `p`, with
`budget` iterations allowed. -/
def Salsa20Cipher.cipherLoop (xor : Bool) :
    Nat → Salsa20Cipher → List Nat → Nat → Nat → Outcome (Salsa20Cipher × List Nat) Unit
  | 0, s20, p, _, _ => .hang (s20, p)
  | budget + 1, s20, p, outputOffset, bytesRemaining =>
    if 0 < bytesRemaining then
      let s20 := if s20.outputPos = 64 then s20.next else s20
      if 64 ≤ s20.outputPos then
        .panic "incorrect code in SalsaRandomStream.Read" (s20, p)
      else if s20.outputPos < 0 then
        -- `s20.output[s20.outputPos:]` with a negative index
        .panic sliceBounds (s20, p)
      else
        let pos := s20.outputPos.toNat
        let nCopy := if bytesRemaining < 64 - pos then bytesRemaining else 64 - pos
        let p :=
          if xor then
            p.take outputOffset ++
              xorBytes (p.drop outputOffset) ((p.take (outputOffset + nCopy)).drop outputOffset)
                ((s20.output.take 64).drop pos)
          else
            p.take outputOffset ++ copy (p.drop outputOffset) (s20.output.drop pos)
        cipherLoop xor budget { s20 with outputPos := s20.outputPos + nCopy } p
          (outputOffset + nCopy) (bytesRemaining - nCopy)
    else
      .ret () (s20, p)

/-- Embeds `(s20 *Salsa20Cipher) Cipher(p, xor)`: the cipher and the buffer `p`
afterwards. Every iteration that does not panic consumes at least one byte,
so `len(p) + 1` iterations are enough. -/
def Salsa20Cipher.Cipher (s20 : Salsa20Cipher) (p : List Nat) (xor : Bool) :
    Outcome (Salsa20Cipher × List Nat) Unit :=
  Salsa20Cipher.cipherLoop xor (p.length + 1) s20 p 0 p.length

/-- The constants `srs_iv_0` to `srs_iv_7`, as the array `salsaIV` built from them. -/
def srs_iv : List Nat := [0xE8, 0x30, 0x09, 0x4B, 0x97, 0x20, 0x5D, 0x2A]

/-- The struct `SalsaRandomStream`, which embeds a `Salsa20Cipher`. -/
structure SalsaRandomStream where
  Salsa20Cipher : Salsa20Cipher
deriving DecidableEq

/-- Embeds `NewSalsaRandomStream(key)`; `sha256` is `sha256.Sum256`. The destination
passed to `NewSalsa20Cipher` is the embedded cipher of a zero
`SalsaRandomStream`. -/
def NewSalsaRandomStream (sha256 : List Nat → List Nat) (key : List Nat) : SalsaRandomStream :=
  let salsaKey := sha256 key
  let salsaIV := srs_iv
  { Salsa20Cipher := NewSalsa20Cipher salsaKey salsaIV (some Salsa20Cipher.zero) }

/-- Embeds `(rs *SalsaRandomStream) Read(p)`: the call of `Cipher(p, false)`, then
`return len(p), nil`. -/
def SalsaRandomStream.Read (rs : SalsaRandomStream) (p : List Nat) :
    Outcome (SalsaRandomStream × List Nat) (Int × Option Error) :=
  match rs.Salsa20Cipher.Cipher p false with
  | .ret _ (c, p) => .ret ((p.length : Int), none) ({ Salsa20Cipher := c }, p)
  | .panic msg (c, p) => .panic msg ({ Salsa20Cipher := c }, p)
  | .hang (c, p) => .hang ({ Salsa20Cipher := c }, p)

/-! ## `lib/kpcrypto/protected.go` -/

/-- The type `ProtectedBuffer []byte`. -/
abbrev ProtectedBuffer := List Nat

/-- Embeds `(pb *ProtectedBuffer) WriteTo(w)`: the body is `return 0, nil`; nothing is
written to `w`, whose state `st` is returned as it was. -/
def ProtectedBuffer.WriteTo {σ : Type} (_pb : ProtectedBuffer) (st : σ) : (Nat × Option Error) × σ :=
  ((0, none), st)

/-- Embeds `(pb *ProtectedBuffer) String()`. -/
def ProtectedBuffer.String (_pb : ProtectedBuffer) : String := ""

/-- Embeds `(pb *ProtectedBuffer) Clear()`: `for i, _ := range pb { pb[i] = 0 }`. -/
def ProtectedBuffer.Clear (pb : ProtectedBuffer) : ProtectedBuffer :=
  pb.map (fun _ => 0)

/-! ## `hash.Hash` and `bytes.Buffer` -/

/-- A `hash.Hash` made by `sha256.New()`: the bytes written to it so far. -/
structure Hash where
  written : List Nat
deriving DecidableEq

/-- Embeds `sha256.New()`. -/
def Hash.New : Hash := { written := [] }

/-- Embeds `h.Write(p)`, which accepts all of `p` and never fails. -/
def Hash.Write (h : Hash) (p : List Nat) : Hash := { written := h.written ++ p }

/-- Embeds `h.Sum(b)`: the digest of the bytes written so far is appended to `b`; the
hash is not changed. The result is that of `append`. -/
def Hash.Sum (sha256 : List Nat → List Nat) (h : Hash) (b : Slice) : Slice × List Nat :=
  b.append (sha256 h.written)

/-- A `hash.Hash` as an `io.Writer`. -/
def Hash.writer : Writer Hash :=
  { Write := fun h p => .ret ((p.length : Int), none) (h.Write p) }

/-- A `bytes.Buffer`: its unread bytes. -/
structure Buffer where
  buf : List Nat
deriving DecidableEq

/-- Embeds `b.Reset()`. -/
def Buffer.Reset (_b : Buffer) : Buffer := { buf := [] }

/-- Embeds `b.Write(p)`, which never fails. -/
def Buffer.Write (b : Buffer) (p : List Nat) : Buffer := { buf := b.buf ++ p }

/-- Embeds `b.WriteTo(w)` of `bytes.Buffer`: one `Write` of all unread bytes when
there are any; the bytes the writer took are consumed, and the buffer is reset
when all were taken. The state is the buffer and the writer. (A negative
count, which no writer may report, consumes nothing.) -/
def Buffer.WriteTo {σ : Type} (W : Writer σ) (b : Buffer) (w : σ) :
    Outcome (Buffer × σ) (Int × Option Error) :=
  if 0 < b.buf.length then
    match W.Write w b.buf with
    | .panic msg w => .panic msg (b, w)
    | .hang w => .hang (b, w)
    | .ret (m, e) w =>
      if (b.buf.length : Int) < m then
        .panic "bytes.Buffer.WriteTo: invalid Write count" (b, w)
      else
        let b : Buffer := { buf := b.buf.drop m.toNat }
        match e with
        | some err => .ret (m, some err) (b, w)
        | none =>
          if 0 < b.buf.length then .ret (m, some "short write") (b, w)
          else .ret (m, none) (b.Reset, w)
  else
    .ret (0, none) (b.Reset, w)

/-! ## `lib/hashingwriter.go` -/

/-- The struct `HashingWriter`: `w` is the state of the writer under it,
`byteCount` a `uint64`. -/
structure HashingWriter (σ : Type) where
  w : σ
  hasher : Hash
  byteCount : Nat
deriving DecidableEq

/-- Embeds `NewHashingWriter(w)`. -/
def NewHashingWriter {σ : Type} (w : σ) : HashingWriter σ :=
  { w := w, hasher := Hash.New, byteCount := 0 }

/-- Embeds `(hw *HashingWriter) Sum(in)`: `return hw.hasher.Sum(in)`. -/
def HashingWriter.Sum {σ : Type} (sha256 : List Nat → List Nat) (hw : HashingWriter σ)
    (in_ : Slice) : Slice :=
  (hw.hasher.Sum sha256 in_).1

/-- Embeds `(hw *HashingWriter) Sum256()`: `buf := make([]byte, sha256.Size)`, then
`hw.hasher.Sum(buf)` whose result is dropped, then `return buf`. -/
def HashingWriter.Sum256 {σ : Type} (sha256 : List Nat → List Nat) (hw : HashingWriter σ) :
    List Nat :=
  let buf := Slice.make 32 32
  let r := hw.hasher.Sum sha256 buf
  ({ arr := r.2, len := buf.len } : Slice).data

/-- Embeds `(hw *HashingWriter) Write(p)`. `W` is the writer under `hw`. The slice
expression `p[:n]` panics when `n` exceeds `len(p)`; `hw.byteCount += n` is
taken with the conversion `uint64(n)`. -/
def HashingWriter.Write {σ : Type} (W : Writer σ) (hw : HashingWriter σ) (p : List Nat) :
    Outcome (HashingWriter σ) (Int × Option Error) :=
  match W.Write hw.w p with
  | .panic msg w => .panic msg { hw with w := w }
  | .hang w => .hang { hw with w := w }
  | .ret (n, err) w =>
    let hw := { hw with w := w }
    if 0 < n then
      if (p.length : Int) < n then .panic sliceBounds hw
      else
        .ret (n, err)
          { hw with
            hasher := hw.hasher.Write (p.take n.toNat),
            byteCount := (((hw.byteCount : Int) + n) % 2 ^ 64).toNat }
    else
      .ret (n, err) { hw with byteCount := (((hw.byteCount : Int) + n) % 2 ^ 64).toNat }

/-- Embeds `(hw *HashingWriter) ByteCount()`. -/
def HashingWriter.ByteCount {σ : Type} (hw : HashingWriter σ) : Nat := hw.byteCount

/-- A `*HashingWriter` as an `io.Writer`. -/
def HashingWriter.writer {σ : Type} (W : Writer σ) : Writer (HashingWriter σ) :=
  { Write := HashingWriter.Write W }

/-! ## `lib/kpcrypto/aes-cbc-pcks7.go` -/

/-- Go's `cipher.BlockMode`, as an interface over the state `β` of the object
behind it (for CBC, the chaining value). `CryptBlocks st src` gives the
encryption of `src`, which has the length of `src`, and the state afterwards. -/
structure BlockMode (β : Type) where
  BlockSize : β → Nat
  CryptBlocks : β → List Nat → List Nat × β
  length_eq : ∀ st src, (CryptBlocks st src).1.length = src.length

/-- The struct `keepassEncoder`: `writer` and `blocker` are the states of the
objects behind the two interface values. -/
structure keepassEncoder (σ β : Type) where
  writer : σ
  blocker : β
  buffer : Slice
  stickErr : Option Error
deriving DecidableEq

/-- Embeds `NewAES256_CBC_PCKS7_Encoder(w, key, iv)`. `newCBCEncrypter key iv` stands
for `aes.NewCipher(key[:])`, which accepts every 32-byte key, followed by
`cipher.NewCBCEncrypter(block, iv[:])`. -/
def NewAES256_CBC_PCKS7_Encoder {σ β : Type} (newCBCEncrypter : List Nat → List Nat → β)
    (w : σ) (key iv : List Nat) : keepassEncoder σ β :=
  { writer := w, blocker := newCBCEncrypter key iv, buffer := Slice.make 0 2048, stickErr := none }

/-- The call `ke.blocker.CryptBlocks(ke.buffer[:n], ke.buffer[:n])`, for
`n <= len(ke.buffer)`. `CryptBlocks` panics when its input is not a whole
number of blocks. -/
def keepassEncoder.cryptBlocks {σ β : Type} (B : BlockMode β) (ke : keepassEncoder σ β) (n : Nat) :
    Outcome (keepassEncoder σ β) Unit :=
  if B.BlockSize ke.blocker = 0 then .panic "runtime error: integer divide by zero" ke
  else if n % B.BlockSize ke.blocker ≠ 0 then .panic "crypto/cipher: input not full blocks" ke
  else
    let c := B.CryptBlocks ke.blocker (ke.buffer.arr.take n)
    .ret () { ke with blocker := c.2, buffer := { ke.buffer with arr := c.1 ++ ke.buffer.arr.drop n } }

/-- The loop
`for offset < bufLen { n, err := ke.writer.Write(ke.buffer[offset:]); offset += n; if err != nil { return offset, err } }`
followed by `return offset, nil`, with `budget` iterations allowed. -/
def keepassEncoder.flushLoop {σ β : Type} (W : Writer σ) :
    Nat → keepassEncoder σ β → Int → Nat → Outcome (keepassEncoder σ β) (Int × Option Error)
  | 0, ke, _, _ => .hang ke
  | budget + 1, ke, offset, bufLen =>
    if offset < bufLen then
      if offset < 0 ∨ (ke.buffer.len : Int) < offset then .panic sliceBounds ke
      else
        match W.Write ke.writer (ke.buffer.data.drop offset.toNat) with
        | .panic msg w => .panic msg { ke with writer := w }
        | .hang w => .hang { ke with writer := w }
        | .ret (n, err) w =>
          match err with
          | some e => .ret (offset + n, some e) { ke with writer := w }
          | none => flushLoop W budget { ke with writer := w } (offset + n) bufLen
    else
      .ret (offset, none) ke

/-- Embeds `(ke *keepassEncoder) flushFullBuffer()`. -/
def keepassEncoder.flushFullBuffer {σ β : Type} (W : Writer σ) (B : BlockMode β) (budget : Nat)
    (ke : keepassEncoder σ β) : Outcome (keepassEncoder σ β) (Int × Option Error) :=
  if ke.buffer.len ≠ ke.buffer.cap then
    .panic "keepassEncoder: incorrect flushBlocks call" ke
  else
    let bufLen := ke.buffer.len
    match ke.cryptBlocks B bufLen with
    | .panic msg ke => .panic msg ke
    | .hang ke => .hang ke
    | .ret _ ke => keepassEncoder.flushLoop W budget ke 0 bufLen

/-- The part of `Write` from `for inBytesRemaining >= max` to the end, with
`budget` iterations of that loop (and of each flush) allowed. -/
def keepassEncoder.writeLoop {σ β : Type} (W : Writer σ) (B : BlockMode β) (budget : Nat)
    (in_ : List Nat) (max : Nat) :
    Nat → keepassEncoder σ β → Nat → Nat → Outcome (keepassEncoder σ β) (Int × Option Error)
  | 0, ke, _, _ => .hang ke
  | k + 1, ke, inBytesWritten, inBytesRemaining =>
    if max ≤ inBytesRemaining then
      if ke.buffer.cap < max ∨ in_.length < inBytesWritten + max then .panic sliceBounds ke
      else
        -- copy(ke.buffer[0:max], in[inBytesWritten:inBytesWritten+max])
        let ke := { ke with buffer := { ke.buffer with
          arr := window ke.buffer.arr 0 max
            (fun w => copy w ((in_.take (inBytesWritten + max)).drop inBytesWritten)) } }
        match ke.flushFullBuffer W B budget with
        | .panic msg ke => .panic msg ke
        | .hang ke => .hang ke
        | .ret (_, some err) ke => .ret (0, some err) { ke with stickErr := some err }
        | .ret (_, none) ke => writeLoop W B budget in_ max k ke (inBytesWritten + max) (inBytesRemaining - max)
    else
      if ke.buffer.cap < inBytesRemaining ∨ in_.length < inBytesWritten then .panic sliceBounds ke
      else
        -- ke.buffer = ke.buffer[0:inBytesRemaining]
        -- copy(ke.buffer[0:inBytesRemaining], in[inBytesWritten:])
        let ke := { ke with buffer :=
          { arr := window ke.buffer.arr 0 inBytesRemaining (fun w => copy w (in_.drop inBytesWritten)),
            len := inBytesRemaining } }
        let inBytesWritten := inBytesWritten + inBytesRemaining
        if inBytesWritten ≠ in_.length then
          .panic "keepassEncoder.Write: screwed up the byte counting, code mistake" ke
        else if ke.buffer.len = ke.buffer.cap then
          .panic "keepassEncoder.Write: screwed up the byte counting, full buffer at end of Write()" ke
        else
          .ret ((inBytesWritten : Int), none) ke

/-- Embeds `(ke *keepassEncoder) Write(in)`. `W` is the writer and `B` the block mode
behind `ke`; `budget` bounds the iterations of each loop. -/
def keepassEncoder.Write {σ β : Type} (W : Writer σ) (B : BlockMode β) (budget : Nat)
    (ke : keepassEncoder σ β) (in_ : List Nat) : Outcome (keepassEncoder σ β) (Int × Option Error) :=
  match ke.stickErr with
  | some e => .ret (0, some e) ke
  | none =>
    let inBytesRemaining := in_.length
    let cur := ke.buffer.len
    let max := ke.buffer.cap
    if cur + inBytesRemaining < max then
      let newLen := cur + inBytesRemaining
      -- ke.buffer = ke.buffer[:newLen]; copy(ke.buffer[cur:newLen], in)
      .ret ((in_.length : Int), none)
        { ke with buffer :=
          { arr := window ke.buffer.arr cur newLen (fun w => copy w in_), len := newLen } }
    else if max < cur ∨ in_.length < max - cur then .panic sliceBounds ke
    else
      let fillBytes := max - cur
      -- copy(ke.buffer[cur:max], in[:fillBytes]); the length of ke.buffer stays cur
      let ke := { ke with buffer := { ke.buffer with
        arr := window ke.buffer.arr cur max (fun w => copy w (in_.take fillBytes)) } }
      match ke.flushFullBuffer W B budget with
      | .panic msg ke => .panic msg ke
      | .hang ke => .hang ke
      | .ret (_, some err) ke => .ret (0, some err) { ke with stickErr := some err }
      | .ret (_, none) ke =>
        keepassEncoder.writeLoop W B budget in_ max budget ke fillBytes (inBytesRemaining - fillBytes)

/-- Embeds `(ke *keepassEncoder) Close()`; the condition `if ke.stickErr` is taken as
`ke.stickErr != nil`, and the padding byte as `byte(padContent)`. The final
loop is that of `flushFullBuffer`, of which `Close` returns the error only. -/
def keepassEncoder.Close {σ β : Type} (W : Writer σ) (B : BlockMode β) (budget : Nat)
    (ke : keepassEncoder σ β) : Outcome (keepassEncoder σ β) (Option Error) :=
  match ke.stickErr with
  | some e => .ret (some e) ke
  | none =>
    let bufLen := ke.buffer.len
    let bs := B.BlockSize ke.blocker
    if bs = 0 then .panic "runtime error: integer divide by zero" ke
    else
      let endOfFullBlocks := bufLen / bs * bs
      let padEnd := endOfFullBlocks + bs
      if ke.buffer.cap < padEnd then
        .panic "keepassEncoder.Close: tried to put padding beyond end of buffer" ke
      else
        let padContent := padEnd - bufLen
        -- ke.buffer = ke.buffer[:padEnd]; for i < padContent: ke.buffer[bufLen+i] = padContent
        let ke := { ke with buffer :=
          { arr := window ke.buffer.arr bufLen (bufLen + padContent)
              (fun w => copy w (List.replicate padContent (padContent % 256))),
            len := padEnd } }
        if ke.buffer.arr.getD (padEnd - 1) 0 ≠ padContent then
          .panic "keepassEncoder.Close: failed to apply PCKS7 padding" ke
        else
          match ke.cryptBlocks B padEnd with
          | .panic msg ke => .panic msg ke
          | .hang ke => .hang ke
          | .ret _ ke =>
            match keepassEncoder.flushLoop W budget ke 0 padEnd with
            | .panic msg ke => .panic msg ke
            | .hang ke => .hang ke
            | .ret (_, err) ke => .ret err ke

/-- A writer that accepts every write in full and without error; its state is
the bytes it has accepted. -/
def acceptAll : Writer (List Nat) :=
  { Write := fun st p => .ret ((p.length : Int), none) (st ++ p) }

/-- A block mode of block size 16 that leaves the bytes as they are; it has
no state. -/
def plainBlocks : BlockMode Unit :=
  { BlockSize := fun _ => 16, CryptBlocks := fun st src => (src, st), length_eq := fun _ _ => rfl }

/-! ## `lib/database/serialize-common.go` -/

def KP2Signature1 : Nat := 0x9AA2D903
def KP2Signature2 : Nat := 0xB54BFB67
def FileVersion : Nat := 0x00030001
def FileVersionCriticalMask : Nat := 0xFFFF0000

def HeaderEndOfHeader : Nat := 0
def HeaderComment : Nat := 1
def HeaderCipherID : Nat := 2
def HeaderCompressionFlags : Nat := 3
def HeaderMasterSeed : Nat := 4
def HeaderTransformSeed : Nat := 5
def HeaderTransformRounds : Nat := 6
def HeaderEncryptionIV : Nat := 7
def HeaderProtectedStreamKey : Nat := 8
def HeaderStreamStartBytes : Nat := 9
def HeaderInnerRandomStreamID : Nat := 10

def CompressionNone : Nat := 0
def CompressionGzip : Nat := 1
def CompressionInvalid : Nat := 2

def StreamCipherNone : Nat := 0
def StreamCipherArcFourVariant : Nat := 1
def StreamCipherSalsa20 : Nat := 2
def StreamCipherInvalid : Nat := 3

def CipherUUIDAES : List Nat :=
  [0x31, 0xC1, 0xF2, 0xE6, 0xBF, 0x71, 0x43, 0x50, 0xBE, 0x58, 0x05, 0x21, 0x6A, 0xFC, 0x5A, 0xFF]

/-- Embeds `uuid.FromBytesOrNil(CipherUUIDAES)`: the sixteen bytes themselves. -/
def CipherUUIDAesParsed : List Nat := CipherUUIDAES

def xmlElemDocNode : String := "KeePassFile"
def xmlElemMeta : String := "Meta"
def xmlElemRoot : String := "Root"
def xmlElemGenerator : String := "Generator"
def xmlElemHeaderHash : String := "HeaderHash"

/-! ## `lib/database/database.go` -/

/-- The fields of the struct `Database` that `WriteOut` reads or writes;
`CipherID` is a `uuid.UUID`, sixteen bytes. The master key and the record tree
belong to packages that are not among the sources. -/
structure Database where
  Name : String
  Description : String
  CipherID : List Nat
  Compression : Nat
  KeyEncryptionRounds : Nat
  InnerRandomStream : Nat
deriving DecidableEq

/-! ## `lib/database/serialize-write.go` -/

def WriteFormatEncrypted : Int := 0
def WriteFormatPlain : Int := 1

/-- The bytes of the constant `xmlHeader`,
`<?xml version="1.0" encoding="UTF-8" standalone="yes"?>` and a line feed. -/
def xmlHeader : List Nat :=
  [60, 63, 120, 109, 108, 32, 118, 101, 114, 115, 105, 111, 110, 61, 34, 49, 46, 48, 34, 32,
   101, 110, 99, 111, 100, 105, 110, 103, 61, 34, 85, 84, 70, 45, 56, 34, 32,
   115, 116, 97, 110, 100, 97, 108, 111, 110, 101, 61, 34, 121, 101, 115, 34, 63, 62, 10]

def ProductName : String := "go-keepass2lib"

/-- Sequencing of Go statements: run `f` on the value and state of a normal
return, pass a panic or a hang on. -/
def Outcome.bind {σ α γ : Type} (x : Outcome σ α) (f : α → σ → Outcome σ γ) : Outcome σ γ :=
  match x with
  | .ret a st => f a st
  | .panic msg st => .panic msg st
  | .hang st => .hang st

/-- The state an outcome leaves behind. -/
def Outcome.state {σ α : Type} : Outcome σ α → σ
  | .ret _ st => st
  | .panic _ st => st
  | .hang st => st

/-- An `xml.Token` of the two kinds `WriteOut` makes. -/
inductive XmlToken where
  | StartElement (name : String)
  | EndElement (name : String)
deriving DecidableEq

/-- Embeds `startElem(name)`. -/
def startElem (name : String) : XmlToken := .StartElement name

/-- Embeds `endElem(name)`. -/
def endElem (name : String) : XmlToken := .EndElement name

/-- Embeds `encodeBool(val)`. -/
def encodeBool (val : Bool) : String :=
  if val then "True" else "False"

/-- A call of a method of `xml.Encoder`. -/
inductive XmlCall where
  | EncodeToken (t : XmlToken)
  | EncodeElement (v : String) (start : XmlToken)
deriving DecidableEq

/-- What `WriteOut` takes from outside the sources. `ξ` is the state of an
`xml.Encoder`, which buffers its output: `xmlEmit st call` gives the slices the
encoder hands, in order, to the writer under it during `call`, and its state
afterwards. `GenerateKey32` is the method of `db.MasterKey`. -/
structure Env (β ξ : Type) where
  sha256 : List Nat → List Nat
  newCBCEncrypter : List Nat → List Nat → β
  blockMode : BlockMode β
  base64 : List Nat → String
  xmlNewEncoder : ξ
  xmlEmit : ξ → XmlCall → List (List Nat) × ξ
  GenerateKey32 : List Nat → Nat → Except Error ProtectedBuffer

/-- The bytes `crypto/rand` delivers to the five calls of `fillRandomOrPanic`
in `WriteOut`, in the order of the calls. -/
structure Seeds where
  masterSeed : List Nat
  transformSeed : List Nat
  encryptionIV : List Nat
  protectedStreamKey : List Nat
  streamStartBytes : List Nat
deriving DecidableEq

/-- Embeds `fillRandomOrPanic(b)` when `rand.Read` delivers `random`: `none` is the
panic on an error or a short read, otherwise `b` afterwards. -/
def fillRandomOrPanic (b random : List Nat) : Option (List Nat) :=
  if random.length < b.length then none else some (copy b random)

/-- Embeds `writeHeaderField(w, id, data)` for `w` a `*bytes.Buffer`. -/
def writeHeaderField (w : Buffer) (id : Nat) (data : List Nat) : Outcome Buffer Unit :=
  let l := data.length
  if 65535 < l then
    .panic ("header field too big: got " ++ toString l ++ " bytes") w
  else
    let head := [id % 256] ++ le16 (l % 2 ^ 16)
    .ret () ((w.Write head).Write data)

/-- Embeds `buildBinPool(root)`: the empty map. -/
def buildBinPool : List (String × ProtectedBuffer) := []

/-- The variables `hashingWriter` and `writerStream` of `WriteOut`. -/
inductive SaveState (σ β : Type) where
  /-- The variable `writerStream` is still nil. -/
  | unset (hw : HashingWriter σ)
  /-- The variable `writerStream` is the encoder, whose writer is `hashingWriter`. -/
  | encrypted (ke : keepassEncoder (HashingWriter σ) β)
  /-- The variable `writerStream` is `hashingWriter`. -/
  | plain (hw : HashingWriter σ)
deriving DecidableEq

/-- The variable `hashingWriter`. -/
def SaveState.hashingWriter {σ β : Type} : SaveState σ β → HashingWriter σ
  | .unset hw => hw
  | .encrypted ke => ke.writer
  | .plain hw => hw

/-- The call `writerStream.Write(p)`. -/
def SaveState.Write {σ β : Type} (W : Writer σ) (B : BlockMode β) (budget : Nat)
    (st : SaveState σ β) (p : List Nat) : Outcome (SaveState σ β) (Int × Option Error) :=
  match st with
  | .unset hw => .panic "runtime error: invalid memory address or nil pointer dereference" (.unset hw)
  | .encrypted ke =>
    match ke.Write (HashingWriter.writer W) B budget p with
    | .ret r ke => .ret r (.encrypted ke)
    | .panic msg ke => .panic msg (.encrypted ke)
    | .hang ke => .hang (.encrypted ke)
  | .plain hw =>
    match hw.Write W p with
    | .ret r hw => .ret r (.plain hw)
    | .panic msg hw => .panic msg (.plain hw)
    | .hang hw => .hang (.plain hw)

/-- The encoder hands the slices `chunks` to `writerStream`, one `Write` each,
until one fails or is short: the result tells whether one did. -/
def xmlWriteChunks {σ β : Type} (W : Writer σ) (B : BlockMode β) (budget : Nat) :
    List (List Nat) → SaveState σ β → Outcome (SaveState σ β) Bool
  | [], st => .ret false st
  | c :: cs, st =>
    match st.Write W B budget c with
    | .panic msg st => .panic msg st
    | .hang st => .hang st
    | .ret (n, err) st =>
      if err.isSome ∨ n < (c.length : Int) then .ret true st
      else xmlWriteChunks W B budget cs st

/-- A call of a method of `enc`, whose error `WriteOut` ignores. The state of
the encoder is `enc.1`; `enc.2` tells that a write has failed before, after
which the encoder writes nothing more. -/
def xmlCall {σ β ξ : Type} (E : Env β ξ) (W : Writer σ) (budget : Nat) (call : XmlCall)
    (enc : ξ × Bool) (st : SaveState σ β) : Outcome (SaveState σ β) (ξ × Bool) :=
  let r := E.xmlEmit enc.1 call
  if enc.2 then .ret (r.2, true) st
  else (xmlWriteChunks W E.blockMode budget r.1 st).bind fun failed st => .ret (r.2, failed) st

/-- The part `// WriteHeader()` of `WriteOut`, up to the last
`writeHeaderField`: the buffer `buf` afterwards. `db.InnerRandomStream` has
been set by the caller. -/
def WriteHeader (db : Database) (s : Seeds) (buf : Buffer) : Outcome Buffer Unit :=
  let buf := buf.Reset
  let buf := buf.Write (le32 KP2Signature1 ++ le32 KP2Signature2)
  let buf := buf.Write (le32 FileVersion)
  if db.CipherID ≠ CipherUUIDAesParsed then
    .panic "keepass.Database.WriteOut: Don't know how to write out any cipher other than AES" buf
  else
    (writeHeaderField buf HeaderCipherID db.CipherID).bind fun _ buf =>
    (writeHeaderField buf HeaderCompressionFlags (le32 db.Compression)).bind fun _ buf =>
    (writeHeaderField buf HeaderMasterSeed s.masterSeed).bind fun _ buf =>
    (writeHeaderField buf HeaderTransformSeed s.transformSeed).bind fun _ buf =>
    (writeHeaderField buf HeaderTransformRounds (le64 db.KeyEncryptionRounds)).bind fun _ buf =>
    (writeHeaderField buf HeaderEncryptionIV s.encryptionIV).bind fun _ buf =>
    (writeHeaderField buf HeaderProtectedStreamKey s.protectedStreamKey).bind fun _ buf =>
    (writeHeaderField buf HeaderStreamStartBytes s.streamStartBytes).bind fun _ buf =>
    (writeHeaderField buf HeaderInnerRandomStreamID (le32 db.InnerRandomStream)).bind fun _ buf =>
    writeHeaderField buf HeaderEndOfHeader [13, 10, 13, 10]

/-- The block `shaHash := sha256.New(); buf.WriteTo(shaHash); shaHash.Sum(arr[:0])`
for a zeroed `arr [32]byte`: the array and the buffer afterwards. -/
def sumOfBuffer (sha256 : List Nat → List Nat) (buf : Buffer) : List Nat × Buffer :=
  let shaHash := Hash.New
  let r := (Buffer.WriteTo Hash.writer buf shaHash).state
  ((r.2.Sum sha256 { arr := List.replicate 32 0, len := 0 }).2, r.1)

/-- The part `// WriteDocument` of `WriteOut`, from `xml.NewEncoder` to the
last `EncodeToken`. -/
def WriteDocument {σ β ξ : Type} (E : Env β ξ) (W : Writer σ) (budget : Nat)
    (hashOfHeader : List Nat) (haveHashOfHeader : Bool) (st : SaveState σ β) :
    Outcome (SaveState σ β) Unit :=
  let enc : ξ × Bool := (E.xmlNewEncoder, false)
  -- writerStream.Write([]byte(xmlHeader)), whose results are dropped
  (st.Write W E.blockMode budget xmlHeader).bind fun _ st =>
  (xmlCall E W budget (.EncodeToken (startElem xmlElemDocNode)) enc st).bind fun enc st =>
  (xmlCall E W budget (.EncodeToken (startElem xmlElemMeta)) enc st).bind fun enc st =>
  (xmlCall E W budget (.EncodeElement ProductName (startElem xmlElemGenerator)) enc st).bind
    fun enc st =>
  (if haveHashOfHeader then
      xmlCall E W budget (.EncodeElement (E.base64 hashOfHeader) (startElem xmlElemHeaderHash))
        enc st
    else .ret enc st).bind fun enc st =>
  (xmlCall E W budget (.EncodeToken (endElem xmlElemMeta)) enc st).bind fun enc st =>
  (xmlCall E W budget (.EncodeToken (startElem xmlElemRoot)) enc st).bind fun _ st =>
  .ret () st

/-- The symmetric key of the part `// AttachStreamEncryption`: `buf.Reset()`,
`buf.Write(masterSeed[:])`, `pbInKey.WriteTo(&buf)`, then the digest of `buf`
into `aesKey`. -/
def aesKey (sha256 : List Nat → List Nat) (masterSeed : List Nat) (pbInKey : ProtectedBuffer)
    (buf : Buffer) : List Nat :=
  let buf := buf.Reset
  let buf := buf.Write masterSeed
  let buf := (pbInKey.WriteTo buf).2
  (sumOfBuffer sha256 buf).1

/-- The return of `WriteOut` with the deferred
`outputCounter = hashingWriter.ByteCount()` applied. -/
def returnCount {σ β : Type} (err : Option Error) (st : SaveState σ β) :
    Outcome (SaveState σ β) (Nat × Option Error) :=
  .ret (st.hashingWriter.ByteCount, err) st

/-- Embeds `(db *Database) WriteOut(w, format)`. `W` is the writer behind `w`, `rnd`
what `crypto/rand` delivers, `budget` the bound on every loop. The calls
`db.Root.GetCounts` and `buildBinPool`, whose results are not used, the stream
`salsaStream`, which is not used either, and the writes that only clear local
variables (`pbInKey.Clear()`, the zeroing of `aesKey` after the encoder is
made, the refill of `buf` under `// Sanitize buffer`) have no part in the
result. -/
def WriteOut {σ β ξ : Type} (E : Env β ξ) (W : Writer σ) (budget : Nat) (db : Database)
    (rnd : Seeds) (w : σ) (format : Int) : Outcome (SaveState σ β) (Nat × Option Error) :=
  let short :=
    Outcome.panic "short read from crypto/rand.Reader" (SaveState.unset (NewHashingWriter w))
  match fillRandomOrPanic (List.replicate 32 0) rnd.masterSeed,
        fillRandomOrPanic (List.replicate 32 0) rnd.transformSeed,
        fillRandomOrPanic (List.replicate 16 0) rnd.encryptionIV,
        fillRandomOrPanic (List.replicate 32 0) rnd.protectedStreamKey,
        fillRandomOrPanic (List.replicate 32 0) rnd.streamStartBytes with
  | some masterSeed, some transformSeed, some encryptionIV, some protectedStreamKey,
      some streamStartBytes =>
    let s : Seeds :=
      { masterSeed := masterSeed, transformSeed := transformSeed, encryptionIV := encryptionIV,
        protectedStreamKey := protectedStreamKey, streamStartBytes := streamStartBytes }
    let hashingWriter := NewHashingWriter w
    let buf : Buffer := { buf := [] }
    let db := { db with InnerRandomStream := StreamCipherSalsa20 }
    if format = WriteFormatEncrypted then
      match WriteHeader db s buf with
      | .panic msg _ => .panic msg (.unset hashingWriter)
      | .hang _ => .hang (.unset hashingWriter)
      | .ret _ buf =>
        let h := sumOfBuffer E.sha256 buf
        let hashOfHeader := h.1
        let buf := h.2
        match Buffer.WriteTo (HashingWriter.writer W) buf hashingWriter with
        | .panic msg (_, hashingWriter) => .panic msg (.unset hashingWriter)
        | .hang (_, hashingWriter) => .hang (.unset hashingWriter)
        | .ret (_, some err) (_, hashingWriter) => returnCount (some err) (.unset hashingWriter)
        | .ret (_, none) (buf, hashingWriter) =>
          match E.GenerateKey32 s.transformSeed db.KeyEncryptionRounds with
          | .error err => returnCount (some err) (.unset hashingWriter)
          | .ok pbInKey =>
            let key := aesKey E.sha256 s.masterSeed pbInKey buf
            let writerStream : SaveState σ β :=
              .encrypted (NewAES256_CBC_PCKS7_Encoder E.newCBCEncrypter hashingWriter key
                s.encryptionIV)
            (WriteDocument E W budget hashOfHeader true writerStream).bind fun _ st =>
              returnCount none st
    else if format = WriteFormatPlain then
      (WriteDocument E W budget (List.replicate 32 0) false (.plain hashingWriter)).bind
        fun _ st => returnCount none st
    else
      .panic "bad WriteFormat in keepass.Database.WriteOut" (.unset hashingWriter)
  | _, _, _, _, _ => short

/-- Embeds `(db *Database) WriteTo(w)`. -/
def Database.WriteTo {σ β ξ : Type} (E : Env β ξ) (W : Writer σ) (budget : Nat) (db : Database)
    (rnd : Seeds) (w : σ) : Outcome (SaveState σ β) (Nat × Option Error) :=
  WriteOut E W budget db rnd w WriteFormatEncrypted

/-! ## Invariants and test objects used by the theorems -/

/-- What every `Write` keeps of an encoder whose buffer is not full: the sink
and the block mode as they were, no sticky error, a buffer that is not full,
and the first `n0` buffered bytes `d0`. -/
def EnvelopeInv {σ β : Type} (w0 : σ) (b0 : β) (n0 : Nat) (d0 : List Nat)
    (ke : keepassEncoder σ β) : Prop :=
  ke.writer = w0 ∧ ke.blocker = b0 ∧ ke.stickErr = none ∧ ke.buffer.len < ke.buffer.cap ∧
    n0 ≤ ke.buffer.len ∧ ke.buffer.arr.take n0 = d0

/-- The invariant `EnvelopeInv` for `writerStream`, when it is the encoder. -/
def SaveInv {σ β : Type} (w0 : HashingWriter σ) (b0 : β) (n0 : Nat) (d0 : List Nat)
    (st : SaveState σ β) : Prop :=
  ∃ ke, st = .encrypted ke ∧ EnvelopeInv w0 b0 n0 d0 ke

/-- A stand-in for the collaborators of `WriteOut`, for concrete instances of
the theorems: the digest is 32 bytes that tell inputs of different lengths
apart, the block mode keeps the key and the IV it was made with and leaves the
bytes as they are, the XML encoder writes nothing, and the key derivation
returns 32 bytes of value 1. -/
def testEnv : Env (List Nat × List Nat) Unit :=
  { sha256 := fun d => List.replicate 32 (d.length % 256),
    newCBCEncrypter := fun key iv => (key, iv),
    blockMode :=
      { BlockSize := fun _ => 16, CryptBlocks := fun st src => (src, st),
        length_eq := fun _ _ => rfl },
    base64 := fun _ => "",
    xmlNewEncoder := (),
    xmlEmit := fun st _ => ([], st),
    GenerateKey32 := fun _ _ => .ok (List.replicate 32 1) }

/-- A database with the AES cipher identifier. -/
def testDb : Database :=
  { Name := "", Description := "", CipherID := CipherUUIDAES, Compression := CompressionNone,
    KeyEncryptionRounds := 6000, InnerRandomStream := StreamCipherNone }

/-- Random bytes that are all zero. -/
def zeroSeeds : Seeds :=
  { masterSeed := List.replicate 32 0, transformSeed := List.replicate 32 0,
    encryptionIV := List.replicate 16 0, protectedStreamKey := List.replicate 32 0,
    streamStartBytes := List.replicate 32 0 }

/-- A cipher state as the code makes it: 64 bytes of output and a position
in them, from 0 to 64. -/
def Salsa20Cipher.WF (s20 : Salsa20Cipher) : Prop :=
  s20.output.length = 64 ∧ 0 ≤ s20.outputPos ∧ s20.outputPos ≤ 64

/-- A writer that accepts three bytes of every write and reports a short
write when more were offered; its state is the bytes it has accepted. -/
def takeThree : Writer (List Nat) :=
  { Write := fun st p =>
      .ret (((min 3 p.length : Nat) : Int), if 3 < p.length then some "short write" else none)
        (st ++ p.take 3) }

/-- A sequence of calls `hw.Write(p)`, one for each slice of the list in turn:
the `(n, err)` each call returned and the writer afterwards. A panic ends the
sequence. -/
def HashingWriter.WriteSeq {σ : Type} (W : Writer σ) :
    List (List Nat) → HashingWriter σ → Outcome (HashingWriter σ) (List (Int × Option Error))
  | [], hw => .ret [] hw
  | p :: ps, hw =>
    match hw.Write W p with
    | .panic msg hw => .panic msg hw
    | .hang hw => .hang hw
    | .ret r hw =>
      match WriteSeq W ps hw with
      | .panic msg hw => .panic msg hw
      | .hang hw => .hang hw
      | .ret rs hw => .ret (r :: rs) hw

/-- The byte counter agrees with the digested data, as far as a `uint64` can
tell. -/
def CountInv {σ : Type} (hw : HashingWriter σ) : Prop :=
  hw.byteCount = hw.hasher.written.length % 2 ^ 64

/-- The keystream read one byte at a time: the state after `n` bytes and the
bytes. Before each byte, `next` runs when the block is used up. -/
def Salsa20Cipher.keystream : Nat → Salsa20Cipher → Salsa20Cipher × List Nat
  | 0, s20 => (s20, [])
  | n + 1, s20 =>
    let s20 := if s20.outputPos = 64 then s20.next else s20
    let r := keystream n { s20 with outputPos := s20.outputPos + 1 }
    (r.1, s20.output.getD s20.outputPos.toNat 0 :: r.2)

/-- A sequence of calls `ke.Write(in)`, one for each slice of the list in turn:
the `(n, err)` each call returned and the encoder afterwards. A panic ends the
sequence. -/
def keepassEncoder.WriteSeq {σ β : Type} (W : Writer σ) (B : BlockMode β) (budget : Nat) :
    List (List Nat) → keepassEncoder σ β →
      Outcome (keepassEncoder σ β) (List (Int × Option Error))
  | [], ke => .ret [] ke
  | in_ :: ins, ke =>
    match ke.Write W B budget in_ with
    | .panic msg ke => .panic msg ke
    | .hang ke => .hang ke
    | .ret r ke =>
      match WriteSeq W B budget ins ke with
      | .panic msg ke => .panic msg ke
      | .hang ke => .hang ke
      | .ret rs ke => .ret (r :: rs) ke

/-! ## The Salsa20/20 block function, after its specification

The definitions named `ref...` follow the published description of Salsa20
(quarter-round, column round, row round, double round, the expansion of a
32-byte key, little-endian words), not the code; the code is compared with
them. -/

/-- Reference: the rotation of a 32-bit word `x` to the left by `c` bits: the
low `32 - c` bits move up by `c`, the high `c` bits move down. -/
def refRotl (x c : Nat) : Nat :=
  2 ^ c * (x % 2 ^ (32 - c)) + x / 2 ^ (32 - c)

/-- Reference: the sum of two 32-bit words, modulo `2 ^ 32`. -/
def refAdd (a b : Nat) : Nat := (a + b) % 2 ^ 32

/-- Four words. -/
structure Quad where
  z0 : Nat
  z1 : Nat
  z2 : Nat
  z3 : Nat
deriving DecidableEq

/-- Reference: the quarter-round of Salsa20, with rotations 7, 9, 13, 18. -/
def refQuarterRound (y0 y1 y2 y3 : Nat) : Quad :=
  let z1 := y1 ^^^ refRotl (refAdd y0 y3) 7
  let z2 := y2 ^^^ refRotl (refAdd z1 y0) 9
  let z3 := y3 ^^^ refRotl (refAdd z2 z1) 13
  let z0 := y0 ^^^ refRotl (refAdd z3 z2) 18
  { z0 := z0, z1 := z1, z2 := z2, z3 := z3 }

/-- Reference: the column round, quarter-rounds on the columns
`(0, 4, 8, 12)`, `(5, 9, 13, 1)`, `(10, 14, 2, 6)`, `(15, 3, 7, 11)`. -/
def refColumnRound (x : List Nat) : List Nat :=
  let a := refQuarterRound (x.getD 0 0) (x.getD 4 0) (x.getD 8 0) (x.getD 12 0)
  let b := refQuarterRound (x.getD 5 0) (x.getD 9 0) (x.getD 13 0) (x.getD 1 0)
  let c := refQuarterRound (x.getD 10 0) (x.getD 14 0) (x.getD 2 0) (x.getD 6 0)
  let d := refQuarterRound (x.getD 15 0) (x.getD 3 0) (x.getD 7 0) (x.getD 11 0)
  [a.z0, b.z3, c.z2, d.z1, a.z1, b.z0, c.z3, d.z2, a.z2, b.z1, c.z0, d.z3, a.z3, b.z2, c.z1, d.z0]

/-- Reference: the row round, quarter-rounds on the rows `(0, 1, 2, 3)`,
`(5, 6, 7, 4)`, `(10, 11, 8, 9)`, `(15, 12, 13, 14)`. -/
def refRowRound (y : List Nat) : List Nat :=
  let a := refQuarterRound (y.getD 0 0) (y.getD 1 0) (y.getD 2 0) (y.getD 3 0)
  let b := refQuarterRound (y.getD 5 0) (y.getD 6 0) (y.getD 7 0) (y.getD 4 0)
  let c := refQuarterRound (y.getD 10 0) (y.getD 11 0) (y.getD 8 0) (y.getD 9 0)
  let d := refQuarterRound (y.getD 15 0) (y.getD 12 0) (y.getD 13 0) (y.getD 14 0)
  [a.z0, a.z1, a.z2, a.z3, b.z3, b.z0, b.z1, b.z2, c.z2, c.z3, c.z0, c.z1, d.z1, d.z2, d.z3, d.z0]

/-- Reference: the double round, a column round and then a row round. -/
def refDoubleRound (x : List Nat) : List Nat := refRowRound (refColumnRound x)

/-- Reference: `n` double rounds. -/
def refRounds : Nat → List Nat → List Nat
  | 0, x => x
  | n + 1, x => refRounds n (refDoubleRound x)

/-- Reference: the little-endian word of four bytes. -/
def refWord (b : List Nat) : Nat :=
  b.getD 0 0 + 2 ^ 8 * b.getD 1 0 + 2 ^ 16 * b.getD 2 0 + 2 ^ 24 * b.getD 3 0

/-- Reference: the four bytes of a word, least significant first. -/
def refBytes (w : Nat) : List Nat :=
  [w % 256, w / 2 ^ 8 % 256, w / 2 ^ 16 % 256, w / 2 ^ 24 % 256]

/-- Reference: the constant of Salsa20 for 32-byte keys, the ASCII string
`expand 32-byte k`. -/
def refSigma : List Nat :=
  [101, 120, 112, 97, 110, 100, 32, 51, 50, 45, 98, 121, 116, 101, 32, 107]

/-- Reference: the sixteen input words for a 32-byte key, an 8-byte nonce and
a 64-bit block counter: sigma0, k0..k3, sigma1, n0, n1, c0, c1, sigma2,
k4..k7, sigma3. -/
def refInput (key nonce : List Nat) (counter : Nat) : List Nat :=
  [ refWord refSigma,
    refWord key, refWord (key.drop 4), refWord (key.drop 8), refWord (key.drop 12),
    refWord (refSigma.drop 4),
    refWord nonce, refWord (nonce.drop 4),
    counter % 2 ^ 32, counter / 2 ^ 32 % 2 ^ 32,
    refWord (refSigma.drop 8),
    refWord (key.drop 16), refWord (key.drop 20), refWord (key.drop 24), refWord (key.drop 28),
    refWord (refSigma.drop 12) ]

/-- Reference: the Salsa20/20 block of `(key, nonce, counter)`: ten double
rounds on the input words, the input words added word by word modulo `2 ^ 32`,
and the sixteen sums written out little-endian. -/
def refSalsa20Block (key nonce : List Nat) (counter : Nat) : List Nat :=
  let x := refInput key nonce counter
  (List.zipWith refAdd (refRounds 10 x) x).flatMap refBytes

/-! # Theorems -/

/-! ## Lemmas on `copy` and `window` -/

theorem copy_length (dst src : List Nat) : (copy dst src).length = dst.length := by
  simp only [copy, List.length_append, List.length_take, List.length_drop]
  omega

theorem window_copy_length (arr : List Nat) (lo hi : Nat) (src : List Nat)
    (h1 : lo ≤ hi) (h2 : hi ≤ arr.length) :
    (window arr lo hi (fun w => copy w src)).length = arr.length := by
  simp only [window, List.length_append, List.length_take, List.length_drop, copy_length]
  omega

theorem window_copy_take (arr : List Nat) (lo hi : Nat) (src : List Nat)
    (h2 : lo ≤ arr.length) :
    (window arr lo hi (fun w => copy w src)).take lo = arr.take lo := by
  simp only [window, List.append_assoc]
  rw [List.take_append_of_le_length (by simp [h2])]
  simp [List.take_take]

/-! ## The block cipher envelope: `Write` -/

/-- The flush that `Write` reaches when the input fills the buffer: the buffer
is filled through `ke.buffer[cur:max]` but its length stays `cur`, so the
check `len(ke.buffer) != cap(ke.buffer)` of `flushFullBuffer` fires. -/
theorem Write_fill_panics {σ β : Type} (W : Writer σ) (B : BlockMode β) (budget : Nat)
    (ke : keepassEncoder σ β) (in_ : List Nat)
    (hs : ke.stickErr = none) (hlt : ke.buffer.len < ke.buffer.cap)
    (hge : ke.buffer.cap ≤ ke.buffer.len + in_.length) :
    ke.Write W B budget in_ =
      .panic "keepassEncoder: incorrect flushBlocks call"
        { ke with buffer := { ke.buffer with
            arr := window ke.buffer.arr ke.buffer.len ke.buffer.cap
              (fun w => copy w (in_.take (ke.buffer.cap - ke.buffer.len))) } } := by
  have hcap : (window ke.buffer.arr ke.buffer.len ke.buffer.cap
      (fun w => copy w (in_.take (ke.buffer.cap - ke.buffer.len)))).length = ke.buffer.cap :=
    window_copy_length _ _ _ _ (Nat.le_of_lt hlt) (Nat.le_refl _)
  unfold keepassEncoder.Write
  rw [hs]
  simp only
  rw [if_neg (by omega), if_neg (by omega)]
  unfold keepassEncoder.flushFullBuffer
  simp only [Slice.cap] at hcap hlt ⊢
  rw [if_pos (by rw [hcap]; omega)]

/-- C1 (fails on the code): on a state with no sticky error and a buffer that
is not full, `Write` panics in `flushFullBuffer` as soon as the input reaches
the end of the buffer (`len(buffer) + len(in) >= cap(buffer)`), whatever the
sink does. The state at the panic holds the sink and the block mode as they
were: nothing has been encrypted or written. -/
theorem Write_panics_at_flush {σ β : Type} (W : Writer σ) (B : BlockMode β) (budget : Nat)
    (ke : keepassEncoder σ β) (in_ : List Nat)
    (hs : ke.stickErr = none) (hlt : ke.buffer.len < ke.buffer.cap)
    (hge : ke.buffer.cap ≤ ke.buffer.len + in_.length) :
    ∃ ke', ke.Write W B budget in_ = .panic "keepassEncoder: incorrect flushBlocks call" ke' ∧
      ke'.writer = ke.writer ∧ ke'.blocker = ke.blocker :=
  ⟨_, Write_fill_panics W B budget ke in_ hs hlt hge, rfl, rfl⟩

/-- C1 at a concrete input: the encoder as `NewAES256_CBC_PCKS7_Encoder` makes
it (empty buffer of capacity 2048), a sink that accepts everything, and one
write of 2048 bytes. `Write` panics and the sink has received nothing. -/
theorem Write_panics_at_flush_witness :
    ∃ ke : keepassEncoder (List Nat) Unit,
      (NewAES256_CBC_PCKS7_Encoder (fun _ _ => ()) ([] : List Nat)
          (List.replicate 32 0) (List.replicate 16 0)).Write
        acceptAll plainBlocks 2 (List.replicate 2048 7) =
        .panic "keepassEncoder: incorrect flushBlocks call" ke ∧ ke.writer = [] := by
  obtain ⟨ke, h, hw, _⟩ := Write_panics_at_flush acceptAll plainBlocks 2
      (NewAES256_CBC_PCKS7_Encoder (fun _ _ => ()) ([] : List Nat)
        (List.replicate 32 0) (List.replicate 16 0))
      (List.replicate 2048 7) rfl
      (by simp only [NewAES256_CBC_PCKS7_Encoder, Slice.make, Slice.cap, List.length_replicate]
          omega)
      (by simp only [NewAES256_CBC_PCKS7_Encoder, Slice.make, Slice.cap, List.length_replicate]
          omega)
  exact ⟨ke, h, hw⟩

theorem copy_of_length_eq (dst src : List Nat) (h : dst.length = src.length) :
    copy dst src = src := by
  simp only [copy, h, List.take_length]
  rw [List.drop_eq_nil_of_le (by omega), List.append_nil]

theorem window_copy_eq (arr : List Nat) (lo hi : Nat) (src : List Nat)
    (h1 : lo + src.length = hi) (h2 : hi ≤ arr.length) :
    window arr lo hi (fun w => copy w src) = arr.take lo ++ src ++ arr.drop hi := by
  have hw : ((arr.take hi).drop lo).length = src.length := by
    simp only [List.length_drop, List.length_take]; omega
  have h3 : ((arr.take hi).drop lo).drop src.length = [] :=
    List.drop_eq_nil_of_le (by omega)
  have h4 : hi - lo = src.length := by omega
  simp only [window, copy, hw, h3, h4, List.take_length, List.append_nil]

theorem window_take_below (arr : List Nat) (lo hi n : Nat) (f : List Nat → List Nat)
    (h1 : n ≤ lo) (h2 : lo ≤ arr.length) :
    (window arr lo hi f).take n = arr.take n := by
  simp only [window, List.append_assoc]
  rw [List.take_append_of_le_length (by simp; omega)]
  rw [List.take_take, Nat.min_eq_left h1]

/-! ## The block cipher envelope: `Close` -/

/-- C2: on a state with no sticky error that holds `L` buffered bytes,
`L < cap`, `cap` a multiple of the block size 16, and with a sink that accepts
every write, `Close` hands to the block mode the `L` buffered bytes followed
by `p = 16 - L mod 16` bytes of value `p`, where `1 <= p <= 16`; it writes the
`(L / 16 + 1) * 16` bytes of the result to the sink in one `Write` and returns
nil; no panic is reached. Two evaluations of the loop condition are enough. -/
theorem Close_pads {σ β : Type} (W : Writer σ) (B : BlockMode β) (budget : Nat)
    (ke : keepassEncoder σ β)
    (hs : ke.stickErr = none) (hlt : ke.buffer.len < ke.buffer.cap)
    (hcap : ke.buffer.cap % 16 = 0) (hbs : B.BlockSize ke.blocker = 16)
    (hW : ∀ st q, ∃ st', W.Write st q = .ret ((q.length : Int), none) st')
    (hb : 2 ≤ budget) :
    1 ≤ 16 - ke.buffer.len % 16 ∧ 16 - ke.buffer.len % 16 ≤ 16 ∧
    ∃ w',
      W.Write ke.writer
          (B.CryptBlocks ke.blocker
            (ke.buffer.data ++
              List.replicate (16 - ke.buffer.len % 16) (16 - ke.buffer.len % 16))).1 =
        .ret ((((ke.buffer.len / 16 + 1) * 16 : Nat) : Int), none) w' ∧
      (B.CryptBlocks ke.blocker
            (ke.buffer.data ++
              List.replicate (16 - ke.buffer.len % 16) (16 - ke.buffer.len % 16))).1.length =
        (ke.buffer.len / 16 + 1) * 16 ∧
      ke.Close W B budget =
        .ret none
          { writer := w',
            blocker := (B.CryptBlocks ke.blocker
              (ke.buffer.data ++
                List.replicate (16 - ke.buffer.len % 16) (16 - ke.buffer.len % 16))).2,
            buffer :=
              { arr := (B.CryptBlocks ke.blocker
                  (ke.buffer.data ++
                    List.replicate (16 - ke.buffer.len % 16) (16 - ke.buffer.len % 16))).1 ++
                  ke.buffer.arr.drop ((ke.buffer.len / 16 + 1) * 16),
                len := (ke.buffer.len / 16 + 1) * 16 },
            stickErr := none } := by
  obtain ⟨w, blk, ⟨arr, L⟩, se⟩ := ke
  simp only [Slice.cap, Slice.data] at *
  subst hs
  have hp : (L / 16 + 1) * 16 - L = 16 - L % 16 := by omega
  have hpe : L / 16 * 16 + 16 = (L / 16 + 1) * 16 := by omega
  have hle : (L / 16 + 1) * 16 ≤ arr.length := by omega
  have hLp : L + (16 - L % 16) = (L / 16 + 1) * 16 := by omega
  generalize hpd : 16 - L % 16 = p at *
  generalize hPE : (L / 16 + 1) * 16 = padEnd at *
  have hp1 : 1 ≤ p := by omega
  have hp16 : p ≤ 16 := by omega
  have hwin : window arr L (L + p) (fun w => copy w (List.replicate p (p % 256))) =
      arr.take L ++ List.replicate p p ++ arr.drop padEnd := by
    rw [window_copy_eq _ _ _ _ (by simp) (by omega), Nat.mod_eq_of_lt (by omega), hLp]
  have htake : (arr.take L ++ List.replicate p p ++ arr.drop padEnd).take padEnd =
      arr.take L ++ List.replicate p p := by
    rw [List.take_append_of_le_length (by simp; omega)]
    rw [List.take_of_length_le (by simp; omega)]
  have hdrop : (arr.take L ++ List.replicate p p ++ arr.drop padEnd).drop padEnd =
      arr.drop padEnd := by
    rw [List.drop_append_of_le_length (by simp; omega)]
    rw [List.drop_of_length_le (by simp; omega)]
    simp
  have hget : (arr.take L ++ List.replicate p p ++ arr.drop padEnd).getD (padEnd - 1) 0 = p := by
    rw [List.getD_eq_getElem?_getD, List.getElem?_append_left (by simp; omega),
      List.getElem?_append_right (by simp; omega)]
    simp only [List.length_take]
    rw [List.getElem?_replicate]
    rw [if_pos (by omega)]
    rfl
  generalize hc : B.CryptBlocks blk (arr.take L ++ List.replicate p p) = c at *
  have hclen : c.1.length = padEnd := by
    rw [← hc, B.length_eq]; simp; omega
  obtain ⟨w', hw'⟩ := hW w c.1
  refine ⟨hp1, hp16, w', ?_, hclen, ?_⟩
  · rw [hw', hclen]
  · unfold keepassEncoder.Close
    simp only [hbs, Slice.cap, hpe, hPE, hp, hpd]
    rw [if_neg (by omega), if_neg (by omega)]
    simp only [hwin, hget]
    rw [if_neg (by simp)]
    unfold keepassEncoder.cryptBlocks
    simp only [hbs, htake, hdrop, hc]
    rw [if_neg (by omega), if_neg (by omega)]
    simp only
    obtain ⟨b', hb'⟩ : ∃ b', budget = b' + 2 := ⟨budget - 2, by omega⟩
    subst hb'
    unfold keepassEncoder.flushLoop
    have hd : (c.1 ++ arr.drop padEnd).take padEnd = c.1 := by
      rw [List.take_append_of_le_length (by omega), List.take_of_length_le (by omega)]
    simp only [Slice.data, hd]
    rw [if_pos (by omega), if_neg (by omega)]
    simp only [Int.toNat_zero, List.drop_zero, hw']
    unfold keepassEncoder.flushLoop
    rw [if_neg (by omega)]

/-- C2 at a concrete input: a buffer of capacity 32 that holds one full block
of sixteen bytes 1. A whole block of padding, sixteen bytes 16, follows the
data. -/
theorem Close_pads_witness :
    ∃ ke' : keepassEncoder (List Nat) Unit,
      keepassEncoder.Close acceptAll plainBlocks 2
          { writer := [], blocker := (), buffer := { arr := List.replicate 32 1, len := 16 },
            stickErr := none } = .ret none ke' ∧
        ke'.writer = List.replicate 16 1 ++ List.replicate 16 16 := by
  obtain ⟨_, _, w', h1, _, h3⟩ := Close_pads acceptAll plainBlocks 2
    { writer := [], blocker := (), buffer := { arr := List.replicate 32 1, len := 16 },
      stickErr := none } rfl (by decide) (by decide) rfl (fun _ _ => ⟨_, rfl⟩) (by decide)
  refine ⟨_, h3, ?_⟩
  simp only [acceptAll, plainBlocks, Slice.data, Outcome.ret.injEq] at h1
  rw [← h1.2]
  decide

/-! ## `WriteOut`: what reaches the sink and the envelope -/

theorem Write_keeps_inv {σ β : Type} (W : Writer σ) (B : BlockMode β) (budget : Nat)
    (w0 : σ) (b0 : β) (n0 : Nat) (d0 : List Nat) (ke : keepassEncoder σ β) (p : List Nat)
    (h : EnvelopeInv w0 b0 n0 d0 ke) :
    EnvelopeInv w0 b0 n0 d0 (ke.Write W B budget p).state := by
  obtain ⟨hw, hb, hs, hlt, hn, hd⟩ := h
  by_cases hfit : ke.buffer.len + p.length < ke.buffer.cap
  · have hr : ke.Write W B budget p = .ret ((p.length : Int), none)
        { ke with buffer :=
          { arr := window ke.buffer.arr ke.buffer.len (ke.buffer.len + p.length)
              (fun w => copy w p), len := ke.buffer.len + p.length } } := by
      unfold keepassEncoder.Write
      rw [hs]
      simp only
      rw [if_pos hfit]
    rw [hr]
    simp only [Slice.cap] at hlt hfit
    refine ⟨hw, hb, hs, ?_, ?_, ?_⟩
    · simp only [Outcome.state, Slice.cap]
      rw [window_copy_length _ _ _ _ (by omega) (by omega)]
      exact hfit
    · simp only [Outcome.state]; omega
    · simp only [Outcome.state]
      rw [window_take_below _ _ _ _ _ hn (by omega)]
      exact hd
  · rw [Write_fill_panics W B budget ke p hs hlt (by omega)]
    simp only [Slice.cap] at hlt hfit
    refine ⟨hw, hb, hs, ?_, hn, ?_⟩
    · simp only [Outcome.state, Slice.cap]
      rw [window_copy_length _ _ _ _ (by omega) (by omega)]
      exact hlt
    · simp only [Outcome.state, Slice.cap]
      rw [window_take_below _ _ _ _ _ hn (by omega)]
      exact hd

theorem SaveState_Write_keeps_inv {σ β : Type} (W : Writer σ) (B : BlockMode β) (budget : Nat)
    (w0 : HashingWriter σ) (b0 : β) (n0 : Nat) (d0 : List Nat) (st : SaveState σ β)
    (p : List Nat) (h : SaveInv w0 b0 n0 d0 st) :
    SaveInv w0 b0 n0 d0 (st.Write W B budget p).state := by
  obtain ⟨ke, rfl, hke⟩ := h
  have := Write_keeps_inv (HashingWriter.writer W) B budget w0 b0 n0 d0 ke p hke
  simp only [SaveState.Write]
  cases hr : ke.Write (HashingWriter.writer W) B budget p <;>
    (rw [hr] at this; exact ⟨_, rfl, this⟩)

theorem bind_state {σ α γ : Type} (P : σ → Prop) (x : Outcome σ α) (f : α → σ → Outcome σ γ)
    (hx : P x.state) (hf : ∀ a st, P st → P (f a st).state) : P (x.bind f).state := by
  cases x <;> simp only [Outcome.bind, Outcome.state] at * <;> first | exact hf _ _ hx | exact hx

theorem xmlWriteChunks_keeps_inv {σ β : Type} (W : Writer σ) (B : BlockMode β) (budget : Nat)
    (w0 : HashingWriter σ) (b0 : β) (n0 : Nat) (d0 : List Nat) (chunks : List (List Nat)) :
    ∀ st : SaveState σ β, SaveInv w0 b0 n0 d0 st →
      SaveInv w0 b0 n0 d0 (xmlWriteChunks W B budget chunks st).state := by
  induction chunks with
  | nil => intro st h; exact h
  | cons c cs ih =>
    intro st h
    have h1 := SaveState_Write_keeps_inv W B budget w0 b0 n0 d0 st c h
    simp only [xmlWriteChunks]
    cases hr : st.Write W B budget c with
    | panic msg st' => rw [hr] at h1; exact h1
    | hang st' => rw [hr] at h1; exact h1
    | ret r st' =>
      rw [hr] at h1
      obtain ⟨n, err⟩ := r
      simp only
      split
      · exact h1
      · exact ih st' h1

theorem xmlCall_keeps_inv {σ β ξ : Type} (E : Env β ξ) (W : Writer σ) (budget : Nat)
    (w0 : HashingWriter σ) (b0 : β) (n0 : Nat) (d0 : List Nat) (call : XmlCall) (enc : ξ × Bool)
    (st : SaveState σ β) (h : SaveInv w0 b0 n0 d0 st) :
    SaveInv w0 b0 n0 d0 (xmlCall E W budget call enc st).state := by
  simp only [xmlCall]
  split
  · exact h
  · exact bind_state _ _ _ (xmlWriteChunks_keeps_inv W E.blockMode budget w0 b0 n0 d0 _ st h)
      (fun _ _ hst => hst)

theorem Write_first {σ β : Type} (W : Writer σ) (B : BlockMode β) (budget : Nat)
    (ke : keepassEncoder σ β) (p : List Nat)
    (hs : ke.stickErr = none) (h0 : ke.buffer.len = 0) (hfit : p.length < ke.buffer.cap) :
    EnvelopeInv ke.writer ke.blocker p.length p (ke.Write W B budget p).state := by
  have hr : ke.Write W B budget p = .ret ((p.length : Int), none)
      { ke with buffer :=
        { arr := window ke.buffer.arr ke.buffer.len (ke.buffer.len + p.length)
            (fun w => copy w p), len := ke.buffer.len + p.length } } := by
    unfold keepassEncoder.Write
    rw [hs]
    simp only
    rw [if_pos (by omega)]
  rw [hr]
  simp only [Slice.cap] at hfit
  simp only [Outcome.state, h0, Nat.zero_add]
  refine ⟨rfl, rfl, hs, ?_, Nat.le_refl _, ?_⟩
  · simp only [Slice.cap]
    rw [window_copy_length _ _ _ _ (by omega) (by omega)]
    exact hfit
  · rw [window_copy_eq _ _ _ _ (by simp) (by omega)]
    simp

theorem WriteDocument_keeps_inv {σ β ξ : Type} (E : Env β ξ) (W : Writer σ) (budget : Nat)
    (hashOfHeader : List Nat) (haveHashOfHeader : Bool)
    (ke : keepassEncoder (HashingWriter σ) β)
    (hs : ke.stickErr = none) (h0 : ke.buffer.len = 0) (hfit : xmlHeader.length < ke.buffer.cap) :
    SaveInv ke.writer ke.blocker xmlHeader.length xmlHeader
      (WriteDocument E W budget hashOfHeader haveHashOfHeader (.encrypted ke)).state := by
  unfold WriteDocument
  simp only
  refine bind_state _ _ _ ?_ (fun _ st h => ?_)
  · have := Write_first (HashingWriter.writer W) E.blockMode budget ke xmlHeader hs h0 hfit
    simp only [SaveState.Write]
    cases hr : ke.Write (HashingWriter.writer W) E.blockMode budget xmlHeader <;>
      (rw [hr] at this; exact ⟨_, rfl, this⟩)
  refine bind_state _ _ _ (xmlCall_keeps_inv E W budget _ _ _ _ _ _ st h) (fun _ st h => ?_)
  refine bind_state _ _ _ (xmlCall_keeps_inv E W budget _ _ _ _ _ _ st h) (fun _ st h => ?_)
  refine bind_state _ _ _ (xmlCall_keeps_inv E W budget _ _ _ _ _ _ st h) (fun enc st h => ?_)
  refine bind_state _ _ _ ?_ (fun _ st h => ?_)
  · split
    · exact xmlCall_keeps_inv E W budget _ _ _ _ _ _ st h
    · exact h
  refine bind_state _ _ _ (xmlCall_keeps_inv E W budget _ _ _ _ _ _ st h) (fun _ st h => ?_)
  refine bind_state _ _ _ (xmlCall_keeps_inv E W budget _ _ _ _ _ _ st h) (fun _ st h => ?_)
  exact h

theorem sumOfBuffer_drains (sha256 : List Nat → List Nat) (buf : Buffer) :
    (sumOfBuffer sha256 buf).2 = { buf := [] } := by
  simp only [sumOfBuffer, Buffer.WriteTo, Hash.writer]
  split
  · rw [if_neg (by omega)]
    simp [Outcome.state, Buffer.Reset]
  · rfl

theorem sumOfBuffer_fst (sha256 : List Nat → List Nat) (buf : Buffer) :
    (sumOfBuffer sha256 buf).1 =
      ((⟨List.replicate 32 0, 0⟩ : Slice).append (sha256 buf.buf)).2 := by
  simp only [sumOfBuffer, Buffer.WriteTo, Hash.writer]
  split
  · rw [if_neg (by omega)]
    simp [Outcome.state, Hash.Sum, Hash.Write, Hash.New]
  · rename_i h
    have : buf.buf = [] := List.eq_nil_of_length_eq_zero (by omega)
    simp [Outcome.state, Hash.Sum, Hash.New, this]

theorem WriteTo_empty {σ : Type} (W : Writer σ) (w : σ) :
    Buffer.WriteTo W { buf := [] } w = .ret (0, none) ({ buf := [] }, w) := by
  simp [Buffer.WriteTo, Buffer.Reset]

theorem fillRandomOrPanic_eq (n : Nat) (r : List Nat) (h : r.length = n) :
    fillRandomOrPanic (List.replicate n 0) r = some r := by
  unfold fillRandomOrPanic
  rw [if_neg (by simp [h]), copy_of_length_eq _ _ (by simp [h])]

theorem WriteOut_ok_branch {σ β ξ : Type} (E : Env β ξ) (W : Writer σ) (budget : Nat)
    (hashOfHeader key iv : List Nat) (w : σ) :
    SaveInv (NewHashingWriter w) (E.newCBCEncrypter key iv) xmlHeader.length xmlHeader
      ((WriteDocument E W budget hashOfHeader true
        (.encrypted (NewAES256_CBC_PCKS7_Encoder E.newCBCEncrypter (NewHashingWriter w) key iv))).bind
        fun _ st => returnCount none st).state := by
  refine bind_state _ _ _ ?_ (fun _ st h => h)
  exact WriteDocument_keeps_inv E W budget hashOfHeader true
    (NewAES256_CBC_PCKS7_Encoder E.newCBCEncrypter (NewHashingWriter w) key iv) rfl rfl
    (by simp only [NewAES256_CBC_PCKS7_Encoder, Slice.make, Slice.cap, List.length_replicate]
        decide)

theorem SaveInv_hashingWriter {σ β : Type} (w0 : HashingWriter σ) (b0 : β) (n0 : Nat)
    (d0 : List Nat) (st : SaveState σ β) (h : SaveInv w0 b0 n0 d0 st) : st.hashingWriter = w0 := by
  obtain ⟨ke, rfl, hke⟩ := h
  exact hke.1

theorem writeHeaderField_ret (w : Buffer) (id : Nat) (data : List Nat) (h : data.length ≤ 65535) :
    writeHeaderField w id data =
      .ret () ((w.Write ([id % 256] ++ le16 (data.length % 2 ^ 16))).Write data) := by
  unfold writeHeaderField
  simp only
  rw [if_neg (by omega)]

theorem WriteHeader_returns (db : Database) (s : Seeds) (buf : Buffer)
    (hAES : db.CipherID = CipherUUIDAesParsed)
    (h1 : s.masterSeed.length = 32) (h2 : s.transformSeed.length = 32)
    (h3 : s.encryptionIV.length = 16) (h4 : s.protectedStreamKey.length = 32)
    (h5 : s.streamStartBytes.length = 32) :
    ∃ buf', WriteHeader db s buf = .ret () buf' := by
  unfold WriteHeader
  simp only
  rw [if_neg (by simp [hAES])]
  rw [writeHeaderField_ret _ _ _ (by rw [hAES]; decide)]
  simp only [Outcome.bind]
  rw [writeHeaderField_ret _ _ _ (by simp [le32])]
  simp only [Outcome.bind]
  rw [writeHeaderField_ret _ _ _ (by omega)]
  simp only [Outcome.bind]
  rw [writeHeaderField_ret _ _ _ (by omega)]
  simp only [Outcome.bind]
  rw [writeHeaderField_ret _ _ _ (by simp [le64])]
  simp only [Outcome.bind]
  rw [writeHeaderField_ret _ _ _ (by omega)]
  simp only [Outcome.bind]
  rw [writeHeaderField_ret _ _ _ (by omega)]
  simp only [Outcome.bind]
  rw [writeHeaderField_ret _ _ _ (by omega)]
  simp only [Outcome.bind]
  rw [writeHeaderField_ret _ _ _ (by simp [le32])]
  simp only [Outcome.bind]
  rw [writeHeaderField_ret _ _ _ (by simp)]
  exact ⟨_, rfl⟩

theorem aesKey_eq (sha256 : List Nat → List Nat) (masterSeed : List Nat) (pbInKey : ProtectedBuffer)
    (buf : Buffer) (hsha : (sha256 masterSeed).length = 32) :
    aesKey sha256 masterSeed pbInKey buf = sha256 masterSeed := by
  unfold aesKey
  simp only [ProtectedBuffer.WriteTo, Buffer.Write, Buffer.Reset, List.nil_append]
  rw [sumOfBuffer_fst]
  simp only [Slice.append, Slice.cap, List.length_replicate, hsha, Nat.zero_add]
  rw [if_pos (by omega)]
  simp only
  rw [window_copy_eq _ _ _ _ (by omega) (by simp)]
  simp

theorem WriteOut_encrypted_state {σ β ξ : Type} (E : Env β ξ) (W : Writer σ) (budget : Nat)
    (db : Database) (rnd : Seeds) (w : σ) (K : ProtectedBuffer)
    (hAES : db.CipherID = CipherUUIDAesParsed)
    (h1 : rnd.masterSeed.length = 32) (h2 : rnd.transformSeed.length = 32)
    (h3 : rnd.encryptionIV.length = 16) (h4 : rnd.protectedStreamKey.length = 32)
    (h5 : rnd.streamStartBytes.length = 32)
    (hkey : E.GenerateKey32 rnd.transformSeed db.KeyEncryptionRounds = .ok K) :
    SaveInv (NewHashingWriter w)
      (E.newCBCEncrypter (aesKey E.sha256 rnd.masterSeed K { buf := [] }) rnd.encryptionIV)
      xmlHeader.length xmlHeader
      (WriteOut E W budget db rnd w WriteFormatEncrypted).state := by
  obtain ⟨ms, ts, iv, pk, sb⟩ := rnd
  obtain ⟨buf', hbuf⟩ := WriteHeader_returns { db with InnerRandomStream := StreamCipherSalsa20 }
    ⟨ms, ts, iv, pk, sb⟩ { buf := [] } hAES h1 h2 h3 h4 h5
  simp only at h1 h2 h3 h4 h5 hkey
  unfold WriteOut
  simp only [fillRandomOrPanic_eq _ _ h1, fillRandomOrPanic_eq _ _ h2, fillRandomOrPanic_eq _ _ h3,
    fillRandomOrPanic_eq _ _ h4, fillRandomOrPanic_eq _ _ h5]
  rw [if_pos trivial]
  rw [hbuf]
  simp only
  rw [sumOfBuffer_drains, WriteTo_empty]
  simp only [hkey]
  exact WriteOut_ok_branch E W budget _ _ _ w

/-- C3 (fails on the code): in the encrypted format `WriteOut` writes nothing
to the caller's sink, for every database, random bytes and sink and however
the call ends. `buf.WriteTo(shaHash)` drains the buffer that holds the header,
so the `buf.WriteTo(hashingWriter)` that follows finds it empty; the document
stays in the buffer of the encoder, which is never closed. At the end
`hashingWriter` is as `NewHashingWriter` made it: the sink in its first state,
nothing digested, zero bytes counted. -/
theorem WriteOut_writes_nothing_to_sink {σ β ξ : Type} (E : Env β ξ) (W : Writer σ) (budget : Nat)
    (db : Database) (rnd : Seeds) (w : σ) :
    (WriteOut E W budget db rnd w WriteFormatEncrypted).state.hashingWriter =
      NewHashingWriter w := by
  unfold WriteOut
  simp only
  split
  · rw [if_pos trivial]
    split
    · rfl
    · rfl
    · rw [sumOfBuffer_drains, WriteTo_empty]
      simp only
      split
      · rfl
      · exact SaveInv_hashingWriter _ _ _ _ _ (WriteOut_ok_branch E W budget _ _ _ w)
  · rfl

/-- The run of `WriteOut` on the test objects, in the encrypted format: it
returns `(0, nil)`, and the document so far, the 56 bytes of `xmlHeader`, is in
the buffer of the encoder. -/
theorem WriteOut_test_run :
    WriteOut testEnv acceptAll 2 testDb zeroSeeds ([] : List Nat) WriteFormatEncrypted =
      .ret (0, none)
        (.encrypted
          { writer := NewHashingWriter [],
            blocker := (List.replicate 32 32, List.replicate 16 0),
            buffer := { arr := xmlHeader ++ List.replicate 1992 0, len := 56 },
            stickErr := none }) := by
  decide!

/-- C3 at a concrete input: a database with the AES identifier and a sink that
accepts everything and records it. `WriteOut` returns `(0, nil)` and the sink
has recorded no byte. -/
theorem WriteOut_writes_nothing_to_sink_witness :
    ∃ st, WriteOut testEnv acceptAll 2 testDb zeroSeeds ([] : List Nat) WriteFormatEncrypted =
        .ret (0, none) st ∧ st.hashingWriter.w = [] := by
  have h := WriteOut_writes_nothing_to_sink testEnv acceptAll 2 testDb zeroSeeds ([] : List Nat)
  rw [WriteOut_test_run] at h
  exact ⟨_, WriteOut_test_run, congrArg HashingWriter.w h⟩

/-- C4 (fails on the code): in the encrypted format, with the AES identifier,
full reads of random bytes and a key derivation that succeeds, the plaintext in
the buffer of the envelope at the end of `WriteOut` starts with the 56 bytes of
`xmlHeader`; the stream-start bytes are never written into the envelope. -/
theorem WriteOut_first_plaintext_is_xmlHeader {σ β ξ : Type} (E : Env β ξ) (W : Writer σ)
    (budget : Nat) (db : Database) (rnd : Seeds) (w : σ) (K : ProtectedBuffer)
    (hAES : db.CipherID = CipherUUIDAesParsed)
    (h1 : rnd.masterSeed.length = 32) (h2 : rnd.transformSeed.length = 32)
    (h3 : rnd.encryptionIV.length = 16) (h4 : rnd.protectedStreamKey.length = 32)
    (h5 : rnd.streamStartBytes.length = 32)
    (hkey : E.GenerateKey32 rnd.transformSeed db.KeyEncryptionRounds = .ok K) :
    ∃ ke, (WriteOut E W budget db rnd w WriteFormatEncrypted).state = .encrypted ke ∧
      xmlHeader.length ≤ ke.buffer.len ∧ ke.buffer.data.take xmlHeader.length = xmlHeader := by
  obtain ⟨ke, hst, _, _, _, _, hn, hd⟩ :=
    WriteOut_encrypted_state E W budget db rnd w K hAES h1 h2 h3 h4 h5 hkey
  refine ⟨ke, hst, hn, ?_⟩
  rw [Slice.data, List.take_take, Nat.min_eq_left hn]
  exact hd

/-- C4 at a concrete input: stream-start bytes that are 32 zero bytes. The
first 32 bytes of plaintext in the envelope are not the stream-start bytes. -/
theorem WriteOut_first_plaintext_is_xmlHeader_witness :
    ∃ ke, (WriteOut testEnv acceptAll 2 testDb zeroSeeds ([] : List Nat)
        WriteFormatEncrypted).state = .encrypted ke ∧
      ke.buffer.data.take 32 ≠ zeroSeeds.streamStartBytes := by
  obtain ⟨ke, hst, _, hd⟩ := WriteOut_first_plaintext_is_xmlHeader testEnv acceptAll 2 testDb
    zeroSeeds ([] : List Nat) (List.replicate 32 1) rfl rfl rfl rfl rfl rfl rfl
  refine ⟨ke, hst, ?_⟩
  have h32 : ke.buffer.data.take 32 = xmlHeader.take 32 := by
    rw [← hd, List.take_take]
    rfl
  rw [h32]
  decide

/-- C5 (fails on the code): in the encrypted format, with the AES identifier,
full reads of random bytes and a 32-byte digest, the key `WriteOut` passes to
the block cipher envelope is `SHA-256(masterSeed)` for every key material `K`
the key derivation returns: `pbInKey.WriteTo(&buf)` writes nothing, so `K`
has no part in the key. -/
theorem WriteOut_key_ignores_key_material {σ β ξ : Type} (E : Env β ξ) (W : Writer σ)
    (budget : Nat) (db : Database) (rnd : Seeds) (w : σ) (K : ProtectedBuffer)
    (hAES : db.CipherID = CipherUUIDAesParsed)
    (h1 : rnd.masterSeed.length = 32) (h2 : rnd.transformSeed.length = 32)
    (h3 : rnd.encryptionIV.length = 16) (h4 : rnd.protectedStreamKey.length = 32)
    (h5 : rnd.streamStartBytes.length = 32)
    (hsha : (E.sha256 rnd.masterSeed).length = 32)
    (hkey : E.GenerateKey32 rnd.transformSeed db.KeyEncryptionRounds = .ok K) :
    ∃ ke, (WriteOut E W budget db rnd w WriteFormatEncrypted).state = .encrypted ke ∧
      ke.blocker = E.newCBCEncrypter (E.sha256 rnd.masterSeed) rnd.encryptionIV := by
  obtain ⟨ke, hst, _, hb, _⟩ :=
    WriteOut_encrypted_state E W budget db rnd w K hAES h1 h2 h3 h4 h5 hkey
  refine ⟨ke, hst, ?_⟩
  rw [hb, aesKey_eq _ _ _ _ hsha]

/-- C5 at a concrete input, with a digest that tells inputs of different
lengths apart and a block mode that keeps its key: the key of the envelope is
the digest of the master seed, not the digest of the master seed followed by
the key material. -/
theorem WriteOut_key_ignores_key_material_witness :
    ∃ ke, (WriteOut testEnv acceptAll 2 testDb zeroSeeds ([] : List Nat)
        WriteFormatEncrypted).state = .encrypted ke ∧
      ke.blocker.1 = testEnv.sha256 zeroSeeds.masterSeed ∧
      ke.blocker.1 ≠ testEnv.sha256 (zeroSeeds.masterSeed ++ List.replicate 32 1) := by
  obtain ⟨ke, hst, hb⟩ := WriteOut_key_ignores_key_material testEnv acceptAll 2 testDb
    zeroSeeds ([] : List Nat) (List.replicate 32 1) rfl rfl rfl rfl rfl rfl rfl rfl
  refine ⟨ke, hst, ?_, ?_⟩
  · rw [hb]
    rfl
  · rw [hb]
    decide

/-! ## The integrity tracker: `Sum256` -/

/-- C6 (fails on the code): `Sum256` returns 32 zero bytes, whatever has been
written: `buf` has length and capacity 32, so `hw.hasher.Sum(buf)` appends the
digest in a new array, and its result is dropped. `Sum(nil)` does return the
digest of the bytes written so far. -/
theorem Sum256_returns_zeros {σ : Type} (sha256 : List Nat → List Nat) (hw : HashingWriter σ) :
    hw.Sum256 sha256 = List.replicate 32 0 ∧
      (hw.Sum sha256 { arr := [], len := 0 }).data = sha256 hw.hasher.written := by
  constructor
  · simp only [HashingWriter.Sum256, Hash.Sum, Slice.append, Slice.make, Slice.cap, Slice.data,
      List.length_replicate]
    split
    · rename_i h
      have h0 : (sha256 hw.hasher.written).length = 0 := by omega
      simp only [h0, Nat.add_zero]
      rw [window_copy_eq _ _ _ _ (by omega) (by simp)]
      simp [List.eq_nil_of_length_eq_zero h0]
    · simp
  · simp only [HashingWriter.Sum, Hash.Sum, Slice.append, Slice.cap, Slice.data, List.length_nil,
      Nat.zero_add]
    split
    · rename_i h
      have h0 : (sha256 hw.hasher.written).length = 0 := by omega
      simp [List.eq_nil_of_length_eq_zero h0, window, copy]
    · simp

/-- C6 at a concrete input: a new writer over a sink, with a digest that is
not all zero. `Sum256` differs from `Sum(nil)`. -/
theorem Sum256_returns_zeros_witness :
    (NewHashingWriter ([] : List Nat)).Sum256 (fun _ => List.replicate 32 227) ≠
      ((NewHashingWriter ([] : List Nat)).Sum (fun _ => List.replicate 32 227)
        { arr := [], len := 0 }).data := by
  rw [(Sum256_returns_zeros (fun _ => List.replicate 32 227) (NewHashingWriter ([] : List Nat))).1,
    (Sum256_returns_zeros (fun _ => List.replicate 32 227) (NewHashingWriter ([] : List Nat))).2]
  decide

/-! ## The stream cipher -/

theorem cipherLoop_done (xor : Bool) (budget : Nat) (s20 : Salsa20Cipher) (p : List Nat)
    (off : Nat) :
    Salsa20Cipher.cipherLoop xor (budget + 1) s20 p off 0 = .ret () (s20, p) := by
  simp [Salsa20Cipher.cipherLoop]

/-- The first 64 bytes a cipher made by `NewSalsa20Cipher(key, iv, nil)` gives
out in copy mode are the 64 zero bytes of its `output` array: `outputPos`
starts at 0, so `next` is not called. -/
theorem Cipher_fresh_64 (key iv buf : List Nat) (hbuf : buf.length = 64) :
    (NewSalsa20Cipher key iv none).Cipher buf false =
      .ret () ({ NewSalsa20Cipher key iv none with outputPos := 64 }, List.replicate 64 0) := by
  unfold Salsa20Cipher.Cipher
  rw [hbuf]
  unfold Salsa20Cipher.cipherLoop
  simp only [NewSalsa20Cipher, Salsa20Cipher.zero]
  rw [if_pos (by decide)]
  simp only [show ((0 : Int) = 64) = False from by simp, if_false]
  rw [if_neg (by decide), if_neg (by decide)]
  simp only [Int.toNat_zero, Nat.sub_zero, Nat.lt_irrefl, if_false, List.take_zero, List.drop_zero,
    List.nil_append, Nat.zero_add, Nat.sub_self, Bool.false_eq_true]
  rw [copy_of_length_eq _ _ (by simp [hbuf])]
  rw [cipherLoop_done]
  rfl

/-- The first block of keystream for the all-zero key and IV: the published
Salsa20/20 test vector. -/
theorem block_zero_key :
    (NewSalsa20Cipher (List.replicate 32 0) (List.replicate 8 0) none).block =
      [154, 151, 246, 91, 155, 76, 114, 27, 150, 10, 103, 33, 69, 252, 168, 212,
       227, 46, 103, 249, 17, 30, 169, 121, 206, 156, 72, 38, 128, 106, 238, 230,
       61, 233, 192, 218, 43, 215, 249, 30, 188, 178, 99, 155, 249, 137, 198, 37,
       27, 41, 191, 56, 211, 154, 155, 220, 231, 197, 95, 75, 42, 193, 42, 57] := by
  decide!

theorem Cipher_one_byte_fresh (key iv : List Nat) (b : Nat) :
    (NewSalsa20Cipher key iv none).Cipher [b] false =
      .ret () ({ NewSalsa20Cipher key iv none with outputPos := 1 }, [0]) := by
  unfold Salsa20Cipher.Cipher
  simp only [List.length_singleton]
  unfold Salsa20Cipher.cipherLoop
  simp only [NewSalsa20Cipher, Salsa20Cipher.zero]
  rw [if_pos (by decide)]
  simp only [show ((0 : Int) = 64) = False from by simp, if_false]
  rw [if_neg (by decide), if_neg (by decide)]
  simp only [Int.toNat_zero, Nat.sub_zero, List.take_zero, List.drop_zero,
    List.nil_append, Nat.zero_add, Nat.sub_self, Bool.false_eq_true, if_false]
  rw [if_pos (by decide)]
  rw [cipherLoop_done]
  rfl

theorem Cipher_one_byte_at_64 (s20 : Salsa20Cipher) (b : Nat) (h : s20.outputPos = 64) :
    s20.Cipher [b] false =
      .ret () ({ s20.next with outputPos := 1 }, copy [b] s20.block) := by
  have hp : s20.next.outputPos = 0 := rfl
  have ho : s20.next.output = s20.block := rfl
  unfold Salsa20Cipher.Cipher
  simp only [List.length_singleton]
  unfold Salsa20Cipher.cipherLoop
  rw [if_pos (by decide)]
  rw [if_pos h]
  generalize s20.next = s' at *
  generalize s20.block = blk at *
  simp only [hp, ho]
  rw [if_neg (by decide), if_neg (by decide)]
  simp only [Int.toNat_zero, Nat.sub_zero, List.take_zero, List.drop_zero,
    List.nil_append, Nat.zero_add, Nat.sub_self, Bool.false_eq_true, if_false]
  rw [if_pos (by decide)]
  rw [cipherLoop_done]
  rfl

/-- C7 (fails on the code): right after `NewSalsa20Cipher(key, iv, nil)`,
`Cipher(buf, false)` on a 64-byte buffer fills it with 64 zero bytes, for every
key and IV, not with the block `next` computes: `outputPos` starts at 0, not at
64, so `next` is not called and the zeroed `output` array is copied out. The
state words are untouched (the block counter is still 0) and `outputPos` is 64
afterwards. -/
theorem Cipher_first_block_is_zero (key iv buf : List Nat) (hbuf : buf.length = 64) :
    (NewSalsa20Cipher key iv none).Cipher buf false =
      .ret () ({ NewSalsa20Cipher key iv none with outputPos := 64 }, List.replicate 64 0) :=
  Cipher_fresh_64 key iv buf hbuf

/-- C7 at a concrete input: the all-zero key and IV. The buffer is filled with
zero bytes, while the block `next` computes from the initial state is the
Salsa20/20 test vector, which starts with 154. -/
theorem Cipher_first_block_is_zero_witness :
    ∃ s20, (NewSalsa20Cipher (List.replicate 32 0) (List.replicate 8 0) none).Cipher
        (List.replicate 64 0) false = .ret () (s20, List.replicate 64 0) ∧
      (NewSalsa20Cipher (List.replicate 32 0) (List.replicate 8 0) none).next.output ≠
        List.replicate 64 0 := by
  refine ⟨_, Cipher_first_block_is_zero (List.replicate 32 0) (List.replicate 8 0)
    (List.replicate 64 0) (List.length_replicate 64 0), ?_⟩
  show (NewSalsa20Cipher (List.replicate 32 0) (List.replicate 8 0) none).block ≠ _
  rw [block_zero_key]
  decide

/-- C8 (fails on the code): two instances made by `NewSalsa20Cipher` with the
same key and IV, the all-zero ones, that give different output for the same
call `Cipher(p, false)` on one byte. The first is made with a nil destination
and gives 0. The second is made over `used`, an instance from which 64 bytes
have been drawn: `NewSalsa20Cipher` assigns the sixteen state words and leaves
`outputPos` at 64, so the first byte is 154, the first byte of keystream. -/
theorem NewSalsa20Cipher_reused_dest_differs :
    ∃ used s1 s2,
      (NewSalsa20Cipher (List.replicate 32 0) (List.replicate 8 0) none).Cipher
          (List.replicate 64 0) false = .ret () (used, List.replicate 64 0) ∧
        (NewSalsa20Cipher (List.replicate 32 0) (List.replicate 8 0) none).Cipher [0] false =
          .ret () (s1, [0]) ∧
        (NewSalsa20Cipher (List.replicate 32 0) (List.replicate 8 0) (some used)).Cipher [0]
          false = .ret () (s2, [154]) := by
  have hb : (NewSalsa20Cipher (List.replicate 32 0) (List.replicate 8 0)
      (some { NewSalsa20Cipher (List.replicate 32 0) (List.replicate 8 0) none with
        outputPos := 64 })).block =
      (NewSalsa20Cipher (List.replicate 32 0) (List.replicate 8 0) none).block := rfl
  have h3 := Cipher_one_byte_at_64 (NewSalsa20Cipher (List.replicate 32 0) (List.replicate 8 0)
      (some { NewSalsa20Cipher (List.replicate 32 0) (List.replicate 8 0) none with
        outputPos := 64 })) 0 rfl
  rw [hb, block_zero_key] at h3
  exact ⟨_, _, _, Cipher_fresh_64 _ _ _ (List.length_replicate 64 0),
    Cipher_one_byte_fresh _ _ 0, h3⟩

theorem serialize_length (scratch : List Nat) (output : List Nat) (h : output.length = 64) :
    ∀ n, n ≤ 16 → (serialize n scratch output).length = 64 := by
  intro n
  induction n with
  | zero => intro _; exact h
  | succ n ih =>
    intro hn
    have ih := ih (by omega)
    simp only [serialize, PutUint32]
    rw [window_copy_length _ _ _ _ (by omega) (by rw [ih, Nat.shiftLeft_eq]; omega)]
    exact ih

theorem next_WF (s20 : Salsa20Cipher) (h : s20.output.length = 64) : s20.next.WF := by
  refine ⟨?_, ?_, ?_⟩
  · exact serialize_length _ _ h 16 (Nat.le_refl _)
  · exact Int.le_refl _
  · show (0 : Int) ≤ 64
    decide

theorem zipWith_xor_take (a b : List Nat) :
    List.zipWith (fun x y => x ^^^ y) a (b.take a.length) =
      List.zipWith (fun x y => x ^^^ y) a b := by
  induction a generalizing b with
  | nil => simp
  | cons x xs ih =>
    cases b with
    | nil => simp
    | cons y ys => simp [ih]

theorem zipWith_xor_cancel (a k : List Nat) (h : a.length ≤ k.length) :
    List.zipWith (fun x y => x ^^^ y) (List.zipWith (fun x y => x ^^^ y) a k) k = a := by
  induction a generalizing k with
  | nil => simp
  | cons x xs ih =>
    cases k with
    | nil => simp at h
    | cons y ys =>
      simp only [List.zipWith_cons_cons, List.cons.injEq]
      refine ⟨?_, ih ys (by simpa using h)⟩
      rw [Nat.xor_assoc, Nat.xor_self, Nat.xor_zero]

/-- One pass through the body of the loop of `Cipher`, on a state that is
well formed and has output left, with `len(m1)` bytes handled in this pass. -/
theorem cipherLoop_step (xor : Bool) (budget : Nat) (s20 : Salsa20Cipher) (pre m1 m2 : List Nat)
    (hlen : s20.output.length = 64) (h0 : 0 ≤ s20.outputPos) (h64 : s20.outputPos < 64)
    (hm1 : 0 < m1.length)
    (hc : m1.length = if m1.length + m2.length < 64 - s20.outputPos.toNat then
      m1.length + m2.length else 64 - s20.outputPos.toNat) :
    Salsa20Cipher.cipherLoop xor (budget + 1) s20 (pre ++ (m1 ++ m2)) pre.length
        (m1.length + m2.length) =
      Salsa20Cipher.cipherLoop xor budget { s20 with outputPos := s20.outputPos + m1.length }
        (pre ++ ((if xor then
            List.zipWith (fun x y => x ^^^ y) m1
              ((s20.output.drop s20.outputPos.toNat).take m1.length)
          else (s20.output.drop s20.outputPos.toNat).take m1.length) ++ m2))
        (pre.length + m1.length) m2.length := by
  rw [Salsa20Cipher.cipherLoop]
  have hne : ¬ s20.outputPos = 64 := by omega
  rw [if_pos (by omega)]
  simp only [if_neg hne]
  rw [if_neg (by omega), if_neg (by omega)]
  rw [← hc]
  have hks : ((s20.output.take 64).drop s20.outputPos.toNat) =
      s20.output.drop s20.outputPos.toNat := by
    rw [List.take_of_length_le (by omega)]
  have hksl : (s20.output.drop s20.outputPos.toNat).length = 64 - s20.outputPos.toNat := by
    rw [List.length_drop, hlen]
  generalize s20.output.drop s20.outputPos.toNat = ks at *
  have hcle : m1.length ≤ ks.length := by
    rw [hksl]; split at hc <;> omega
  have e1 : (pre ++ (m1 ++ m2)).take pre.length = pre := by simp
  have e2 : (pre ++ (m1 ++ m2)).drop pre.length = m1 ++ m2 := by simp
  have e3 : ((pre ++ (m1 ++ m2)).take (pre.length + m1.length)).drop pre.length = m1 := by
    rw [List.take_append, List.drop_left, List.take_left]
  simp only [e1, e2, e3, hks, Nat.add_sub_cancel_left]
  congr 1
  cases xor with
  | true =>
    simp only [if_true, xorBytes, copy]
    rw [zipWith_xor_take]
    have hz : (List.zipWith (fun x y => x ^^^ y) m1 ks).length = m1.length := by
      rw [List.length_zipWith]; omega
    rw [hz, List.take_of_length_le (by rw [hz]; simp), List.drop_left]
  | false =>
    simp only [Bool.false_eq_true, if_false, copy, List.length_append]
    congr 1
    by_cases hlt : m1.length + m2.length < 64 - s20.outputPos.toNat
    · rw [if_pos hlt] at hc
      have hm2 : m2 = [] := List.eq_nil_of_length_eq_zero (by omega)
      subst hm2
      rw [List.drop_eq_nil_of_le (by simp; omega)]
      simp
    · rw [if_neg hlt] at hc
      have hk : ks.length = m1.length := by omega
      rw [List.take_of_length_le (by omega), List.take_of_length_le (by omega), hk,
        List.drop_left]

theorem cipherLoop_at_64 (xor : Bool) (budget : Nat) (s20 : Salsa20Cipher) (p : List Nat)
    (off rem : Nat) (h : s20.outputPos = 64) (hrem : 0 < rem) :
    Salsa20Cipher.cipherLoop xor (budget + 1) s20 p off rem =
      Salsa20Cipher.cipherLoop xor (budget + 1) s20.next p off rem := by
  have hp : s20.next.outputPos = 0 := rfl
  generalize hs : s20.next = s' at *
  rw [Salsa20Cipher.cipherLoop, Salsa20Cipher.cipherLoop]
  have hne : ¬ s'.outputPos = 64 := by omega
  simp only [if_pos h, hs, if_neg hne, if_pos hrem]

/-- The keystream of `Cipher`: from a well-formed state and with enough
budget, the loop returns, and the bytes `K` it draws and the state it ends in
depend on the state and on the number of bytes only. In XOR mode the buffer
becomes the buffer XOR `K`, in copy mode it becomes `K`. -/
theorem cipherLoop_keystream : ∀ (budget n : Nat) (s20 : Salsa20Cipher), s20.WF → n < budget →
    ∃ (s' : Salsa20Cipher) (K : List Nat), K.length = n ∧ s'.WF ∧
      ∀ (xor : Bool) (pre mid : List Nat), mid.length = n →
        Salsa20Cipher.cipherLoop xor budget s20 (pre ++ mid) pre.length n =
          .ret () (s', pre ++ (if xor then List.zipWith (fun x y => x ^^^ y) mid K else K)) := by
  intro budget
  induction budget with
  | zero => intro n s20 _ h; omega
  | succ budget ih =>
    intro n s20 hwf hn
    by_cases hn0 : n = 0
    · subst hn0
      refine ⟨s20, [], rfl, hwf, ?_⟩
      intro xor pre mid hmid
      have : mid = [] := List.eq_nil_of_length_eq_zero hmid
      subst this
      rw [cipherLoop_done]
      cases xor <;> simp
    · -- the state at the slice expressions: `next` has run when the block was used up
      obtain ⟨s1, hs1, hwf1, hlt1⟩ : ∃ s1 : Salsa20Cipher,
          (∀ (xor : Bool) (p : List Nat) (off : Nat),
            Salsa20Cipher.cipherLoop xor (budget + 1) s20 p off n =
              Salsa20Cipher.cipherLoop xor (budget + 1) s1 p off n) ∧ s1.WF ∧
            s1.outputPos < 64 := by
        by_cases h64 : s20.outputPos = 64
        · refine ⟨s20.next, fun xor p off => cipherLoop_at_64 xor budget s20 p off n h64 (by omega),
            next_WF s20 hwf.1, ?_⟩
          show (0 : Int) < 64
          decide
        · exact ⟨s20, fun _ _ _ => rfl, hwf, by have := hwf.2.2; omega⟩
      obtain ⟨hlen, hpos0, _⟩ := hwf1
      obtain ⟨c, hcdef⟩ : ∃ c, c = if n < 64 - s1.outputPos.toNat then n
          else 64 - s1.outputPos.toNat := ⟨_, rfl⟩
      have hc1 : 0 < c := by rw [hcdef]; split <;> omega
      have hcn : c ≤ n := by rw [hcdef]; split <;> omega
      have hc64 : s1.outputPos + c ≤ 64 := by rw [hcdef]; split <;> omega
      obtain ⟨s', K2, hK2, hwf', hrun⟩ := ih (n - c) { s1 with outputPos := s1.outputPos + c }
        ⟨hlen, by show 0 ≤ s1.outputPos + (c : Int); omega,
          by show s1.outputPos + (c : Int) ≤ 64; omega⟩ (by omega)
      have hksl : ((s1.output.drop s1.outputPos.toNat).take c).length = c := by
        rw [List.length_take, List.length_drop, hlen]; omega
      refine ⟨s', (s1.output.drop s1.outputPos.toNat).take c ++ K2, ?_, hwf', ?_⟩
      · rw [List.length_append, hksl, hK2]; omega
      · intro xor pre mid hmid
        rw [hs1]
        have hm1 : (mid.take c).length = c := by rw [List.length_take]; omega
        have hm2 : (mid.drop c).length = n - c := by rw [List.length_drop]; omega
        have hsplit : mid = mid.take c ++ mid.drop c := (List.take_append_drop c mid).symm
        have hstep := cipherLoop_step xor budget s1 pre (mid.take c) (mid.drop c) hlen hpos0 hlt1
          (by omega) (by rw [hm1, hm2, Nat.add_sub_cancel' hcn]; exact hcdef)
        rw [← hsplit, hm1, hm2, Nat.add_sub_cancel' hcn] at hstep
        rw [hstep]
        generalize (s1.output.drop s1.outputPos.toNat).take c = ks at *
        cases xor with
        | true =>
          simp only [if_true]
          have hpre : (pre ++ List.zipWith (fun x y => x ^^^ y) (mid.take c) ks).length =
              pre.length + c := by
            rw [List.length_append, List.length_zipWith, hm1, hksl, Nat.min_self]
          have := hrun true (pre ++ List.zipWith (fun x y => x ^^^ y) (mid.take c) ks)
            (mid.drop c) hm2
          rw [hpre, List.append_assoc] at this
          rw [this]
          simp only [if_true, List.append_assoc]
          congr 2
          conv_rhs => rw [hsplit]
          rw [List.zipWith_append _ _ _ _ _ (by rw [hm1, hksl])]
        | false =>
          simp only [Bool.false_eq_true, if_false]
          have hpre : (pre ++ ks).length = pre.length + c := by
            rw [List.length_append, hksl]
          have := hrun false (pre ++ ks) (mid.drop c) hm2
          rw [hpre, List.append_assoc] at this
          rw [this]
          simp only [Bool.false_eq_true, if_false, List.append_assoc]

theorem NewSalsa20Cipher_WF (key iv : List Nat) : (NewSalsa20Cipher key iv none).WF :=
  ⟨List.length_replicate 64 0, Int.le_refl 0, by show (0 : Int) ≤ 64; decide⟩

/-- C9: for every key, IV and byte string `p`, `Cipher(p, true)` on a cipher
made by `NewSalsa20Cipher(key, iv, nil)` returns, and `Cipher(., true)` on the
result, with a second cipher made the same way, returns and gives `p` back. -/
theorem Cipher_xor_round_trip (key iv p : List Nat) :
    ∃ s1 p1 s2, (NewSalsa20Cipher key iv none).Cipher p true = .ret () (s1, p1) ∧
      (NewSalsa20Cipher key iv none).Cipher p1 true = .ret () (s2, p) := by
  obtain ⟨s', K, hK, _, hrun⟩ := cipherLoop_keystream (p.length + 1) p.length
    (NewSalsa20Cipher key iv none) (NewSalsa20Cipher_WF key iv) (Nat.lt_succ_self _)
  have hl : (List.zipWith (fun x y => x ^^^ y) p K).length = p.length := by
    rw [List.length_zipWith, hK, Nat.min_self]
  have h1 := hrun true [] p rfl
  have h2 := hrun true [] (List.zipWith (fun x y => x ^^^ y) p K) hl
  simp only [List.nil_append, List.length_nil, if_true] at h1 h2
  rw [zipWith_xor_cancel p K (by omega)] at h2
  refine ⟨s', List.zipWith (fun x y => x ^^^ y) p K, s', ?_, ?_⟩
  · exact h1
  · unfold Salsa20Cipher.Cipher
    rw [hl]
    exact h2

/-! ## The integrity tracker: `Write` -/

/-- C10: when the sink answers `Write(p)` with `(n, err)`, `0 <= n <= len(p)`,
`HashingWriter.Write` has handed `p` itself to the sink, returns `(n, err)`,
and has appended exactly `p[:n]` to the digested data (and added `n` to the
byte count, modulo `2 ^ 64`). -/
theorem HashingWriter_Write_passes_through {σ : Type} (W : Writer σ) (hw : HashingWriter σ)
    (p : List Nat) (n : Int) (err : Option Error) (w' : σ)
    (hsink : W.Write hw.w p = .ret (n, err) w') (h0 : 0 ≤ n) (hn : n ≤ p.length) :
    hw.Write W p =
      .ret (n, err)
        { w := w',
          hasher := { written := hw.hasher.written ++ p.take n.toNat },
          byteCount := (hw.byteCount + n.toNat) % 2 ^ 64 } := by
  have hb : (((hw.byteCount : Int) + n) % 2 ^ 64).toNat = (hw.byteCount + n.toNat) % 2 ^ 64 := by
    omega
  unfold HashingWriter.Write
  rw [hsink]
  simp only [hb]
  by_cases hpos : 0 < n
  · rw [if_pos hpos, if_neg (by omega)]
    rfl
  · have hz : n = 0 := by omega
    subst hz
    rw [if_neg hpos]
    simp

/-- C10 at a concrete input: a sink that takes three of five bytes and
reports a short write. The writer returns `(3, short write)`, has digested the
three bytes and counts 3. -/
theorem HashingWriter_Write_passes_through_witness :
    (NewHashingWriter ([] : List Nat)).Write takeThree [1, 2, 3, 4, 5] =
      .ret (3, some "short write")
        { w := [1, 2, 3], hasher := { written := [1, 2, 3] }, byteCount := 3 } :=
  HashingWriter_Write_passes_through takeThree (NewHashingWriter []) [1, 2, 3, 4, 5] 3
    (some "short write") [1, 2, 3] rfl (by decide) (by decide)

/-! ## `HashingWriter`: the byte counter (C11) -/

/-- What one `Write` that returns `n >= 0` does to the counter and to the
digested data. -/
theorem HashingWriter_Write_counts {σ : Type} (W : Writer σ) (hw hw' : HashingWriter σ)
    (p : List Nat) (n : Int) (err : Option Error)
    (h : hw.Write W p = .ret (n, err) hw') (h0 : 0 ≤ n) :
    hw'.byteCount = (hw.byteCount + n.toNat) % 2 ^ 64 ∧
      hw'.hasher.written.length = hw.hasher.written.length + n.toNat := by
  unfold HashingWriter.Write at h
  cases hs : W.Write hw.w p with
  | panic msg w => rw [hs] at h; simp at h
  | hang w => rw [hs] at h; simp at h
  | ret r w =>
    obtain ⟨m, e⟩ := r
    rw [hs] at h
    simp only at h
    by_cases hpos : 0 < m
    · rw [if_pos hpos] at h
      by_cases hlen : (p.length : Int) < m
      · rw [if_pos hlen] at h; simp at h
      · rw [if_neg hlen] at h
        simp only [Outcome.ret.injEq, Prod.mk.injEq] at h
        obtain ⟨⟨hm, _⟩, hst⟩ := h
        subst hm
        rw [← hst]
        simp only [Hash.Write, List.length_append, List.length_take]
        omega
    · rw [if_neg hpos] at h
      simp only [Outcome.ret.injEq, Prod.mk.injEq] at h
      obtain ⟨⟨hm, _⟩, hst⟩ := h
      subst hm
      rw [← hst]
      simp only
      omega

/-- The counter and the digested data after a sequence of writes that all
returned a count `n >= 0`. -/
theorem WriteSeq_counts {σ : Type} (W : Writer σ) (ps : List (List Nat)) :
    ∀ (hw hw' : HashingWriter σ) (rs : List (Int × Option Error)),
      HashingWriter.WriteSeq W ps hw = .ret rs hw' → (∀ r ∈ rs, 0 ≤ r.1) →
      hw.byteCount < 2 ^ 64 →
      hw'.byteCount = (hw.byteCount + (rs.map Prod.fst).sum.toNat) % 2 ^ 64 ∧
        hw'.hasher.written.length =
          hw.hasher.written.length + (rs.map Prod.fst).sum.toNat ∧
        0 ≤ (rs.map Prod.fst).sum := by
  induction ps with
  | nil =>
    intro hw hw' rs h _ hbc
    simp only [HashingWriter.WriteSeq, Outcome.ret.injEq] at h
    obtain ⟨h1, h2⟩ := h
    subst h1 h2
    simp only [List.map_nil, List.sum_nil, Int.toNat_zero, Nat.add_zero]
    exact ⟨(Nat.mod_eq_of_lt hbc).symm, trivial, Int.le_refl 0⟩
  | cons p ps ih =>
    intro hw hw' rs h hnn hbc
    simp only [HashingWriter.WriteSeq] at h
    cases h1 : hw.Write W p with
    | panic msg w => rw [h1] at h; simp at h
    | hang w => rw [h1] at h; simp at h
    | ret r hw1 =>
      rw [h1] at h
      simp only at h
      cases h2 : HashingWriter.WriteSeq W ps hw1 with
      | panic msg w => rw [h2] at h; simp at h
      | hang w => rw [h2] at h; simp at h
      | ret rs1 hw2 =>
        rw [h2] at h
        simp only [Outcome.ret.injEq] at h
        obtain ⟨hrs, hst⟩ := h
        subst hrs hst
        obtain ⟨n, err⟩ := r
        have hn : 0 ≤ n := hnn (n, err) (List.mem_cons_self _ _)
        obtain ⟨a1, a2⟩ := HashingWriter_Write_counts W hw hw1 p n err h1 hn
        obtain ⟨b1, b2, b3⟩ := ih hw1 hw2 rs1 h2
          (fun r hr => hnn r (List.mem_cons_of_mem _ hr))
          (by rw [a1]; exact Nat.mod_lt _ (by decide))
        simp only [List.map_cons, List.sum_cons]
        refine ⟨?_, ?_, by omega⟩
        · rw [b1, a1]; omega
        · rw [b2, a2]; omega

/-- C11 (as amended): for every sequence of `Write` calls on a writer made by
`NewHashingWriter` that all return, over a sink that reports counts `n >= 0`,
`ByteCount` equals the total number of bytes the sink accepted (the sum of the
returned `n`) modulo `2 ^ 64`, and the total itself while that is below
`2 ^ 64`; the total equals the length of the data fed to the digest; and
`ByteCount` is 0 for a new writer. -/
theorem ByteCount_is_total_mod {σ : Type} (W : Writer σ) (ps : List (List Nat)) (w : σ)
    (rs : List (Int × Option Error)) (hw : HashingWriter σ)
    (h : HashingWriter.WriteSeq W ps (NewHashingWriter w) = .ret rs hw)
    (hnn : ∀ r ∈ rs, 0 ≤ r.1) :
    hw.ByteCount = (rs.map Prod.fst).sum.toNat % 2 ^ 64 ∧
      hw.hasher.written.length = (rs.map Prod.fst).sum.toNat ∧
      ((rs.map Prod.fst).sum < 2 ^ 64 → (hw.ByteCount : Int) = (rs.map Prod.fst).sum) ∧
      (NewHashingWriter w).ByteCount = 0 := by
  obtain ⟨h1, h2, h3⟩ := WriteSeq_counts W ps (NewHashingWriter w) hw rs h hnn (by
    show (0 : Nat) < 2 ^ 64
    decide)
  simp only [NewHashingWriter, Hash.New, List.length_nil, Nat.zero_add] at h1 h2
  refine ⟨h1, h2, ?_, rfl⟩
  intro hlt
  rw [HashingWriter.ByteCount, h1]
  omega

/-- C11 (as amended) at a concrete input: two writes, of five bytes and of one
byte, to a sink that takes at most three bytes of a write. The counts are 3
and 1, `ByteCount` is 4 and four bytes were digested. -/
theorem ByteCount_is_total_mod_witness :
    ∃ hw, HashingWriter.WriteSeq takeThree [[1, 2, 3, 4, 5], [6]] (NewHashingWriter []) =
        .ret [(3, some "short write"), (1, none)] hw ∧
      hw.ByteCount = 4 ∧ hw.hasher.written.length = 4 := by
  have hrun : HashingWriter.WriteSeq takeThree [[1, 2, 3, 4, 5], [6]] (NewHashingWriter []) =
      .ret [(3, some "short write"), (1, none)]
        { w := [1, 2, 3, 6], hasher := { written := [1, 2, 3, 6] }, byteCount := 4 } := by
    decide
  obtain ⟨h1, h2, _⟩ := ByteCount_is_total_mod takeThree [[1, 2, 3, 4, 5], [6]] [] _ _ hrun
    (by decide)
  exact ⟨_, hrun, h1, h2⟩

/-- A `Write` over the sink that accepts everything. -/
theorem Write_acceptAll (hw : HashingWriter (List Nat)) (p : List Nat) :
    hw.Write acceptAll p =
      .ret ((p.length : Int), none)
        { w := hw.w ++ p, hasher := { written := hw.hasher.written ++ p },
          byteCount := (hw.byteCount + p.length) % 2 ^ 64 } := by
  have hb : (((hw.byteCount : Int) + (p.length : Int)) % 2 ^ 64).toNat =
      (hw.byteCount + p.length) % 2 ^ 64 := by omega
  unfold HashingWriter.Write
  simp only [acceptAll, hb]
  by_cases hpos : 0 < (p.length : Int)
  · rw [if_pos hpos, if_neg (by omega)]
    simp [Hash.Write]
  · have hp : p = [] := List.eq_nil_of_length_eq_zero (by omega)
    subst hp
    simp

/-- Three writes of `2 ^ 63 - 1`, `2 ^ 63 - 1` and 2 bytes over the sink that
accepts everything: `2 ^ 64` bytes accepted and digested, counter 0. -/
theorem WriteSeq_acceptAll_three (a b c : List Nat) (ha : a.length = 2 ^ 63 - 1)
    (hb : b.length = 2 ^ 63 - 1) (hc : c.length = 2) :
    ∃ rs hw, HashingWriter.WriteSeq acceptAll [a, b, c] (NewHashingWriter []) = .ret rs hw ∧
      (rs.map Prod.fst).sum = 2 ^ 64 ∧ hw.hasher.written.length = 2 ^ 64 ∧ hw.ByteCount = 0 := by
  have hrun : HashingWriter.WriteSeq acceptAll [a, b, c] (NewHashingWriter []) =
      .ret [((a.length : Int), none), ((b.length : Int), none), ((c.length : Int), none)]
        { w := [] ++ a ++ b ++ c, hasher := { written := [] ++ a ++ b ++ c },
          byteCount := (((0 + a.length) % 2 ^ 64 + b.length) % 2 ^ 64 + c.length) % 2 ^ 64 } := by
    simp only [HashingWriter.WriteSeq, Write_acceptAll]
    rfl
  refine ⟨_, _, hrun, ?_, ?_, ?_⟩
  · simp only [List.map_cons, List.map_nil, List.sum_cons, List.sum_nil, ha, hb, hc]
    decide
  · simp only [List.nil_append, List.length_append, ha, hb, hc]
    decide
  · simp only [HashingWriter.ByteCount, ha, hb, hc]
    decide

/-- C11 as stated fails at a concrete input: after three writes of
`2 ^ 63 - 1`, `2 ^ 63 - 1` and 2 zero bytes to a sink that accepts everything,
the sink has accepted `2 ^ 64` bytes and as many were fed to the digest, but
`ByteCount`, a `uint64`, is 0. -/
theorem ByteCount_wraps :
    ∃ rs hw,
      HashingWriter.WriteSeq acceptAll
          [List.replicate (2 ^ 63 - 1) 0, List.replicate (2 ^ 63 - 1) 0, [0, 0]]
          (NewHashingWriter []) = .ret rs hw ∧
        (rs.map Prod.fst).sum = 2 ^ 64 ∧ hw.hasher.written.length = 2 ^ 64 ∧ hw.ByteCount = 0 :=
  WriteSeq_acceptAll_three _ _ _ (List.length_replicate _ _) (List.length_replicate _ _) rfl

/-! ## `writeHeaderField` (C12) -/

/-- C12: for every field id (a byte) and every payload of length
`n <= 65535`, `writeHeaderField` returns and has appended to the buffer the
bytes `[id, n mod 256, n div 256]` followed by the payload and nothing else,
`3 + n` bytes in all. -/
theorem writeHeaderField_frames (w : Buffer) (id : Nat) (data : List Nat)
    (hid : id < 256) (hlen : data.length ≤ 65535) :
    writeHeaderField w id data =
      .ret () { buf := w.buf ++ ([id, data.length % 256, data.length / 256] ++ data) } ∧
    ([id, data.length % 256, data.length / 256] ++ data).length = 3 + data.length := by
  constructor
  · unfold writeHeaderField
    simp only
    rw [if_neg (by omega)]
    have h1 : id % 256 = id := Nat.mod_eq_of_lt hid
    have h2 : data.length % 2 ^ 16 % 256 = data.length % 256 := by omega
    have h3 : ((data.length % 2 ^ 16) >>> 8) % 256 = data.length / 256 := by
      rw [Nat.shiftRight_eq_div_pow]; omega
    simp only [le16, Buffer.Write, h1, h2, h3, List.append_assoc, List.singleton_append,
      List.cons_append, List.nil_append]
  · simp only [List.length_append, List.length_cons, List.length_nil]

/-- C12 at a concrete input: field id 9 with a payload of 300 bytes, whose
length is framed as `44, 1` (`300 = 44 + 256 * 1`). -/
theorem writeHeaderField_frames_witness :
    writeHeaderField { buf := [1] } 9 (List.replicate 300 7) =
      .ret () { buf := [1] ++ ([9, 44, 1] ++ List.replicate 300 7) } ∧
    ([9, 44, 1] ++ List.replicate 300 7).length = 303 := by
  have h := writeHeaderField_frames { buf := [1] } 9 (List.replicate 300 7) (by decide)
    (by rw [List.length_replicate]; decide)
  rw [List.length_replicate] at h
  exact h

/-! ## The header of `WriteOut` (C13, C14) -/

/-- The buffer after `WriteHeader`, byte for byte, for a database with the AES
identifier and seeds of the sizes of their arrays. -/
theorem WriteHeader_bytes (db : Database) (s : Seeds) (buf : Buffer)
    (hAES : db.CipherID = CipherUUIDAesParsed)
    (h1 : s.masterSeed.length = 32) (h2 : s.transformSeed.length = 32)
    (h3 : s.encryptionIV.length = 16) (h4 : s.protectedStreamKey.length = 32)
    (h5 : s.streamStartBytes.length = 32) :
    WriteHeader db s buf =
      .ret ()
        { buf :=
            [0x03, 0xD9, 0xA2, 0x9A, 0x67, 0xFB, 0x4B, 0xB5] ++ [0x01, 0x00, 0x03, 0x00] ++
            ([2, 16, 0] ++ CipherUUIDAES) ++
            ([3, 4, 0] ++ le32 db.Compression) ++
            ([4, 32, 0] ++ s.masterSeed) ++
            ([5, 32, 0] ++ s.transformSeed) ++
            ([6, 8, 0] ++ le64 db.KeyEncryptionRounds) ++
            ([7, 16, 0] ++ s.encryptionIV) ++
            ([8, 32, 0] ++ s.protectedStreamKey) ++
            ([9, 32, 0] ++ s.streamStartBytes) ++
            ([10, 4, 0] ++ le32 db.InnerRandomStream) ++
            ([0, 4, 0] ++ [13, 10, 13, 10]) } := by
  have hc : db.CipherID.length = 16 := by rw [hAES]; rfl
  have hm : le32 KP2Signature1 ++ le32 KP2Signature2 =
      [0x03, 0xD9, 0xA2, 0x9A, 0x67, 0xFB, 0x4B, 0xB5] := by decide
  have hv : le32 FileVersion = [0x01, 0x00, 0x03, 0x00] := by decide
  unfold WriteHeader
  simp only
  rw [if_neg (by simp [hAES])]
  rw [writeHeaderField_ret _ _ _ (by omega)]
  simp only [Outcome.bind]
  rw [writeHeaderField_ret _ _ _ (by simp [le32])]
  simp only [Outcome.bind]
  rw [writeHeaderField_ret _ _ _ (by omega)]
  simp only [Outcome.bind]
  rw [writeHeaderField_ret _ _ _ (by omega)]
  simp only [Outcome.bind]
  rw [writeHeaderField_ret _ _ _ (by simp [le64])]
  simp only [Outcome.bind]
  rw [writeHeaderField_ret _ _ _ (by omega)]
  simp only [Outcome.bind]
  rw [writeHeaderField_ret _ _ _ (by omega)]
  simp only [Outcome.bind]
  rw [writeHeaderField_ret _ _ _ (by omega)]
  simp only [Outcome.bind]
  rw [writeHeaderField_ret _ _ _ (by simp [le32])]
  simp only [Outcome.bind]
  rw [writeHeaderField_ret _ _ _ (by simp)]
  have l4 : ∀ v, (le32 v).length = 4 := fun _ => rfl
  have l8 : ∀ v, (le64 v).length = 8 := fun _ => rfl
  simp only [Buffer.Write, Buffer.Reset, hc, h1, h2, h3, h4, h5, l4, l8, hm, hv, hAES,
    CipherUUIDAesParsed, List.nil_append, List.append_assoc, List.length_cons, List.length_nil,
    HeaderCipherID, HeaderCompressionFlags, HeaderMasterSeed, HeaderTransformSeed,
    HeaderTransformRounds, HeaderEncryptionIV, HeaderProtectedStreamKey, HeaderStreamStartBytes,
    HeaderInnerRandomStreamID, HeaderEndOfHeader, le16]
  rfl

/-- For any other cipher identifier `WriteHeader` panics with the magic and the
version in the buffer and no field. -/
theorem WriteHeader_other_cipher (db : Database) (s : Seeds) (buf : Buffer)
    (hne : db.CipherID ≠ CipherUUIDAesParsed) :
    WriteHeader db s buf =
      .panic "keepass.Database.WriteOut: Don't know how to write out any cipher other than AES"
        { buf := le32 KP2Signature1 ++ le32 KP2Signature2 ++ le32 FileVersion } := by
  unfold WriteHeader
  simp only
  rw [if_pos hne]
  simp [Buffer.Write, Buffer.Reset]

/-- C13 (as amended): for every database whose cipher identifier is the AES
identifier, and all seeds (of the sizes of their arrays), the header
`WriteOut` assembles in the encrypted format, with `InnerRandomStream` set to
Salsa20 as `WriteOut` sets it, is magic and version followed by the fields, in
this order and with these payloads: id 2 cipher identifier (16 bytes), id 3
compression (4-byte LE), id 4 master seed (32), id 5 transform seed (32), id 6
round count (8-byte LE), id 7 encryption IV (16), id 8 protected-stream key
(32), id 9 stream-start bytes (32), id 10 inner-stream algorithm (4-byte LE,
always 2), id 0 end-of-header (CR LF CR LF); its length is 222 bytes. -/
theorem WriteOut_header_layout (db : Database) (s : Seeds)
    (hAES : db.CipherID = CipherUUIDAesParsed)
    (h1 : s.masterSeed.length = 32) (h2 : s.transformSeed.length = 32)
    (h3 : s.encryptionIV.length = 16) (h4 : s.protectedStreamKey.length = 32)
    (h5 : s.streamStartBytes.length = 32) :
    ∃ header : List Nat,
      WriteHeader { db with InnerRandomStream := StreamCipherSalsa20 } s { buf := [] } =
        .ret () { buf := header } ∧
      header =
        [0x03, 0xD9, 0xA2, 0x9A, 0x67, 0xFB, 0x4B, 0xB5] ++ [0x01, 0x00, 0x03, 0x00] ++
        ([2, 16, 0] ++ CipherUUIDAES) ++
        ([3, 4, 0] ++ le32 db.Compression) ++
        ([4, 32, 0] ++ s.masterSeed) ++
        ([5, 32, 0] ++ s.transformSeed) ++
        ([6, 8, 0] ++ le64 db.KeyEncryptionRounds) ++
        ([7, 16, 0] ++ s.encryptionIV) ++
        ([8, 32, 0] ++ s.protectedStreamKey) ++
        ([9, 32, 0] ++ s.streamStartBytes) ++
        ([10, 4, 0] ++ [2, 0, 0, 0]) ++
        ([0, 4, 0] ++ [13, 10, 13, 10]) ∧
      header.length = 222 := by
  refine ⟨_, WriteHeader_bytes _ s _ hAES h1 h2 h3 h4 h5, ?_, ?_⟩
  · have hi : le32 StreamCipherSalsa20 = [2, 0, 0, 0] := by decide
    dsimp only
    rw [hi]
  have l4 : ∀ v, (le32 v).length = 4 := fun _ => rfl
  have l8 : ∀ v, (le64 v).length = 8 := fun _ => rfl
  have lc : CipherUUIDAES.length = 16 := rfl
  simp only [List.length_append, List.length_cons, List.length_nil, h1, h2, h3, h4, h5, l4, l8, lc]

/-- C13 (as amended) at a concrete input: the test database and seeds that are
all zero. The header starts with the magic, the version and the frame `2, 16, 0`
of the cipher identifier, and is 222 bytes long. -/
theorem WriteOut_header_layout_witness :
    ∃ header : List Nat,
      WriteHeader { testDb with InnerRandomStream := StreamCipherSalsa20 } zeroSeeds
          { buf := [] } = .ret () { buf := header } ∧
      header.take 15 = [3, 217, 162, 154, 103, 251, 75, 181, 1, 0, 3, 0, 2, 16, 0] ∧
      header.length = 222 := by
  obtain ⟨header, h1, h2, h3⟩ :=
    WriteOut_header_layout testDb zeroSeeds rfl rfl rfl rfl rfl rfl
  refine ⟨header, h1, ?_, h3⟩
  rw [h2]
  rfl

/-- C13 as stated fails at a concrete input: for a database whose cipher
identifier is sixteen zero bytes the header part stops with a panic when the
buffer holds the 12 bytes of magic and version and no field, and so does
`WriteOut`; the header is not 222 bytes long. -/
theorem WriteHeader_other_cipher_no_fields :
    WriteHeader
        { Name := "", Description := "", CipherID := List.replicate 16 0,
          Compression := CompressionNone, KeyEncryptionRounds := 6000,
          InnerRandomStream := StreamCipherSalsa20 }
        zeroSeeds { buf := [] } =
      .panic "keepass.Database.WriteOut: Don't know how to write out any cipher other than AES"
        { buf := [3, 217, 162, 154, 103, 251, 75, 181, 1, 0, 3, 0] } ∧
    WriteOut testEnv acceptAll 2
        { Name := "", Description := "", CipherID := List.replicate 16 0,
          Compression := CompressionNone, KeyEncryptionRounds := 6000,
          InnerRandomStream := StreamCipherNone }
        zeroSeeds ([] : List Nat) WriteFormatEncrypted =
      .panic "keepass.Database.WriteOut: Don't know how to write out any cipher other than AES"
        (.unset { w := [], hasher := { written := [] }, byteCount := 0 }) := by
  constructor <;> decide

/-- C14: for every database whose cipher identifier differs from the AES
identifier, `WriteOut` in the encrypted format panics, whatever the random
source delivers, and at the panic the writer over the caller's sink is as
`NewHashingWriter` made it: the sink is in its first state and no byte has been
written to it. With full reads of random bytes the panic is the one of the
cipher check. -/
theorem WriteOut_other_cipher_panics {σ β ξ : Type} (E : Env β ξ) (W : Writer σ) (budget : Nat)
    (db : Database) (rnd : Seeds) (w : σ) (hne : db.CipherID ≠ CipherUUIDAesParsed) :
    (∃ msg, WriteOut E W budget db rnd w WriteFormatEncrypted =
      .panic msg (.unset (NewHashingWriter w))) ∧
    (rnd.masterSeed.length = 32 → rnd.transformSeed.length = 32 →
      rnd.encryptionIV.length = 16 → rnd.protectedStreamKey.length = 32 →
      rnd.streamStartBytes.length = 32 →
      WriteOut E W budget db rnd w WriteFormatEncrypted =
        .panic "keepass.Database.WriteOut: Don't know how to write out any cipher other than AES"
          (.unset (NewHashingWriter w))) := by
  have hne' : ({ db with InnerRandomStream := StreamCipherSalsa20 } : Database).CipherID ≠
      CipherUUIDAesParsed := hne
  constructor
  · unfold WriteOut
    simp only
    split
    · rw [if_pos trivial, WriteHeader_other_cipher _ _ _ hne']
      exact ⟨_, rfl⟩
    · exact ⟨_, rfl⟩
  · intro h1 h2 h3 h4 h5
    unfold WriteOut
    simp only [fillRandomOrPanic_eq _ _ h1, fillRandomOrPanic_eq _ _ h2,
      fillRandomOrPanic_eq _ _ h3, fillRandomOrPanic_eq _ _ h4, fillRandomOrPanic_eq _ _ h5]
    rw [if_pos trivial, WriteHeader_other_cipher _ _ _ hne']

/-- C14 at a concrete input: a database whose cipher identifier is sixteen zero
bytes and a sink that records what it accepts. `WriteOut` panics and the sink
has recorded nothing. -/
theorem WriteOut_other_cipher_panics_witness :
    WriteOut testEnv acceptAll 2
        { Name := "", Description := "", CipherID := List.replicate 16 0,
          Compression := CompressionNone, KeyEncryptionRounds := 6000,
          InnerRandomStream := StreamCipherNone }
        zeroSeeds ([] : List Nat) WriteFormatEncrypted =
      .panic "keepass.Database.WriteOut: Don't know how to write out any cipher other than AES"
        (.unset { w := [], hasher := { written := [] }, byteCount := 0 }) :=
  (WriteOut_other_cipher_panics testEnv acceptAll 2
    { Name := "", Description := "", CipherID := List.replicate 16 0,
      Compression := CompressionNone, KeyEncryptionRounds := 6000,
      InnerRandomStream := StreamCipherNone }
    zeroSeeds ([] : List Nat) (by decide)).2 rfl rfl rfl rfl rfl

/-! ## The count `WriteOut` returns (C15) -/

/-- Over a sink that reports counts `n >= 0`, `Write` keeps the counter equal to
the length of the digested data modulo `2 ^ 64`, however it ends. -/
theorem HashingWriter_Write_keeps_count {σ : Type} (W : Writer σ)
    (hW : ∀ st p n err st', W.Write st p = .ret (n, err) st' → 0 ≤ n)
    (hw : HashingWriter σ) (p : List Nat) (h : CountInv hw) :
    CountInv (hw.Write W p).state := by
  unfold CountInv at *
  unfold HashingWriter.Write
  cases hs : W.Write hw.w p with
  | panic msg w => exact h
  | hang w => exact h
  | ret r w =>
    obtain ⟨n, err⟩ := r
    have hn := hW _ _ _ _ _ hs
    simp only
    by_cases hpos : 0 < n
    · rw [if_pos hpos]
      by_cases hlen : (p.length : Int) < n
      · rw [if_pos hlen]; exact h
      · rw [if_neg hlen]
        simp only [Outcome.state, Hash.Write, List.length_append, List.length_take]
        omega
    · rw [if_neg hpos]
      simp only [Outcome.state]
      omega

/-- What every `Write` of the stream keeps, the writes of a call of the XML
encoder keep. -/
theorem xmlWriteChunks_keeps {σ β : Type} (W : Writer σ) (B : BlockMode β) (budget : Nat)
    (P : SaveState σ β → Prop) (hP : ∀ st p, P st → P (st.Write W B budget p).state)
    (chunks : List (List Nat)) :
    ∀ st : SaveState σ β, P st → P (xmlWriteChunks W B budget chunks st).state := by
  induction chunks with
  | nil => intro st h; exact h
  | cons c cs ih =>
    intro st h
    have h1 := hP st c h
    simp only [xmlWriteChunks]
    cases hr : st.Write W B budget c with
    | panic msg st' => rw [hr] at h1; exact h1
    | hang st' => rw [hr] at h1; exact h1
    | ret r st' =>
      rw [hr] at h1
      obtain ⟨n, err⟩ := r
      simp only
      split
      · exact h1
      · exact ih st' h1

theorem xmlCall_keeps {σ β ξ : Type} (E : Env β ξ) (W : Writer σ) (budget : Nat)
    (P : SaveState σ β → Prop) (hP : ∀ st p, P st → P (st.Write W E.blockMode budget p).state)
    (call : XmlCall) (enc : ξ × Bool) (st : SaveState σ β) (h : P st) :
    P (xmlCall E W budget call enc st).state := by
  simp only [xmlCall]
  split
  · exact h
  · exact bind_state _ _ _ (xmlWriteChunks_keeps W E.blockMode budget P hP _ st h)
      (fun _ _ hst => hst)

/-- What every `Write` of the stream keeps, `WriteDocument` keeps. -/
theorem WriteDocument_keeps {σ β ξ : Type} (E : Env β ξ) (W : Writer σ) (budget : Nat)
    (P : SaveState σ β → Prop) (hP : ∀ st p, P st → P (st.Write W E.blockMode budget p).state)
    (hashOfHeader : List Nat) (haveHashOfHeader : Bool) (st : SaveState σ β) (h : P st) :
    P (WriteDocument E W budget hashOfHeader haveHashOfHeader st).state := by
  unfold WriteDocument
  simp only
  refine bind_state _ _ _ (hP st _ h) (fun _ st h => ?_)
  refine bind_state _ _ _ (xmlCall_keeps E W budget P hP _ _ st h) (fun _ st h => ?_)
  refine bind_state _ _ _ (xmlCall_keeps E W budget P hP _ _ st h) (fun _ st h => ?_)
  refine bind_state _ _ _ (xmlCall_keeps E W budget P hP _ _ st h) (fun enc st h => ?_)
  refine bind_state _ _ _ ?_ (fun _ st h => ?_)
  · split
    · exact xmlCall_keeps E W budget P hP _ _ st h
    · exact h
  refine bind_state _ _ _ (xmlCall_keeps E W budget P hP _ _ st h) (fun _ st h => ?_)
  refine bind_state _ _ _ (xmlCall_keeps E W budget P hP _ _ st h) (fun _ st h => ?_)
  exact h

theorem plain_Write_keeps_count {σ β : Type} (W : Writer σ) (B : BlockMode β) (budget : Nat)
    (hW : ∀ st p n err st', W.Write st p = .ret (n, err) st' → 0 ≤ n)
    (st : SaveState σ β) (p : List Nat)
    (h : ∃ hw, st = .plain hw ∧ CountInv hw) :
    ∃ hw, (st.Write W B budget p).state = .plain hw ∧ CountInv hw := by
  obtain ⟨hw, rfl, hc⟩ := h
  have := HashingWriter_Write_keeps_count W hW hw p hc
  simp only [SaveState.Write]
  cases hr : hw.Write W p <;> (rw [hr] at this; exact ⟨_, rfl, this⟩)

/-- A return through `returnCount` returns the counter of the state it returns. -/
theorem returnCount_bind {σ β α : Type} (x : Outcome (SaveState σ β) α) (e : Option Error)
    (count : Nat) (err : Option Error) (st : SaveState σ β)
    (h : (x.bind fun _ st => returnCount e st) = .ret (count, err) st) :
    count = st.hashingWriter.ByteCount ∧ st = x.state := by
  cases x with
  | ret a s =>
    simp only [Outcome.bind, returnCount, Outcome.ret.injEq, Prod.mk.injEq] at h
    obtain ⟨⟨h1, _⟩, h2⟩ := h
    subst h2
    exact ⟨h1.symm, rfl⟩
  | panic msg s => simp [Outcome.bind] at h
  | hang s => simp [Outcome.bind] at h

/-- In the encrypted format the document leaves the writer over the sink as it
was. -/
theorem encrypted_document_hashingWriter {σ β ξ : Type} (E : Env β ξ) (W : Writer σ)
    (budget : Nat) (hashOfHeader : List Nat) (haveHashOfHeader : Bool) (hw : HashingWriter σ)
    (key iv : List Nat) :
    (WriteDocument E W budget hashOfHeader haveHashOfHeader
      (.encrypted (NewAES256_CBC_PCKS7_Encoder E.newCBCEncrypter hw key iv))).state.hashingWriter =
      hw :=
  SaveInv_hashingWriter _ _ _ _ _
    (WriteDocument_keeps_inv E W budget hashOfHeader haveHashOfHeader
      (NewAES256_CBC_PCKS7_Encoder E.newCBCEncrypter hw key iv) rfl rfl
      (by simp only [NewAES256_CBC_PCKS7_Encoder, Slice.make, Slice.cap, List.length_replicate]
          decide))

/-- C15: for every call of `WriteOut` that returns, with or without an error,
the count returned is the `ByteCount` of its `HashingWriter` at the return (the
deferred assignment replaces the literal 0 of the return statements); over a
sink that reports counts `n >= 0` that is the number of bytes the sink accepted
during the call, which is the length of the data fed to the digest, as a
`uint64`. -/
theorem WriteOut_returns_ByteCount {σ β ξ : Type} (E : Env β ξ) (W : Writer σ) (budget : Nat)
    (db : Database) (rnd : Seeds) (w : σ) (format : Int) (count : Nat) (err : Option Error)
    (st : SaveState σ β)
    (h : WriteOut E W budget db rnd w format = .ret (count, err) st) :
    count = st.hashingWriter.ByteCount ∧
      ((∀ s p n e s', W.Write s p = .ret (n, e) s' → 0 ≤ n) →
        count = st.hashingWriter.hasher.written.length % 2 ^ 64) := by
  have hnew : CountInv (NewHashingWriter w) := rfl
  unfold WriteOut at h
  simp only at h
  split at h
  · split at h
    · -- encrypted
      split at h
      · simp at h
      · simp at h
      · rw [sumOfBuffer_drains, WriteTo_empty] at h
        simp only at h
        split at h
        · simp only [returnCount, Outcome.ret.injEq, Prod.mk.injEq] at h
          obtain ⟨⟨h1, _⟩, h2⟩ := h
          subst h2
          exact ⟨h1.symm, fun _ => h1.symm⟩
        · obtain ⟨h1, h2⟩ := returnCount_bind _ _ _ _ _ h
          refine ⟨h1, fun _ => ?_⟩
          rw [h1, h2, encrypted_document_hashingWriter]
          rfl
    · split at h
      · obtain ⟨h1, h2⟩ := returnCount_bind _ _ _ _ _ h
        refine ⟨h1, fun hW => ?_⟩
        have hinv := WriteDocument_keeps E W budget
          (fun st => ∃ hw, st = .plain hw ∧ CountInv hw)
          (fun st p hst => plain_Write_keeps_count W E.blockMode budget hW st p hst)
          (List.replicate 32 0) false (.plain (NewHashingWriter w)) ⟨_, rfl, hnew⟩
        rw [← h2] at hinv
        obtain ⟨hw, rfl, hc⟩ := hinv
        rw [h1]
        exact hc
      · simp at h
  · simp at h

/-- C15 at a concrete input: the plain format over a sink that accepts
everything and an XML encoder that writes nothing. The sink accepts the 56
bytes of `xmlHeader` and `WriteOut` returns 56, not 0. -/
theorem WriteOut_returns_ByteCount_witness :
    WriteOut testEnv acceptAll 2 testDb zeroSeeds ([] : List Nat) WriteFormatPlain =
        .ret (56, none)
          (.plain { w := xmlHeader, hasher := { written := xmlHeader }, byteCount := 56 }) ∧
      (56 : Nat) =
        (SaveState.plain { w := xmlHeader, hasher := { written := xmlHeader }, byteCount := 56 } :
          SaveState (List Nat) (List Nat × List Nat)).hashingWriter.ByteCount := by
  have hrun : WriteOut testEnv acceptAll 2 testDb zeroSeeds ([] : List Nat) WriteFormatPlain =
      .ret (56, none)
        (.plain { w := xmlHeader, hasher := { written := xmlHeader }, byteCount := 56 }) := by
    decide!
  exact ⟨hrun, (WriteOut_returns_ByteCount testEnv acceptAll 2 testDb zeroSeeds ([] : List Nat)
    WriteFormatPlain 56 none _ hrun).1⟩

/-! ## `NewSalsaRandomStream` (C16) -/

/-- C16: for every protected-stream key `k`, the cipher of
`NewSalsaRandomStream(k)` is in the state of
`NewSalsa20Cipher(SHA-256(k), iv, nil)` with the IV bytes
`E8 30 09 4B 97 20 5D 2A`; the stream depends on `k` through its digest only:
two keys (and digest functions) that give the same digest give the same
stream, so the raw bytes of `k` are not used as the cipher key. -/
theorem NewSalsaRandomStream_key_is_digest (sha256 : List Nat → List Nat) (k : List Nat) :
    (NewSalsaRandomStream sha256 k).Salsa20Cipher =
      NewSalsa20Cipher (sha256 k) [0xE8, 0x30, 0x09, 0x4B, 0x97, 0x20, 0x5D, 0x2A] none ∧
    ∀ (sha256' : List Nat → List Nat) (k' : List Nat), sha256 k = sha256' k' →
      NewSalsaRandomStream sha256 k = NewSalsaRandomStream sha256' k' := by
  refine ⟨rfl, ?_⟩
  intro sha256' k' h
  simp only [NewSalsaRandomStream, h]

/-! ## The two modes of `Cipher` (C17) -/

/-- C17: for every cipher state `s` and every buffer `p`, both modes of `Cipher`
return and use the same keystream: `Cipher(p, true)` from `s` leaves
`p[i] XOR k[i]` at every index `i`, where `k` is what `Cipher(q, false)` from
the same state `s` writes into a buffer `q` of the same length, and both calls
end in the same cipher state. A cipher state is one the code can be in: a
64-byte `output` array and `0 <= outputPos <= 64`, which `NewSalsa20Cipher`
establishes and `next` and `Cipher` keep (`NewSalsa20Cipher_WF`, `next_WF`,
`keystream_WF`). -/
theorem Cipher_modes_share_keystream (s20 : Salsa20Cipher) (p q : List Nat)
    (hout : s20.output.length = 64) (hlo : 0 ≤ s20.outputPos) (hhi : s20.outputPos ≤ 64)
    (hlen : q.length = p.length) :
    ∃ (s' : Salsa20Cipher) (k : List Nat), k.length = p.length ∧
      s20.Cipher q false = .ret () (s', k) ∧
      s20.Cipher p true = .ret () (s', List.zipWith (fun x y => x ^^^ y) p k) ∧
      ∀ i, i < p.length →
        (List.zipWith (fun x y => x ^^^ y) p k).getD i 0 = p.getD i 0 ^^^ k.getD i 0 := by
  obtain ⟨s', k, hk, _, hrun⟩ :=
    cipherLoop_keystream (p.length + 1) p.length s20 ⟨hout, hlo, hhi⟩ (Nat.lt_succ_self _)
  refine ⟨s', k, hk, ?_, ?_, ?_⟩
  · have h := hrun false [] q hlen
    simp only [List.nil_append, List.length_nil] at h
    unfold Salsa20Cipher.Cipher
    rw [hlen]
    exact h
  · have h := hrun true [] p rfl
    simp only [List.nil_append, List.length_nil] at h
    exact h
  · intro i hi
    rw [List.getD_eq_getElem?_getD, List.getD_eq_getElem?_getD, List.getD_eq_getElem?_getD,
      List.getElem?_zipWith, List.getElem?_eq_getElem hi, List.getElem?_eq_getElem (by omega)]
    rfl

/-- C17 at a concrete input: a state with `outputPos = 64` and
buffers of three bytes. -/
theorem Cipher_modes_share_keystream_witness :
    ∃ (s' : Salsa20Cipher) (k : List Nat), k.length = 3 ∧
      Salsa20Cipher.Cipher ⟨List.replicate 16 0, List.replicate 64 0, 64⟩ [9, 9, 9] false =
        .ret () (s', k) ∧
      Salsa20Cipher.Cipher ⟨List.replicate 16 0, List.replicate 64 0, 64⟩ [1, 2, 3] true =
        .ret () (s', List.zipWith (fun x y => x ^^^ y) [1, 2, 3] k) := by
  obtain ⟨s', k, h1, h2, h3, _⟩ := Cipher_modes_share_keystream
    ⟨List.replicate 16 0, List.replicate 64 0, 64⟩ [1, 2, 3] [9, 9, 9] rfl (by decide) (by decide)
    rfl
  exact ⟨s', k, h1, h2, h3⟩

/-! ## `ProtectedBuffer.Clear` (C18) -/

/-- C18: for every `ProtectedBuffer`, after `Clear` the buffer has the length
it had and every byte of it is zero, and `String` and `WriteTo` called
afterwards give none of the earlier content: `String` returns the empty string
and `WriteTo` writes nothing to its writer and returns `(0, nil)`. -/
theorem ProtectedBuffer_Clear_zeroes {σ : Type} (pb : ProtectedBuffer) (st : σ) :
    (ProtectedBuffer.Clear pb).length = pb.length ∧
    (∀ b ∈ ProtectedBuffer.Clear pb, b = 0) ∧
    ProtectedBuffer.Clear pb = List.replicate pb.length 0 ∧
    ProtectedBuffer.String (ProtectedBuffer.Clear pb) = "" ∧
    ProtectedBuffer.WriteTo (ProtectedBuffer.Clear pb) st = ((0, none), st) := by
  have hrep : ProtectedBuffer.Clear pb = List.replicate pb.length 0 := by
    unfold ProtectedBuffer.Clear
    induction pb with
    | nil => rfl
    | cons x xs ih => simp [List.replicate_succ, ih]
  refine ⟨?_, ?_, hrep, rfl, rfl⟩
  · rw [hrep, List.length_replicate]
  · intro b hb
    rw [hrep] at hb
    exact List.eq_of_mem_replicate hb

/-! ## The cipher is Salsa20/20 (C19) -/

/-- On a 32-bit word `rotl32` is the rotation of the reference. -/
theorem rotl32_eq_refRotl (v c : Nat) (hc : c ≤ 32) :
    rotl32 (v % 2 ^ 32) c = refRotl (v % 2 ^ 32) c := by
  have hx : v % 2 ^ 32 < 2 ^ 32 := Nat.mod_lt _ (by decide)
  generalize v % 2 ^ 32 = x at hx
  unfold rotl32 refRotl
  have hpow : 2 ^ 32 = 2 ^ c * 2 ^ (32 - c) := by
    rw [← Nat.pow_add]; congr 1; omega
  have h1 : (x <<< c) % 2 ^ 32 = 2 ^ c * (x % 2 ^ (32 - c)) := by
    rw [Nat.shiftLeft_eq, Nat.mul_comm x, hpow, Nat.mul_mod_mul_left]
  have h2 : x / 2 ^ (32 - c) < 2 ^ c := by
    rw [Nat.div_lt_iff_lt_mul (Nat.pos_pow_of_pos _ (by decide))]
    rw [← hpow]
    exact hx
  rw [h1, Nat.shiftRight_eq_div_pow, Nat.mul_add_lt_is_or h2]


/-- One line of the round loop, in the words of the reference. -/
theorem mixWord_ref (s : List Nat) (t a b c : Nat) (hc : c ≤ 32) :
    mixWord s (t, a, b, c) = s.set t (s.getD t 0 ^^^ refRotl (refAdd (s.getD a 0) (s.getD b 0)) c) := by
  simp only [mixWord, refAdd, rotl32_eq_refRotl _ _ hc]

/-- The first sixteen lines of the round loop are the column round. -/
theorem columnSteps_eq (x0 x1 x2 x3 x4 x5 x6 x7 x8 x9 x10 x11 x12 x13 x14 x15 : Nat) :
    (roundSteps.take 16).foldl mixWord
        [x0, x1, x2, x3, x4, x5, x6, x7, x8, x9, x10, x11, x12, x13, x14, x15] =
      refColumnRound [x0, x1, x2, x3, x4, x5, x6, x7, x8, x9, x10, x11, x12, x13, x14, x15] := by
  simp only [roundSteps, List.take, List.foldl_cons, List.foldl_nil,
    mixWord_ref _ _ _ _ _ (by decide : 7 ≤ 32), mixWord_ref _ _ _ _ _ (by decide : 9 ≤ 32),
    mixWord_ref _ _ _ _ _ (by decide : 13 ≤ 32), mixWord_ref _ _ _ _ _ (by decide : 18 ≤ 32),
    List.set_cons_zero, List.set_cons_succ, List.getD_cons_zero, List.getD_cons_succ,
    refColumnRound, refQuarterRound]

/-- The last sixteen lines of the round loop are the row round. -/
theorem rowSteps_eq (x0 x1 x2 x3 x4 x5 x6 x7 x8 x9 x10 x11 x12 x13 x14 x15 : Nat) :
    (roundSteps.drop 16).foldl mixWord
        [x0, x1, x2, x3, x4, x5, x6, x7, x8, x9, x10, x11, x12, x13, x14, x15] =
      refRowRound [x0, x1, x2, x3, x4, x5, x6, x7, x8, x9, x10, x11, x12, x13, x14, x15] := by
  simp only [roundSteps, List.drop, List.foldl_cons, List.foldl_nil,
    mixWord_ref _ _ _ _ _ (by decide : 7 ≤ 32), mixWord_ref _ _ _ _ _ (by decide : 9 ≤ 32),
    mixWord_ref _ _ _ _ _ (by decide : 13 ≤ 32), mixWord_ref _ _ _ _ _ (by decide : 18 ≤ 32),
    List.set_cons_zero, List.set_cons_succ, List.getD_cons_zero, List.getD_cons_succ,
    refRowRound, refQuarterRound]


theorem list16 (l : List Nat) (h : l.length = 16) :
    ∃ x0 x1 x2 x3 x4 x5 x6 x7 x8 x9 x10 x11 x12 x13 x14 x15,
      l = [x0, x1, x2, x3, x4, x5, x6, x7, x8, x9, x10, x11, x12, x13, x14, x15] := by
  match l, h with
  | [x0, x1, x2, x3, x4, x5, x6, x7, x8, x9, x10, x11, x12, x13, x14, x15], _ =>
    exact ⟨_, _, _, _, _, _, _, _, _, _, _, _, _, _, _, _, rfl⟩

/-- One pass through the round loop is the double round. -/
theorem doubleRound_eq_ref (l : List Nat) (h : l.length = 16) :
    doubleRound l = refDoubleRound l := by
  obtain ⟨x0, x1, x2, x3, x4, x5, x6, x7, x8, x9, x10, x11, x12, x13, x14, x15, rfl⟩ := list16 l h
  have hsplit : roundSteps = roundSteps.take 16 ++ roundSteps.drop 16 :=
    (List.take_append_drop 16 roundSteps).symm
  unfold doubleRound
  rw [hsplit, List.foldl_append, columnSteps_eq]
  unfold refDoubleRound
  generalize hy : refColumnRound
    [x0, x1, x2, x3, x4, x5, x6, x7, x8, x9, x10, x11, x12, x13, x14, x15] = y
  have hy16 : y.length = 16 := by rw [← hy]; rfl
  obtain ⟨y0, y1, y2, y3, y4, y5, y6, y7, y8, y9, y10, y11, y12, y13, y14, y15, rfl⟩ :=
    list16 y hy16
  exact rowSteps_eq _ _ _ _ _ _ _ _ _ _ _ _ _ _ _ _

theorem refDoubleRound_length (x : List Nat) : (refDoubleRound x).length = 16 := rfl

theorem rounds_eq_ref (n : Nat) : ∀ l : List Nat, l.length = 16 → rounds n l = refRounds n l := by
  induction n with
  | zero => intro l _; rfl
  | succ n ih =>
    intro l h
    rw [rounds, refRounds, doubleRound_eq_ref l h]
    exact ih _ (refDoubleRound_length l)

theorem refRounds_length (n : Nat) : ∀ l : List Nat, l.length = 16 → (refRounds n l).length = 16 := by
  induction n with
  | zero => intro l h; exact h
  | succ n ih => intro l _; exact ih _ (refDoubleRound_length l)

theorem addState_eq_zipWith : ∀ (a b : List Nat), a.length = b.length →
    addState a b = List.zipWith refAdd a b := by
  intro a
  induction a with
  | nil => intro b _; cases b <;> rfl
  | cons x xs ih =>
    intro b h
    cases b with
    | nil => simp at h
    | cons y ys =>
      simp only [addState, List.zipWith_cons_cons, refAdd, List.cons.injEq, true_and]
      exact ih ys (by simpa using h)

theorem le32_eq_refBytes (v : Nat) : le32 v = refBytes v := by
  simp only [le32, refBytes, Nat.shiftRight_eq_div_pow]

/-- The serialisation loop writes the first `n` words little-endian over the
first `4 * n` bytes of the output. -/
theorem serialize_eq (scratch : List Nat) (output : List Nat) :
    ∀ n, n ≤ scratch.length → 4 * n ≤ output.length →
      serialize n scratch output = (scratch.take n).flatMap le32 ++ output.drop (4 * n) := by
  intro n
  induction n with
  | zero => intro _ _; simp [serialize]
  | succ n ih =>
    intro hn hout
    have hlen : ((scratch.take n).flatMap le32).length = 4 * n := by
      have : ∀ l : List Nat, (l.flatMap le32).length = 4 * l.length := by
        intro l
        induction l with
        | nil => rfl
        | cons x xs ih => simp only [List.flatMap_cons, List.length_append, ih, List.length_cons]
                          simp only [le32, List.length_cons, List.length_nil]; omega
      rw [this, List.length_take]; omega
    rw [serialize, ih (by omega) (by omega), PutUint32, Nat.shiftLeft_eq]
    rw [window_copy_eq _ _ _ _ (by simp [le32]) (by
      rw [List.length_append, hlen, List.length_drop]; omega)]
    have e1 : n * 2 ^ 2 = 4 * n := by omega
    rw [e1]
    have t1 : ((scratch.take n).flatMap le32 ++ output.drop (4 * n)).take (4 * n) =
        (scratch.take n).flatMap le32 := by
      rw [List.take_append_of_le_length (by omega), List.take_of_length_le (by omega)]
    have t2 : ((scratch.take n).flatMap le32 ++ output.drop (4 * n)).drop (4 * n + 4) =
        output.drop (4 * (n + 1)) := by
      rw [List.drop_append_eq_append_drop, List.drop_of_length_le (by omega), hlen,
        List.nil_append, List.drop_drop]
      congr 1
      omega
    rw [t1, t2]
    have t3 : scratch.take (n + 1) = scratch.take n ++ [scratch.getD n 0] := by
      rw [List.take_succ, List.getD_eq_getElem?_getD]
      rw [List.getElem?_eq_getElem (by omega)]
      rfl
    rw [t3, List.flatMap_append]
    simp

theorem lor_shiftLeft_eq_add (a c k : Nat) (ha : a < 2 ^ k) : a ||| (c <<< k) = a + 2 ^ k * c := by
  rw [Nat.lor_comm, Nat.shiftLeft_eq, Nat.mul_comm c, ← Nat.mul_add_lt_is_or ha, Nat.add_comm]

theorem getD_lt_256 (b : List Nat) (hb : ∀ x ∈ b, x < 256) (i : Nat) : b.getD i 0 < 256 := by
  rw [List.getD_eq_getElem?_getD]
  cases h : b[i]? with
  | none => simp
  | some v =>
    obtain ⟨hi, hv⟩ := List.getElem?_eq_some_iff.mp h
    exact hb v (hv ▸ List.getElem_mem hi)

/-- On bytes `Uint32` is the little-endian word of the reference. -/
theorem Uint32_eq_refWord (b : List Nat) (hb : ∀ x ∈ b, x < 256) : Uint32 b = refWord b := by
  have h0 := getD_lt_256 b hb 0
  have h1 := getD_lt_256 b hb 1
  have h2 := getD_lt_256 b hb 2
  unfold Uint32 refWord
  rw [lor_shiftLeft_eq_add _ _ 8 (by omega), lor_shiftLeft_eq_add _ _ 16 (by omega),
    lor_shiftLeft_eq_add _ _ 24 (by omega)]

theorem drop_lt_256 (b : List Nat) (hb : ∀ x ∈ b, x < 256) (k : Nat) :
    ∀ x ∈ b.drop k, x < 256 :=
  fun x hx => hb x (List.mem_of_mem_drop hx)

/-- The state `NewSalsa20Cipher` builds is the input of the reference for block
counter 0. -/
theorem NewSalsa20Cipher_state_eq_refInput (key iv : List Nat) (dest : Option Salsa20Cipher)
    (hkey : ∀ x ∈ key, x < 256) (hiv : ∀ x ∈ iv, x < 256) :
    (NewSalsa20Cipher key iv dest).state = refInput key iv 0 := by
  have hs1 : s20_sigma1 = refWord refSigma := by decide
  have hs2 : s20_sigma2 = refWord (refSigma.drop 4) := by decide
  have hs3 : s20_sigma3 = refWord (refSigma.drop 8) := by decide
  have hs4 : s20_sigma4 = refWord (refSigma.drop 12) := by decide
  simp only [NewSalsa20Cipher, refInput, Uint32_eq_refWord _ (drop_lt_256 key hkey _),
    Uint32_eq_refWord _ (drop_lt_256 iv hiv _), Uint32_eq_refWord key hkey,
    Uint32_eq_refWord iv hiv, ← hs1, ← hs2, ← hs3, ← hs4, List.drop_zero,
    Nat.zero_mod, Nat.zero_div]

theorem refInput_length (key iv : List Nat) (c : Nat) : (refInput key iv c).length = 16 := rfl

/-- The block of `next`, in the words of the reference. -/
theorem block_eq_ref (s20 : Salsa20Cipher) (hst : s20.state.length = 16)
    (hout : s20.output.length = 64) :
    s20.block = (List.zipWith refAdd (refRounds 10 s20.state) s20.state).flatMap refBytes := by
  have hr : (refRounds 10 s20.state).length = 16 := refRounds_length 10 _ hst
  have hz : (List.zipWith refAdd (refRounds 10 s20.state) s20.state).length = 16 := by
    rw [List.length_zipWith, hr, hst]; rfl
  unfold Salsa20Cipher.block
  rw [rounds_eq_ref 10 _ hst, addState_eq_zipWith _ _ (by rw [hr, hst]),
    serialize_eq _ _ 16 (by omega) (by omega), List.take_of_length_le (by omega),
    List.drop_of_length_le (by omega), List.append_nil]
  congr 1
  funext v
  exact le32_eq_refBytes v

/-- C19: for every key and IV (of bytes), and whatever destination the
constructor was given, the 64-byte block that `next()` produces from the state
built by `NewSalsa20Cipher` equals the reference Salsa20/20 block function of
(key, nonce = IV, block counter 0): state words sigma0, k0..k3, sigma1, n0, n1,
c0, c1, sigma2, k4..k7, sigma3, ten double rounds (column round, then row round,
of quarter-rounds with rotations 7, 9, 13, 18), word-wise addition of the input
state modulo `2 ^ 32`, little-endian serialisation. -/
theorem next_is_Salsa20 (key iv : List Nat) (dest : Option Salsa20Cipher)
    (hkey : ∀ x ∈ key, x < 256) (hiv : ∀ x ∈ iv, x < 256)
    (hdest : ∀ d ∈ dest, d.output.length = 64) :
    (NewSalsa20Cipher key iv dest).next.output = refSalsa20Block key iv 0 := by
  have hst := NewSalsa20Cipher_state_eq_refInput key iv dest hkey hiv
  have hout : (NewSalsa20Cipher key iv dest).output.length = 64 := by
    cases dest with
    | none => rfl
    | some d => exact hdest d rfl
  show (NewSalsa20Cipher key iv dest).block = _
  rw [block_eq_ref _ (by rw [hst]; rfl) hout, hst]
  rfl

/-- C19 at a concrete input: the all-zero key and IV, whose first block starts
`9A 97 F6 5B 9B 4C 72 1B`. -/
theorem next_is_Salsa20_witness :
    (NewSalsa20Cipher (List.replicate 32 0) (List.replicate 8 0) none).next.output =
        refSalsa20Block (List.replicate 32 0) (List.replicate 8 0) 0 ∧
      (refSalsa20Block (List.replicate 32 0) (List.replicate 8 0) 0).take 8 =
        [154, 151, 246, 91, 155, 76, 114, 27] :=
  ⟨next_is_Salsa20 (List.replicate 32 0) (List.replicate 8 0) none (by decide) (by decide)
    (by simp), by decide!⟩

/-! ## The block counter (C20) -/

/-- C20: for every cipher state (sixteen 32-bit words), `next()` advances the
64-bit block counter formed by `state[8]` (low word) and `state[9]` (high word)
by exactly 1 modulo `2 ^ 64`: `state[8]` is incremented modulo `2 ^ 32`, and
`state[9]` is incremented modulo `2 ^ 32` exactly when `state[8]` wraps to 0;
the other 14 state words are unchanged and `outputPos` is reset to 0. -/
theorem next_advances_counter (s20 : Salsa20Cipher) (hlen : s20.state.length = 16)
    (h8 : s20.state.getD 8 0 < 2 ^ 32) (h9 : s20.state.getD 9 0 < 2 ^ 32) :
    s20.next.state.getD 8 0 + 2 ^ 32 * s20.next.state.getD 9 0 =
      (s20.state.getD 8 0 + 2 ^ 32 * s20.state.getD 9 0 + 1) % 2 ^ 64 ∧
    s20.next.state.getD 8 0 = (s20.state.getD 8 0 + 1) % 2 ^ 32 ∧
    s20.next.state.getD 9 0 =
      (if s20.next.state.getD 8 0 = 0 then (s20.state.getD 9 0 + 1) % 2 ^ 32
        else s20.state.getD 9 0) ∧
    (∀ i, i ≠ 8 → i ≠ 9 → s20.next.state.getD i 0 = s20.state.getD i 0) ∧
    s20.next.state.length = 16 ∧
    s20.next.outputPos = 0 := by
  have hn : s20.next.state = bumpCounter s20.state := rfl
  have hp : s20.next.outputPos = 0 := rfl
  rw [hn]
  generalize s20.state = st at *
  have g8 : ∀ (l : List Nat) (v : Nat), l.length = 16 → (l.set 8 v).getD 8 0 = v := by
    intro l v hl
    rw [List.getD_eq_getElem?_getD, List.getElem?_set_self (by omega)]
    rfl
  have g9 : ∀ (l : List Nat) (v : Nat), l.length = 16 → (l.set 9 v).getD 9 0 = v := by
    intro l v hl
    rw [List.getD_eq_getElem?_getD, List.getElem?_set_self (by omega)]
    rfl
  have gne : ∀ (l : List Nat) (j i v : Nat), i ≠ j → (l.set j v).getD i 0 = l.getD i 0 := by
    intro l j i v hij
    rw [List.getD_eq_getElem?_getD, List.getD_eq_getElem?_getD, List.getElem?_set_ne (Ne.symm hij)]
  have e8 : (bumpCounter st).getD 8 0 = (st.getD 8 0 + 1) % 2 ^ 32 := by
    unfold bumpCounter
    simp only
    split
    · rw [gne _ 9 8 _ (by decide), g8 _ _ hlen]
    · rw [g8 _ _ hlen]
  have e9 : (bumpCounter st).getD 9 0 =
      (if (st.getD 8 0 + 1) % 2 ^ 32 = 0 then (st.getD 9 0 + 1) % 2 ^ 32 else st.getD 9 0) := by
    unfold bumpCounter
    simp only [g8 _ _ hlen]
    split
    · rw [g9 _ _ (by rw [List.length_set]; exact hlen), gne _ 8 9 _ (by decide)]
    · rw [gne _ 8 9 _ (by decide)]
  refine ⟨?_, e8, ?_, ?_, ?_, hp⟩
  · rw [e8, e9]
    split <;> omega
  · rw [e9, e8]
  · intro i hi8 hi9
    unfold bumpCounter
    simp only
    split
    · rw [gne _ 9 i _ hi9, gne _ 8 i _ hi8]
    · rw [gne _ 8 i _ hi8]
  · unfold bumpCounter
    simp only
    split <;> simp [hlen]

/-- C20 at a concrete input: `state[8] = 2 ^ 32 - 1` and `state[9] = 7`; the low
word wraps to 0 and the carry makes the high word 8. -/
theorem next_advances_counter_witness :
    (Salsa20Cipher.next ⟨[0, 0, 0, 0, 0, 0, 0, 0, 4294967295, 7, 0, 0, 0, 0, 0, 0],
        List.replicate 64 0, 64⟩).state.getD 8 0 = 0 ∧
    (Salsa20Cipher.next ⟨[0, 0, 0, 0, 0, 0, 0, 0, 4294967295, 7, 0, 0, 0, 0, 0, 0],
        List.replicate 64 0, 64⟩).state.getD 9 0 = 8 ∧
    (Salsa20Cipher.next ⟨[0, 0, 0, 0, 0, 0, 0, 0, 4294967295, 7, 0, 0, 0, 0, 0, 0],
        List.replicate 64 0, 64⟩).outputPos = 0 := by
  have h := next_advances_counter
    ⟨[0, 0, 0, 0, 0, 0, 0, 0, 4294967295, 7, 0, 0, 0, 0, 0, 0], List.replicate 64 0, 64⟩
    rfl (by decide) (by decide)
  refine ⟨?_, ?_, h.2.2.2.2.2⟩
  · rw [h.2.1]
    decide
  · rw [h.2.2.1, h.2.1]
    decide

/-! ## The keystream is positional (C21) -/

/-- The keystream of `n1 + n2` bytes is the keystream of `n1` bytes followed by
the keystream of `n2` bytes from the state the first ends in. -/
theorem keystream_add (n1 n2 : Nat) : ∀ s20 : Salsa20Cipher,
    Salsa20Cipher.keystream (n1 + n2) s20 =
      ((Salsa20Cipher.keystream n2 (Salsa20Cipher.keystream n1 s20).1).1,
        (Salsa20Cipher.keystream n1 s20).2 ++
          (Salsa20Cipher.keystream n2 (Salsa20Cipher.keystream n1 s20).1).2) := by
  induction n1 with
  | zero => intro s20; simp [Salsa20Cipher.keystream]
  | succ n ih =>
    intro s20
    rw [Nat.succ_add]
    simp only [Salsa20Cipher.keystream, ih, List.cons_append]

theorem keystream_length (n : Nat) : ∀ s20 : Salsa20Cipher,
    (Salsa20Cipher.keystream n s20).2.length = n := by
  induction n with
  | zero => intro s20; rfl
  | succ n ih => intro s20; simp only [Salsa20Cipher.keystream, List.length_cons, ih]

theorem keystream_WF (n : Nat) : ∀ s20 : Salsa20Cipher, s20.WF →
    (Salsa20Cipher.keystream n s20).1.WF := by
  induction n with
  | zero => intro s20 h; exact h
  | succ n ih =>
    intro s20 h
    simp only [Salsa20Cipher.keystream]
    apply ih
    by_cases h64 : s20.outputPos = 64
    · rw [if_pos h64]
      have hn := next_WF s20 h.1
      have hp : s20.next.outputPos = 0 := rfl
      exact ⟨hn.1, by show 0 ≤ s20.next.outputPos + 1; omega,
        by show s20.next.outputPos + 1 ≤ 64; omega⟩
    · rw [if_neg h64]
      obtain ⟨h1, h2, h3⟩ := h
      exact ⟨h1, by show 0 ≤ s20.outputPos + 1; omega, by show s20.outputPos + 1 ≤ 64; omega⟩

/-- Within a block the keystream is a slice of `output`. -/
theorem keystream_chunk (c : Nat) : ∀ s20 : Salsa20Cipher, s20.output.length = 64 →
    0 ≤ s20.outputPos → s20.outputPos + c ≤ 64 →
    Salsa20Cipher.keystream c s20 =
      ({ s20 with outputPos := s20.outputPos + c },
        (s20.output.drop s20.outputPos.toNat).take c) := by
  induction c with
  | zero =>
    intro s20 _ _ _
    simp [Salsa20Cipher.keystream]
  | succ c ih =>
    intro s20 hlen h0 h64
    have hne : ¬ s20.outputPos = 64 := by omega
    simp only [Salsa20Cipher.keystream, if_neg hne]
    have e := ih { s20 with outputPos := s20.outputPos + 1 } hlen
      (by show 0 ≤ s20.outputPos + 1; omega)
      (by show s20.outputPos + 1 + (c : Int) ≤ 64; omega)
    rw [e]
    have hp : (s20.outputPos + 1).toNat = s20.outputPos.toNat + 1 := by omega
    have hlt : s20.outputPos.toNat < s20.output.length := by omega
    simp only [hp]
    congr 1
    · congr 1
      push_cast
      omega
    · rw [List.drop_eq_getElem_cons hlt, List.take_succ_cons, List.getD_eq_getElem?_getD,
        List.getElem?_eq_getElem hlt]
      rfl

/-- At the end of a block the keystream goes on with the block of `next`. -/
theorem keystream_at_64 (n : Nat) (s20 : Salsa20Cipher) (h : s20.outputPos = 64) (hn : 0 < n) :
    Salsa20Cipher.keystream n s20 = Salsa20Cipher.keystream n s20.next := by
  cases n with
  | zero => omega
  | succ n =>
    have hp : ¬ s20.next.outputPos = 64 := by
      show ¬ (0 : Int) = 64
      decide
    simp only [Salsa20Cipher.keystream, if_pos h, if_neg hp]

/-- The loop of `Cipher` draws the positional keystream: from a well-formed
state and with enough budget it returns, in the state the keystream ends in,
with the buffer XOR the keystream (XOR mode) or the keystream (copy mode). -/
theorem cipherLoop_eq_keystream : ∀ (budget n : Nat) (s20 : Salsa20Cipher), s20.WF → n < budget →
    ∀ (xor : Bool) (pre mid : List Nat), mid.length = n →
      Salsa20Cipher.cipherLoop xor budget s20 (pre ++ mid) pre.length n =
        .ret () ((Salsa20Cipher.keystream n s20).1,
          pre ++ (if xor then
            List.zipWith (fun x y => x ^^^ y) mid (Salsa20Cipher.keystream n s20).2
          else (Salsa20Cipher.keystream n s20).2)) := by
  intro budget
  induction budget with
  | zero => intro n s20 _ h; omega
  | succ budget ih =>
    intro n s20 hwf hn xor pre mid hmid
    by_cases hn0 : n = 0
    · subst hn0
      have : mid = [] := List.eq_nil_of_length_eq_zero hmid
      subst this
      rw [cipherLoop_done]
      cases xor <;> simp [Salsa20Cipher.keystream]
    · obtain ⟨s1, hs1, hk1, hwf1, hlt1⟩ : ∃ s1 : Salsa20Cipher,
          (∀ (xor : Bool) (p : List Nat) (off : Nat),
            Salsa20Cipher.cipherLoop xor (budget + 1) s20 p off n =
              Salsa20Cipher.cipherLoop xor (budget + 1) s1 p off n) ∧
            Salsa20Cipher.keystream n s20 = Salsa20Cipher.keystream n s1 ∧ s1.WF ∧
            s1.outputPos < 64 := by
        by_cases h64 : s20.outputPos = 64
        · refine ⟨s20.next, fun xor p off => cipherLoop_at_64 xor budget s20 p off n h64 (by omega),
            keystream_at_64 n s20 h64 (by omega), next_WF s20 hwf.1, ?_⟩
          show (0 : Int) < 64
          decide
        · exact ⟨s20, fun _ _ _ => rfl, rfl, hwf, by have := hwf.2.2; omega⟩
      obtain ⟨hlen, hpos0, _⟩ := hwf1
      obtain ⟨c, hcdef⟩ : ∃ c, c = if n < 64 - s1.outputPos.toNat then n
          else 64 - s1.outputPos.toNat := ⟨_, rfl⟩
      have hc1 : 0 < c := by rw [hcdef]; split <;> omega
      have hcn : c ≤ n := by rw [hcdef]; split <;> omega
      have hc64 : s1.outputPos + c ≤ 64 := by rw [hcdef]; split <;> omega
      have hwfc : Salsa20Cipher.WF { s1 with outputPos := s1.outputPos + c } :=
        ⟨hlen, by show 0 ≤ s1.outputPos + (c : Int); omega,
          by show s1.outputPos + (c : Int) ≤ 64; omega⟩
      have hks : Salsa20Cipher.keystream n s20 =
          ((Salsa20Cipher.keystream (n - c) { s1 with outputPos := s1.outputPos + c }).1,
            (s1.output.drop s1.outputPos.toNat).take c ++
              (Salsa20Cipher.keystream (n - c) { s1 with outputPos := s1.outputPos + c }).2) := by
        have hnc : n = c + (n - c) := by omega
        rw [hk1]
        conv_lhs => rw [hnc]
        rw [keystream_add, keystream_chunk c s1 hlen hpos0 hc64]
      have hrun := ih (n - c) { s1 with outputPos := s1.outputPos + c } hwfc (by omega)
      have hK2 := keystream_length (n - c) { s1 with outputPos := s1.outputPos + c }
      rw [hks]
      generalize Salsa20Cipher.keystream (n - c) { s1 with outputPos := s1.outputPos + c } = r
        at hrun hK2
      have hksl : ((s1.output.drop s1.outputPos.toNat).take c).length = c := by
        rw [List.length_take, List.length_drop, hlen]; omega
      rw [hs1]
      have hm1 : (mid.take c).length = c := by rw [List.length_take]; omega
      have hm2 : (mid.drop c).length = n - c := by rw [List.length_drop]; omega
      have hsplit : mid = mid.take c ++ mid.drop c := (List.take_append_drop c mid).symm
      have hstep := cipherLoop_step xor budget s1 pre (mid.take c) (mid.drop c) hlen hpos0 hlt1
        (by omega) (by rw [hm1, hm2, Nat.add_sub_cancel' hcn]; exact hcdef)
      rw [← hsplit, hm1, hm2, Nat.add_sub_cancel' hcn] at hstep
      rw [hstep]
      generalize (s1.output.drop s1.outputPos.toNat).take c = ks at *
      cases xor with
      | true =>
        simp only [if_true]
        have hpre : (pre ++ List.zipWith (fun x y => x ^^^ y) (mid.take c) ks).length =
            pre.length + c := by
          rw [List.length_append, List.length_zipWith, hm1, hksl, Nat.min_self]
        have := hrun true (pre ++ List.zipWith (fun x y => x ^^^ y) (mid.take c) ks)
          (mid.drop c) hm2
        rw [hpre, List.append_assoc] at this
        rw [this]
        simp only [if_true, List.append_assoc]
        congr 3
        conv_rhs => rw [hsplit]
        rw [List.zipWith_append _ _ _ _ _ (by rw [hm1, hksl])]
      | false =>
        simp only [Bool.false_eq_true, if_false]
        have hpre : (pre ++ ks).length = pre.length + c := by
          rw [List.length_append, hksl]
        have := hrun false (pre ++ ks) (mid.drop c) hm2
        rw [hpre, List.append_assoc] at this
        rw [this]
        simp only [Bool.false_eq_true, if_false, List.append_assoc]

/-- What `Cipher` returns, by the positional keystream. -/
theorem Cipher_eq_keystream (s20 : Salsa20Cipher) (hwf : s20.WF) (p : List Nat) (xor : Bool) :
    s20.Cipher p xor =
      .ret () ((Salsa20Cipher.keystream p.length s20).1,
        if xor then
          List.zipWith (fun x y => x ^^^ y) p (Salsa20Cipher.keystream p.length s20).2
        else (Salsa20Cipher.keystream p.length s20).2) := by
  have h := cipherLoop_eq_keystream (p.length + 1) p.length s20 hwf (Nat.lt_succ_self _) xor [] p
    rfl
  simp only [List.nil_append, List.length_nil] at h
  exact h

/-- C21: for every cipher state `s` with `0 <= outputPos <= 64`, every mode and
all byte strings `a` and `b`, `Cipher` on `a` from `s` and then `Cipher` on `b`
both return and give the same output bytes and the same final cipher state as
one call of `Cipher` on `a ++ b` from `s`, which returns too; the states between
and after the calls have `0 <= outputPos <= 64` again, and none of the three
calls reaches the panic "incorrect code in SalsaRandomStream.Read". -/
theorem Cipher_split_independent (s20 : Salsa20Cipher) (a b : List Nat) (xor : Bool)
    (hout : s20.output.length = 64) (hlo : 0 ≤ s20.outputPos) (hhi : s20.outputPos ≤ 64) :
    ∃ (s1 s2 : Salsa20Cipher) (a' b' : List Nat),
      s20.Cipher a xor = .ret () (s1, a') ∧
      s1.Cipher b xor = .ret () (s2, b') ∧
      s20.Cipher (a ++ b) xor = .ret () (s2, a' ++ b') ∧
      a'.length = a.length ∧ b'.length = b.length ∧
      (0 ≤ s1.outputPos ∧ s1.outputPos ≤ 64) ∧ (0 ≤ s2.outputPos ∧ s2.outputPos ≤ 64) ∧
      (∀ st, s20.Cipher a xor ≠ .panic "incorrect code in SalsaRandomStream.Read" st) ∧
      (∀ st, s1.Cipher b xor ≠ .panic "incorrect code in SalsaRandomStream.Read" st) ∧
      (∀ st, s20.Cipher (a ++ b) xor ≠ .panic "incorrect code in SalsaRandomStream.Read" st) := by
  have hwf : s20.WF := ⟨hout, hlo, hhi⟩
  have hwf1 := keystream_WF a.length s20 hwf
  have hwf2 := keystream_WF b.length _ hwf1
  have ha := Cipher_eq_keystream s20 hwf a xor
  have hb := Cipher_eq_keystream _ hwf1 b xor
  have hab := Cipher_eq_keystream s20 hwf (a ++ b) xor
  have hla := keystream_length a.length s20
  have hlb := keystream_length b.length (Salsa20Cipher.keystream a.length s20).1
  rw [List.length_append, keystream_add] at hab
  simp only at hab
  have hcat : (if xor then
        List.zipWith (fun x y => x ^^^ y) (a ++ b)
          ((Salsa20Cipher.keystream a.length s20).2 ++
            (Salsa20Cipher.keystream b.length (Salsa20Cipher.keystream a.length s20).1).2)
      else (Salsa20Cipher.keystream a.length s20).2 ++
            (Salsa20Cipher.keystream b.length (Salsa20Cipher.keystream a.length s20).1).2) =
      (if xor then List.zipWith (fun x y => x ^^^ y) a (Salsa20Cipher.keystream a.length s20).2
        else (Salsa20Cipher.keystream a.length s20).2) ++
      (if xor then List.zipWith (fun x y => x ^^^ y) b
          (Salsa20Cipher.keystream b.length (Salsa20Cipher.keystream a.length s20).1).2
        else (Salsa20Cipher.keystream b.length (Salsa20Cipher.keystream a.length s20).1).2) := by
    cases xor with
    | true =>
      simp only [if_true]
      rw [List.zipWith_append _ _ _ _ _ hla.symm]
    | false => simp only [Bool.false_eq_true, if_false]
  rw [hcat] at hab
  refine ⟨_, _, _, _, ha, hb, hab, ?_, ?_, ⟨hwf1.2.1, hwf1.2.2⟩, ⟨hwf2.2.1, hwf2.2.2⟩, ?_, ?_, ?_⟩
  · cases xor with
    | true => simp only [if_true]; rw [List.length_zipWith, hla, Nat.min_self]
    | false => simp only [Bool.false_eq_true, if_false]; exact hla
  · cases xor with
    | true => simp only [if_true]; rw [List.length_zipWith, hlb, Nat.min_self]
    | false => simp only [Bool.false_eq_true, if_false]; exact hlb
  · intro st h; rw [ha] at h; exact Outcome.noConfusion h
  · intro st h; rw [hb] at h; exact Outcome.noConfusion h
  · intro st h; rw [hab] at h; exact Outcome.noConfusion h

/-- C21 at a concrete input: a state with `outputPos = 62`, three bytes and then
five bytes in XOR mode, so that the first call stops inside a block, and the
second call and the call on all eight bytes cross the end of the block. -/
theorem Cipher_split_independent_witness :
    ∃ (s1 s2 : Salsa20Cipher) (a' b' : List Nat),
      Salsa20Cipher.Cipher ⟨List.replicate 16 0, List.replicate 64 0, 62⟩ [1, 2, 3] true =
        .ret () (s1, a') ∧
      s1.Cipher [4, 5, 6, 7, 8] true = .ret () (s2, b') ∧
      Salsa20Cipher.Cipher ⟨List.replicate 16 0, List.replicate 64 0, 62⟩
        [1, 2, 3, 4, 5, 6, 7, 8] true = .ret () (s2, a' ++ b') := by
  obtain ⟨s1, s2, a', b', h1, h2, h3, _⟩ := Cipher_split_independent
    ⟨List.replicate 16 0, List.replicate 64 0, 62⟩ [1, 2, 3] [4, 5, 6, 7, 8] true rfl
    (by decide) (by decide)
  exact ⟨s1, s2, a', b', h1, h2, h3⟩

/-! ## The buffer of the envelope is never full between operations (C22) -/

/-- A `Write` that returns from a state whose buffer is not full leaves a
buffer that is not full, of the same capacity. -/
theorem Write_ret_not_full {σ β : Type} (W : Writer σ) (B : BlockMode β) (budget : Nat)
    (ke ke' : keepassEncoder σ β) (in_ : List Nat) (r : Int × Option Error)
    (hlt : ke.buffer.len < ke.buffer.cap) (h : ke.Write W B budget in_ = .ret r ke') :
    ke'.buffer.len < ke'.buffer.cap ∧ ke'.buffer.cap = ke.buffer.cap := by
  cases hs : ke.stickErr with
  | some e =>
    unfold keepassEncoder.Write at h
    rw [hs] at h
    simp only [Outcome.ret.injEq] at h
    rw [← h.2]
    exact ⟨hlt, rfl⟩
  | none =>
    by_cases hfit : ke.buffer.len + in_.length < ke.buffer.cap
    · unfold keepassEncoder.Write at h
      rw [hs] at h
      simp only at h
      rw [if_pos hfit] at h
      simp only [Outcome.ret.injEq] at h
      rw [← h.2]
      simp only [Slice.cap] at hlt hfit ⊢
      rw [window_copy_length _ _ _ _ (by omega) (by omega)]
      exact ⟨hfit, rfl⟩
    · rw [Write_fill_panics W B budget ke in_ hs hlt (by omega)] at h
      exact Outcome.noConfusion h

/-- A sequence of calls of `Write` that all return, from a state whose buffer is
not full, ends with a buffer that is not full, of the same capacity. -/
theorem WriteSeq_ret_not_full {σ β : Type} (W : Writer σ) (B : BlockMode β) (budget : Nat)
    (ins : List (List Nat)) :
    ∀ (ke0 ke : keepassEncoder σ β) (rs : List (Int × Option Error)),
      ke0.buffer.len < ke0.buffer.cap →
      keepassEncoder.WriteSeq W B budget ins ke0 = .ret rs ke →
      ke.buffer.len < ke.buffer.cap ∧ ke.buffer.cap = ke0.buffer.cap := by
  induction ins with
  | nil =>
    intro ke0 ke rs hlt h
    simp only [keepassEncoder.WriteSeq, Outcome.ret.injEq] at h
    rw [← h.2]
    exact ⟨hlt, rfl⟩
  | cons in_ ins ih =>
    intro ke0 ke rs hlt h
    simp only [keepassEncoder.WriteSeq] at h
    cases h1 : ke0.Write W B budget in_ with
    | panic msg k => rw [h1] at h; simp at h
    | hang k => rw [h1] at h; simp at h
    | ret r ke1 =>
      rw [h1] at h
      simp only at h
      obtain ⟨a1, a2⟩ := Write_ret_not_full W B budget ke0 ke1 in_ r hlt h1
      cases h2 : keepassEncoder.WriteSeq W B budget ins ke1 with
      | panic msg k => rw [h2] at h; simp at h
      | hang k => rw [h2] at h; simp at h
      | ret rs1 ke2 =>
        rw [h2] at h
        simp only [Outcome.ret.injEq] at h
        obtain ⟨b1, b2⟩ := ih ke1 ke2 rs1 a1 h2
        rw [← h.2]
        exact ⟨b1, b2.trans a2⟩

/-- A panic of the flush loop is the panic of a slice expression or comes from
the sink. -/
theorem flushLoop_panic_msg {σ β : Type} (W : Writer σ) (budget : Nat) :
    ∀ (ke st : keepassEncoder σ β) (offset : Int) (bufLen : Nat) (msg : String),
      keepassEncoder.flushLoop W budget ke offset bufLen = .panic msg st →
      msg = sliceBounds ∨ ∃ s q s', W.Write s q = .panic msg s' := by
  induction budget with
  | zero => intro ke st offset bufLen msg h; simp [keepassEncoder.flushLoop] at h
  | succ budget ih =>
    intro ke st offset bufLen msg h
    rw [keepassEncoder.flushLoop] at h
    split at h
    · split at h
      · simp only [Outcome.panic.injEq] at h
        exact Or.inl h.1.symm
      · split at h
        · rename_i hw
          simp only [Outcome.panic.injEq] at h
          exact Or.inr ⟨_, _, _, h.1 ▸ hw⟩
        · simp at h
        · split at h
          · simp at h
          · exact ih _ _ _ _ _ h
    · simp at h

/-- With a block size of 16 and a capacity that is a multiple of 16, `Close`
on a buffer that is not full passes the check of the end of the padding: a
panic with the message of that check could only be a panic of the sink. -/
theorem Close_padding_fits {σ β : Type} (W : Writer σ) (B : BlockMode β) (budget : Nat)
    (ke : keepassEncoder σ β) (hlt : ke.buffer.len < ke.buffer.cap)
    (hcap : ke.buffer.cap % 16 = 0) (hbs : B.BlockSize ke.blocker = 16)
    (hW : ∀ s q s', W.Write s q ≠
      .panic "keepassEncoder.Close: tried to put padding beyond end of buffer" s') :
    ke.buffer.len / 16 * 16 + 16 ≤ ke.buffer.cap ∧
      ∀ st, ke.Close W B budget ≠
        .panic "keepassEncoder.Close: tried to put padding beyond end of buffer" st := by
  have hpad : ke.buffer.len / 16 * 16 + 16 ≤ ke.buffer.cap := by omega
  refine ⟨hpad, ?_⟩
  intro st h
  unfold keepassEncoder.Close at h
  cases hs : ke.stickErr with
  | some e => rw [hs] at h; simp at h
  | none =>
    rw [hs] at h
    simp only [hbs] at h
    rw [if_neg (by decide), if_neg (by omega)] at h
    split at h
    · simp at h
    · split at h
      · rename_i hc
        simp only [Outcome.panic.injEq] at h
        unfold keepassEncoder.cryptBlocks at hc
        simp only [hbs] at hc
        rw [if_neg (by decide)] at hc
        split at hc
        · simp only [Outcome.panic.injEq] at hc
          rw [h.1] at hc
          exact absurd hc.1 (by decide)
        · simp at hc
      · simp at h
      · split at h
        · rename_i hf
          simp only [Outcome.panic.injEq] at h
          rw [h.1] at hf
          rcases flushLoop_panic_msg W budget _ _ _ _ _ hf with hm | ⟨s, q, s', hw⟩
          · exact absurd hm (by decide)
          · exact hW s q s' hw
        · simp at h
        · simp at h

/-- C22: for every encoder state with `len(buffer) < cap(buffer)` and every
sequence of `Write` calls from it that all return (with or without an error),
the state reached has `len(buffer) < cap(buffer)` and the capacity it had, and
so has the state after one more `Write` that returns. With a capacity that is a
multiple of 16 and the block size 16 of AES, the end of the padding that
`Close` computes in such a state is within the capacity, so the check "tried to
put padding beyond end of buffer" of `Close` does not fail (a panic with that
message could only be raised by the sink itself). The encoder that
`NewAES256_CBC_PCKS7_Encoder` makes is such a state: length 0, capacity 2048. -/
theorem Write_keeps_buffer_not_full {σ β : Type} (W : Writer σ) (B : BlockMode β) (budget : Nat)
    (ke0 ke : keepassEncoder σ β) (ins : List (List Nat)) (rs : List (Int × Option Error))
    (hlt : ke0.buffer.len < ke0.buffer.cap)
    (h : keepassEncoder.WriteSeq W B budget ins ke0 = .ret rs ke) :
    (ke.buffer.len < ke.buffer.cap ∧ ke.buffer.cap = ke0.buffer.cap) ∧
    (∀ (in_ : List Nat) (r : Int × Option Error) (ke1 : keepassEncoder σ β),
      ke.Write W B budget in_ = .ret r ke1 → ke1.buffer.len < ke1.buffer.cap) ∧
    (ke0.buffer.cap % 16 = 0 → B.BlockSize ke.blocker = 16 →
      ke.buffer.len / 16 * 16 + 16 ≤ ke.buffer.cap ∧
      ((∀ s q s', W.Write s q ≠
          .panic "keepassEncoder.Close: tried to put padding beyond end of buffer" s') →
        ∀ st, ke.Close W B budget ≠
          .panic "keepassEncoder.Close: tried to put padding beyond end of buffer" st)) ∧
    (∀ (newCBCEncrypter : List Nat → List Nat → β) (w : σ) (key iv : List Nat),
      (NewAES256_CBC_PCKS7_Encoder newCBCEncrypter w key iv).buffer.len <
          (NewAES256_CBC_PCKS7_Encoder newCBCEncrypter w key iv).buffer.cap ∧
        (NewAES256_CBC_PCKS7_Encoder newCBCEncrypter w key iv).buffer.cap % 16 = 0) := by
  have hinv := WriteSeq_ret_not_full W B budget ins ke0 ke rs hlt h
  refine ⟨hinv, ?_, ?_, ?_⟩
  · intro in_ r ke1 h1
    exact (Write_ret_not_full W B budget ke ke1 in_ r hinv.1 h1).1
  · intro hcap hbs
    have hcap1 : ke.buffer.cap % 16 = 0 := by rw [hinv.2]; exact hcap
    have hpad : ke.buffer.len / 16 * 16 + 16 ≤ ke.buffer.cap := by
      have := hinv.1
      omega
    exact ⟨hpad, fun hW => (Close_padding_fits W B budget ke hinv.1 hcap1 hbs hW).2⟩
  · intro newCBCEncrypter w key iv
    simp only [NewAES256_CBC_PCKS7_Encoder, Slice.make, Slice.cap, List.length_replicate]
    decide

/-- C22 at a concrete input: two writes, of three and of two bytes, to the
encoder as `NewAES256_CBC_PCKS7_Encoder` makes it. Both return, and the buffer
holds 5 of 2048 bytes. -/
theorem Write_keeps_buffer_not_full_witness :
    ∃ (rs : List (Int × Option Error)) (ke : keepassEncoder (List Nat) Unit),
      keepassEncoder.WriteSeq acceptAll plainBlocks 2 [[1, 2, 3], [4, 5]]
          (NewAES256_CBC_PCKS7_Encoder (fun _ _ => ()) ([] : List Nat)
            (List.replicate 32 0) (List.replicate 16 0)) = .ret rs ke ∧
        rs = [(3, none), (2, none)] ∧ ke.buffer.len = 5 ∧ ke.buffer.len < ke.buffer.cap ∧
        ke.buffer.cap = 2048 := by
  have hrun : keepassEncoder.WriteSeq acceptAll plainBlocks 2 [[1, 2, 3], [4, 5]]
      (NewAES256_CBC_PCKS7_Encoder (fun _ _ => ()) ([] : List Nat)
        (List.replicate 32 0) (List.replicate 16 0)) =
      .ret [(3, none), (2, none)]
        { writer := [], blocker := (),
          buffer := { arr := [1, 2, 3, 4, 5] ++ List.replicate 2043 0, len := 5 },
          stickErr := none } := by
    decide!
  have h := Write_keeps_buffer_not_full acceptAll plainBlocks 2 _ _ _ _
    (by simp only [NewAES256_CBC_PCKS7_Encoder, Slice.make, Slice.cap, List.length_replicate]
        decide) hrun
  refine ⟨_, _, hrun, rfl, rfl, h.1.1, ?_⟩
  rw [h.1.2]
  simp only [NewAES256_CBC_PCKS7_Encoder, Slice.make, Slice.cap, List.length_replicate]

end keepass2
